import Mathlib

/-!
Shallow embedding of the MangaSearch bulk-import pipeline
(`src/data/bulk_insert.py`, `src/data/simple_import.py`) and proofs of the
specification claims about it.

Python JSON values are modelled by `PyVal`; numbers are modelled as rationals
(one constructor covers int and float).  Wall-clock timestamps are threaded as
explicit parameters.
-/

/-- A Python/JSON value as handled by the importer scripts. -/
inductive PyVal where
  | none
  | bool (b : Bool)
  | num (q : ℚ)
  | str (s : String)
  | list (l : List PyVal)
  | dict (d : List (String × PyVal))

mutual

/-- Boolean equality on `PyVal` (Python `==` restricted to equal shapes). -/
def pyBeq : PyVal → PyVal → Bool
  | .none, .none => true
  | .bool a, .bool b => a == b
  | .num a, .num b => decide (a = b)
  | .str a, .str b => a == b
  | .list a, .list b => pyBeqL a b
  | .dict a, .dict b => pyBeqD a b
  | _, _ => false

def pyBeqL : List PyVal → List PyVal → Bool
  | [], [] => true
  | a :: as, b :: bs => pyBeq a b && pyBeqL as bs
  | _, _ => false

def pyBeqD : List (String × PyVal) → List (String × PyVal) → Bool
  | [], [] => true
  | (k, a) :: as, (l, b) :: bs => k == l && pyBeq a b && pyBeqD as bs
  | _, _ => false

end

mutual

theorem pyBeq_eq : ∀ a b, pyBeq a b = true → a = b
  | .none, .none, _ => rfl
  | .bool a, .bool b, h => by
      simp only [pyBeq, beq_iff_eq] at h; rw [h]
  | .num a, .num b, h => by
      simp only [pyBeq, decide_eq_true_eq] at h; rw [h]
  | .str a, .str b, h => by
      simp only [pyBeq, beq_iff_eq] at h; rw [h]
  | .list a, .list b, h => by
      rw [pyBeqL_eq a b (by simpa [pyBeq] using h)]
  | .dict a, .dict b, h => by
      rw [pyBeqD_eq a b (by simpa [pyBeq] using h)]

theorem pyBeqL_eq : ∀ a b, pyBeqL a b = true → a = b
  | [], [], _ => rfl
  | a :: as, b :: bs, h => by
      have h' : pyBeq a b = true ∧ pyBeqL as bs = true := by
        simpa [pyBeqL, Bool.and_eq_true] using h
      rw [pyBeq_eq a b h'.1, pyBeqL_eq as bs h'.2]

theorem pyBeqD_eq : ∀ a b, pyBeqD a b = true → a = b
  | [], [], _ => rfl
  | (k, a) :: as, (l, b) :: bs, h => by
      have h' : (k == l) = true ∧ pyBeq a b = true ∧ pyBeqD as bs = true := by
        simpa [pyBeqD, Bool.and_eq_true, and_assoc] using h
      have hk : k = l := by simpa [beq_iff_eq] using h'.1
      rw [hk, pyBeq_eq a b h'.2.1, pyBeqD_eq as bs h'.2.2]

end

mutual

theorem pyBeq_refl : ∀ a, pyBeq a a = true
  | .none => rfl
  | .bool a => by simp [pyBeq]
  | .num a => by simp [pyBeq]
  | .str a => by simp [pyBeq]
  | .list a => by simpa [pyBeq] using pyBeqL_refl a
  | .dict a => by simpa [pyBeq] using pyBeqD_refl a

theorem pyBeqL_refl : ∀ a, pyBeqL a a = true
  | [] => rfl
  | a :: as => by simp [pyBeqL, pyBeq_refl a, pyBeqL_refl as]

theorem pyBeqD_refl : ∀ a, pyBeqD a a = true
  | [] => rfl
  | (k, a) :: as => by simp [pyBeqD, pyBeq_refl a, pyBeqD_refl as]

end

instance : DecidableEq PyVal := fun a b =>
  decidable_of_iff (pyBeq a b = true) ⟨pyBeq_eq a b, fun h => h ▸ pyBeq_refl a⟩

instance : BEq PyVal := ⟨pyBeq⟩

instance : LawfulBEq PyVal where
  eq_of_beq h := pyBeq_eq _ _ h
  rfl := pyBeq_refl _

/-- Python truthiness (`if not x`): falsy are None, False, 0, "", [], and the
empty dict. -/
def pyTruthy : PyVal → Bool
  | .none => false
  | .bool b => b
  | .num q => q != 0
  | .str s => s != ""
  | .list l => l != []
  | .dict d => d != []

/-- `d.get(k)` on a Python dict: `None` when the key is absent. -/
def dget (d : List (String × PyVal)) (k : String) : PyVal :=
  match d.lookup k with
  | some v => v
  | Option.none => PyVal.none

/-- `d.get(k, default)`: the default is used only when the key is absent. -/
def dgetD (d : List (String × PyVal)) (k : String) (dflt : PyVal) : PyVal :=
  match d.lookup k with
  | some v => v
  | Option.none => dflt

/-- Stand-in textual form of a number; Python prints floats in decimal, this
model prints a non-integral rational as numerator/denominator.  No claim
depends on the exact text. -/
def numStr (q : ℚ) : String :=
  if q.den = 1 then toString q.num else toString q.num ++ "/" ++ toString q.den

mutual

/-- Python `str(v)`. -/
def pyStr : PyVal → String
  | .none => "None"
  | .bool b => if b then "True" else "False"
  | .num q => numStr q
  | .str s => s
  | .list l => "[" ++ pyReprL l ++ "]"
  | .dict d => "\x7b" ++ pyReprD d ++ "\x7d"

/-- Python `repr(v)`: like `str` but strings are quoted. -/
def pyRepr : PyVal → String
  | .str s => "'" ++ s ++ "'"
  | .none => "None"
  | .bool b => if b then "True" else "False"
  | .num q => numStr q
  | .list l => "[" ++ pyReprL l ++ "]"
  | .dict d => "\x7b" ++ pyReprD d ++ "\x7d"

def pyReprL : List PyVal → String
  | [] => ""
  | [a] => pyRepr a
  | a :: b :: rest => pyRepr a ++ ", " ++ pyReprL (b :: rest)

def pyReprD : List (String × PyVal) → String
  | [] => ""
  | [(k, a)] => "'" ++ k ++ "': " ++ pyRepr a
  | (k, a) :: b :: rest => "'" ++ k ++ "': " ++ pyRepr a ++ ", " ++ pyReprD (b :: rest)

end

/-- Model of Python `str.strip()`: remove leading and trailing whitespace
(list-based so that it can be reasoned about elementwise). -/
def pyStrip (s : String) : String :=
  String.mk (((s.toList.dropWhile Char.isWhitespace).reverse.dropWhile
    Char.isWhitespace).reverse)

/-- Numeric value of a digit list, most significant first. -/
def digitsVal (l : List Char) : Nat :=
  l.foldl (fun a c => a * 10 + (c.toNat - 48)) 0

/-- Model of Python `float(s)` on plain decimal literals: optional surrounding
whitespace, optional sign, digits with at most one decimal point, at least one
digit.  (Exponents and inf/nan are not modelled; the importer's inputs are
plain chapter numbers.) -/
def parseFloat (s : String) : Option ℚ :=
  let cs := (pyStrip s).toList
  let signed : ℚ × List Char :=
    match cs with
    | '-' :: r => (-1, r)
    | '+' :: r => (1, r)
    | r => (1, r)
  let sign := signed.1
  let rest := signed.2
  let ip := rest.takeWhile Char.isDigit
  let r1 := rest.dropWhile Char.isDigit
  match r1 with
  | [] => if ip = [] then Option.none else some (sign * digitsVal ip)
  | '.' :: r2 =>
      let fp := r2.takeWhile Char.isDigit
      let r3 := r2.dropWhile Char.isDigit
      if r3 = [] then
        if ip = [] && fp = [] then Option.none
        else some (sign * ((digitsVal ip : ℚ) + (digitsVal fp : ℚ) / (10 : ℚ) ^ fp.length))
      else Option.none
  | _ => Option.none

/-- Python `set.add` on a deduplicating list (insertion order kept; Python set
iteration order is unspecified, so any fixed order is a sound determinization). -/
def addName (l : List String) (s : String) : List String :=
  if s ∈ l then l else l ++ [s]

/-- Result of one `_extract_names` call: the name set and whether the
`except (TypeError, AttributeError)` fallback branch ran. -/
structure ExtractResult where
  names : List String
  usedFallback : Bool
deriving DecidableEq

/-- Body of the `for item in data_list` loop of
`MangaBulkImporter._extract_names` (bulk_insert.py:174-192), one item. -/
def extractNamesItem (names : List String) (item : PyVal) : List String :=
  match item with
  | .str s => if pyStrip s ≠ "" then addName names (pyStrip s) else names
  | .dict d =>
      let cands := [dget d "name", dget d "Name", dget d "title", dget d "Title"]
      let name : PyVal :=
        match cands.find? pyTruthy with
        | some v => v
        | Option.none => .str (pyStr (.dict d))
      match name with
      | .str s => if pyTruthy (.str s) && pyStrip s ≠ "" then addName names (pyStrip s) else names
      | _ => names
  | .none => names
  | v => if pyStrip (pyStr v) ≠ "" then addName names (pyStrip (pyStr v)) else names

/-- `MangaBulkImporter._extract_names` (bulk_insert.py:167-202).  Iterating a
string yields its characters and a dict yields its keys; iterating a number or
boolean raises `TypeError`, which the source catches, logs, and degrades to
treating the whole field as a single string when it is one (it never is in
that branch). -/
def extract_names (data_list : PyVal) : ExtractResult :=
  if ¬ pyTruthy data_list then ⟨[], false⟩
  else
    match data_list with
    | .list l => ⟨l.foldl extractNamesItem [], false⟩
    | .str s =>
        ⟨(s.toList.map (fun c => PyVal.str (String.mk [c]))).foldl extractNamesItem [],
         false⟩
    | .dict d => ⟨(d.map (fun kv => PyVal.str kv.1)).foldl extractNamesItem [], false⟩
    | .num _ => ⟨[], true⟩
    | .bool _ => ⟨[], true⟩
    | .none => ⟨[], false⟩

/-- The `MangaData` dataclass of bulk_insert.py:33-64.  Fields keep the raw
Python values; typing is dynamic in the source. -/
structure MangaData where
  id : PyVal
  state : PyVal
  merged_with : PyVal
  title : PyVal
  native_title : PyVal
  romanized_title : PyVal
  secondary_titles : PyVal
  cover : PyVal
  authors : PyVal
  artists : PyVal
  description : PyVal
  year : PyVal
  status : PyVal
  is_licensed : PyVal
  has_anime : PyVal
  anime : PyVal
  content_rating : PyVal
  type : PyVal
  rating : PyVal
  final_volume : PyVal
  final_chapter : PyVal
  total_chapters : PyVal
  links : PyVal
  publishers : PyVal
  relationships : PyVal
  genres : PyVal
  tags : PyVal
  last_updated_at : PyVal
  source : PyVal
deriving DecidableEq

/-- A raw decoded JSON object (one input line). -/
abbrev RawRecord := List (String × PyVal)

/-- The string-to-float coercion applied to `final_chapter`
(bulk_insert.py:238-243). -/
def coerceFinalChapter (v : PyVal) : PyVal :=
  match v with
  | .str s =>
      match parseFloat s with
      | some q => .num q
      | Option.none => .none
  | _ => v

/-- `MangaBulkImporter._parse_manga_json` (bulk_insert.py:204-245).  `now` is
the value `datetime.now().isoformat()` would produce, threaded explicitly. -/
def parse_manga_json (now : String) (data : RawRecord) : MangaData :=
  { id := dget data "id"
    state := dgetD data "state" (.str "active")
    merged_with := dget data "merged_with"
    title := dgetD data "title" (.str "")
    native_title := dget data "native_title"
    romanized_title := dget data "romanized_title"
    secondary_titles := dgetD data "secondary_titles" (.dict [])
    cover := dgetD data "cover" (.dict [])
    authors := dgetD data "authors" (.list [])
    artists := dgetD data "artists" (.list [])
    description := dget data "description"
    year := dget data "year"
    status := dget data "status"
    is_licensed := dgetD data "is_licensed" (.bool false)
    has_anime := dgetD data "has_anime" (.bool false)
    anime := dget data "anime"
    content_rating := dget data "content_rating"
    type := dgetD data "type" (.str "manga")
    rating := dget data "rating"
    final_volume := dget data "final_volume"
    final_chapter := coerceFinalChapter (dget data "final_chapter")
    total_chapters := dget data "total_chapters"
    links := dgetD data "links" (.list [])
    publishers := dget data "publishers"
    relationships := dgetD data "relationships" (.dict [])
    genres := dgetD data "genres" (.list [])
    tags := dget data "tags"
    last_updated_at := dgetD data "last_updated_at" (.str now)
    source := dgetD data "source" (.dict []) }

/-- One input line, classified by what `line.strip()` / `json.loads(line)`
would do with it. -/
inductive Line where
  | blank
  | invalid
  | valid (r : RawRecord)
deriving DecidableEq

/-- Loop body state of `parse_jsonl_file`: accumulated records and the
1-based line numbers of logged JSON decode errors. -/
structure ParseState where
  records : List MangaData
  errors : List Nat
deriving DecidableEq

/-- `MangaBulkImporter.parse_jsonl_file` (bulk_insert.py:131-165): blank lines
skipped, decode failures logged with their 1-based line number and skipped,
valid lines normalized and appended in order. -/
def parse_line_step (now : String) (acc : ParseState × Nat) (l : Line) :
    ParseState × Nat :=
  match l with
  | .blank => (acc.1, acc.2 + 1)
  | .invalid => (⟨acc.1.records, acc.1.errors ++ [acc.2]⟩, acc.2 + 1)
  | .valid r => (⟨acc.1.records ++ [parse_manga_json now r], acc.1.errors⟩, acc.2 + 1)

def parse_jsonl_file (now : String) (lines : List Line) : ParseState :=
  (lines.foldl (parse_line_step now) (⟨[], []⟩, 1)).1

mutual

/-- Model of `orjson.dumps(v).decode()`: JSON text with double quotes.  Only
used for the `anime` column payload; no claim inspects the text. -/
def jsonDumps : PyVal → String
  | .none => "null"
  | .bool b => if b then "true" else "false"
  | .num q => numStr q
  | .str s => "\"" ++ s ++ "\""
  | .list l => "[" ++ jsonDumpsL l ++ "]"
  | .dict d => "\x7b" ++ jsonDumpsD d ++ "\x7d"

def jsonDumpsL : List PyVal → String
  | [] => ""
  | [a] => jsonDumps a
  | a :: b :: rest => jsonDumps a ++ "," ++ jsonDumpsL (b :: rest)

def jsonDumpsD : List (String × PyVal) → String
  | [] => ""
  | [(k, a)] => "\"" ++ k ++ "\":" ++ jsonDumps a
  | (k, a) :: b :: rest => "\"" ++ k ++ "\":" ++ jsonDumps a ++ "," ++ jsonDumpsD (b :: rest)

end

/-- The `anime` normalization of bulk_insert.py:329-335: `None` passes, a
string passes, a dict is JSON-serialized, anything else is f-string
formatted. -/
def animeColumn : PyVal → PyVal
  | .none => .none
  | .str s => .str s
  | .dict d => .str (jsonDumps (.dict d))
  | v => .str (pyStr v)

/-- One row of the `manga` bulk insert, i.e. the 18-tuple built at
bulk_insert.py:337-357 (column order id, state, title, native_title,
romanized_title, description, year, status, is_licensed, has_anime, anime,
content_rating, type, rating, final_volume, final_chapter, total_chapters,
last_updated_at); `merged_with` is commented out in the source. -/
structure MangaRow where
  id : PyVal
  state : PyVal
  title : PyVal
  native_title : PyVal
  romanized_title : PyVal
  description : PyVal
  year : PyVal
  status : PyVal
  is_licensed : PyVal
  has_anime : PyVal
  anime : PyVal
  content_rating : PyVal
  type : PyVal
  rating : PyVal
  final_volume : PyVal
  final_chapter : PyVal
  total_chapters : PyVal
  last_updated_at : PyVal
deriving DecidableEq

/-- Build the insert tuple for one record (bulk_insert.py:337-357).
`manga.title or ''` keeps the title only when truthy. -/
def rowOf (m : MangaData) : MangaRow :=
  { id := m.id
    state := m.state
    title := if pyTruthy m.title then m.title else .str ""
    native_title := m.native_title
    romanized_title := m.romanized_title
    description := m.description
    year := m.year
    status := m.status
    is_licensed := m.is_licensed
    has_anime := m.has_anime
    anime := animeColumn m.anime
    content_rating := m.content_rating
    type := m.type
    rating := m.rating
    final_volume := m.final_volume
    final_chapter := m.final_chapter
    total_chapters := m.total_chapters
    last_updated_at := m.last_updated_at }

/-- A stored row of the `manga` table: the business columns plus the
`created_at` / `updated_at` timestamps (modelled as abstract clock ticks). -/
structure StoredManga where
  row : MangaRow
  createdAt : Nat
  updatedAt : Nat
deriving DecidableEq

/-- The `manga` table, keyed by the `id` column. -/
abbrev MangaTable := List (PyVal × StoredManga)

/-- Replace the value bound to key `k` in an association list. -/
def areplace (l : List (PyVal × StoredManga)) (k : PyVal) (v : StoredManga) :
    List (PyVal × StoredManga) :=
  l.map (fun p => if p.1 == k then (k, v) else p)

/-- The `INSERT ... ON CONFLICT (id) DO UPDATE SET` statement of
bulk_insert.py:361-386, one row: a fresh id is inserted with both timestamps
defaulted to the current clock; on conflict every column of the SET list is
overwritten from EXCLUDED and `updated_at` is touched.  The SET list names
every business column of the insert except `type`, so `type` keeps its stored
value; `created_at` is not named and keeps its stored value. -/
def manga_upsert (now : Nat) (tbl : MangaTable) (r : MangaRow) : MangaTable :=
  match tbl.lookup r.id with
  | Option.none => tbl ++ [(r.id, ⟨r, now, now⟩)]
  | some old => areplace tbl r.id ⟨{ r with type := old.row.type }, old.createdAt, now⟩

/-- Python `set.add` for manga ids. -/
def addId (s : List PyVal) (v : PyVal) : List PyVal :=
  if v ∈ s then s else s ++ [v]

/-- `MangaBulkImporter.insert_manga_data` (bulk_insert.py:324-390): builds the
row tuples, records every `manga.id` in `self.manga_ids`, and bulk-upserts. -/
def insert_manga_data (now : Nat) (tbl : MangaTable) (ids : List PyVal)
    (batch : List MangaData) : MangaTable × List PyVal :=
  ((batch.map rowOf).foldl (manga_upsert now) tbl,
   batch.foldl (fun s m => addId s m.id) ids)

/-- A lookup table (`authors`, `artists`, `genres`, `tags`, `publishers`):
rows `(name, id)` with a store-side id sequence. -/
structure LookupTable where
  rows : List (String × Nat)
  nextId : Nat
deriving DecidableEq

/-- An in-memory name-to-id cache (a Python dict). -/
abbrev Cache := List (String × Nat)

/-- Python dict assignment `cache[name] = id`. -/
def cassign (c : Cache) (k : String) (v : Nat) : Cache :=
  if (c.lookup k).isSome then c.map (fun q => if q.1 == k then (k, v) else q)
  else c ++ [(k, v)]

/-- Fold dict assignments over a result list. -/
def cupdate (c : Cache) (kvs : List (String × Nat)) : Cache :=
  kvs.foldl (fun acc p => cassign acc p.1 p.2) c

/-- `INSERT INTO t (name) VALUES ... ON CONFLICT (name) DO NOTHING RETURNING
name, id` (bulk_insert.py:298-306): each name absent from the table is
appended with a fresh id and returned; conflicting names are skipped. -/
def iirStep (acc : LookupTable × List (String × Nat)) (n : String) :
    LookupTable × List (String × Nat) :=
  match acc.1.rows.lookup n with
  | some _ => acc
  | Option.none =>
      (⟨acc.1.rows ++ [(n, acc.1.nextId)], acc.1.nextId + 1⟩,
       acc.2 ++ [(n, acc.1.nextId)])

def insertIgnoreReturning (tbl : LookupTable) (names : List String) :
    LookupTable × List (String × Nat) :=
  names.foldl iirStep (tbl, [])

/-- `SELECT name, id FROM t WHERE name IN (...)` (bulk_insert.py:316-317). -/
def selectByNames (tbl : LookupTable) (names : List String) : List (String × Nat) :=
  tbl.rows.filter (fun p => names.contains p.1)

/-- `MangaBulkImporter._insert_and_cache` (bulk_insert.py:292-321): bulk
insert-or-ignore with RETURNING, cache the returned rows, and when fewer rows
came back than were attempted, one follow-up bulk select over all attempted
names refreshes the cache. -/
def insert_and_cache (tbl : LookupTable) (cache : Cache) (data : List String) :
    LookupTable × Cache :=
  if data = [] then (tbl, cache)
  else
    let ins := insertIgnoreReturning tbl data
    let cache1 := cupdate cache ins.2
    if ins.2.length < data.length then
      (ins.1, cupdate cache1 (selectByNames ins.1 data))
    else (ins.1, cache1)

/-- One lookup table's share of `insert_lookup_data` (bulk_insert.py:267-290):
filter out already-cached names and, when any remain, insert and cache them. -/
def ensure_names (tbl : LookupTable) (cache : Cache) (names : List String) :
    LookupTable × Cache :=
  let newNames := names.filter (fun n => (cache.lookup n).isNone)
  if newNames = [] then (tbl, cache) else insert_and_cache tbl cache newNames

/-- Python `needle in haystack` on strings (substring containment). -/
def pyIn (needle hay : String) : Bool :=
  decide (needle.toList <:+: hay.toList)

/-- Link-type classification of `_insert_links` (bulk_insert.py:547-554). -/
def linkType (link : String) : String :=
  if pyIn "fakku.net" link then "store"
  else if pyIn "mangadex" link || pyIn "mangabaka" link then "reader"
  else if pyIn "anilist" link || pyIn "myanimelist" link then "database"
  else "unknown"

/-- `for x in v` over a Python value: lists yield elements, strings yield
characters, dicts yield keys; non-iterables raise in the source (aborting the
batch) and are modelled as yielding nothing. -/
def pyIter : PyVal → List PyVal
  | .list l => l
  | .str s => s.toList.map (fun c => .str (String.mk [c]))
  | .dict d => d.map (fun p => .str p.1)
  | _ => []

/-- `_insert_secondary_titles` row building (bulk_insert.py:407-422): tuples
`(manga_id, language_code, title, type, note)`.  A truthy non-dict field
would raise in the source and is modelled as contributing nothing. -/
def secondaryTitleRows (batch : List MangaData) :
    List (PyVal × String × PyVal × PyVal × PyVal) :=
  batch.flatMap (fun m =>
    match m.secondary_titles with
    | .dict d =>
        d.flatMap (fun p =>
          match p.2 with
          | .list ts =>
              ts.filterMap (fun ti =>
                match ti with
                | .dict td =>
                    some (m.id, p.1, dgetD td "title" (.str ""), dget td "type",
                      dget td "note")
                | _ => Option.none)
          | _ => [])
    | _ => [])

/-- `_insert_covers` row building (bulk_insert.py:433-440): tuples
`(manga_id, type, url)` for truthy urls. -/
def coverRows (batch : List MangaData) : List (PyVal × String × PyVal) :=
  batch.flatMap (fun m =>
    match m.cover with
    | .dict d => d.filterMap (fun p =>
        if pyTruthy p.2 then some (m.id, p.1, p.2) else Option.none)
    | _ => [])

/-- Join-row building shared by `_insert_manga_authors` / `_artists` /
`_genres` / `_tags` / `_publishers` (bulk_insert.py:451-539): extract the
name set of the field and emit `(manga_id, cached_id)` for each name found in
the cache. -/
def joinRows (cache : Cache) (field : MangaData → PyVal) (batch : List MangaData) :
    List (PyVal × Nat) :=
  batch.flatMap (fun m =>
    (extract_names (field m)).names.filterMap (fun n =>
      (cache.lookup n).map (fun i => (m.id, i))))

/-- `_insert_links` row building (bulk_insert.py:541-556): tuples
`(manga_id, url, link_type)` for truthy links; `manga.links or []` replaces a
falsy field by the empty list.  A truthy non-string link would raise on the
substring test and is modelled as contributing nothing. -/
def linkRows (batch : List MangaData) : List (PyVal × String × String) :=
  batch.flatMap (fun m =>
    (if pyTruthy m.links then pyIter m.links else []).filterMap (fun lv =>
      if pyTruthy lv then
        match lv with
        | .str s => some (m.id, s, linkType s)
        | _ => Option.none
      else Option.none))

/-- `_insert_relationships` row building (bulk_insert.py:568-578): for every
relationship type and related id, a tuple `(manga_id, related_manga_id,
relationship_type)` is emitted exactly when the related id is in
`self.manga_ids`. -/
def relationshipRows (ids : List PyVal) (batch : List MangaData) :
    List (PyVal × PyVal × String) :=
  batch.flatMap (fun m =>
    match m.relationships with
    | .dict rels =>
        rels.flatMap (fun p =>
          match p.2 with
          | .list l =>
              l.filterMap (fun rid =>
                if ids.contains rid then some (m.id, rid, p.1) else Option.none)
          | _ => [])
    | _ => [])

/-- Payload columns of one `manga_external_sources` row
(bulk_insert.py:598-607). -/
structure ExtData where
  external_id : PyVal
  rating : PyVal
  cover_url : PyVal
  last_updated_at : PyVal
  response_data : PyVal
  statistics : PyVal
deriving DecidableEq

/-- `json.dumps(x) if x else None` (bulk_insert.py:605-606). -/
def jsonIfTruthy (v : PyVal) : PyVal :=
  if pyTruthy v then .str (jsonDumps v) else .none

/-- `_insert_external_sources` row building (bulk_insert.py:590-607): one row
per source name that is in the external-sources cache with truthy data. -/
def externalRows (extCache : Cache) (batch : List MangaData) :
    List ((PyVal × Nat) × ExtData) :=
  batch.flatMap (fun m =>
    match m.source with
    | .dict srcs =>
        srcs.filterMap (fun p =>
          match extCache.lookup p.1 with
          | some sid =>
              if pyTruthy p.2 then
                match p.2 with
                | .dict sd =>
                    some ((m.id, sid),
                      ⟨dget sd "id", dget sd "rating", dget sd "cover",
                       dget sd "last_updated_at", jsonIfTruthy (dget sd "response"),
                       jsonIfTruthy (dget sd "statistics")⟩)
                | _ => Option.none
              else Option.none
          | Option.none => Option.none)
    | _ => [])

/-- Insert-or-ignore of a row list into a table (modelled as append-if-absent;
for covers, secondary titles, links and relationship edges the conflict
target is not declared under src/ — modelled from the spec: insert-or-ignore
on the natural composite key, i.e. the full inserted tuple). -/
def saddAll {α : Type} [DecidableEq α] (tbl : List α) (rows : List α) : List α :=
  rows.foldl (fun t r => if r ∈ t then t else t ++ [r]) tbl

/-- Upsert of one `manga_external_sources` row keyed by
`(manga_id, source_id)` (bulk_insert.py:611-623): on conflict every payload
column is overwritten from EXCLUDED. -/
def extUpsert (tbl : List ((PyVal × Nat) × ExtData)) (kv : (PyVal × Nat) × ExtData) :
    List ((PyVal × Nat) × ExtData) :=
  if (tbl.find? (fun p => decide (p.1 = kv.1))).isSome then
    tbl.map (fun p => if p.1 = kv.1 then kv else p)
  else tbl ++ [kv]

/-- The relational store touched by the bulk importer: the primary `manga`
table, the five name lookup tables, the read-only `external_sources` lookup,
the join tables, and the child tables. -/
structure Store where
  manga : MangaTable
  authors : LookupTable
  artists : LookupTable
  genres : LookupTable
  tags : LookupTable
  publishers : LookupTable
  external_sources : LookupTable
  manga_authors : List (PyVal × Nat)
  manga_artists : List (PyVal × Nat)
  manga_genres : List (PyVal × Nat)
  manga_tags : List (PyVal × Nat)
  manga_publishers : List (PyVal × Nat)
  manga_secondary_titles : List (PyVal × String × PyVal × PyVal × PyVal)
  manga_covers : List (PyVal × String × PyVal)
  manga_links : List (PyVal × String × String)
  manga_relationships : List (PyVal × PyVal × String)
  manga_external_sources : List ((PyVal × Nat) × ExtData)
deriving DecidableEq

/-- In-process importer state: the store plus `self.manga_ids` and the six
caches of `MangaBulkImporter.__init__` (bulk_insert.py:74-82). -/
structure RunState where
  store : Store
  manga_ids : List PyVal
  authors_cache : Cache
  artists_cache : Cache
  genres_cache : Cache
  tags_cache : Cache
  publishers_cache : Cache
  external_cache : Cache
deriving DecidableEq

/-- `MangaBulkImporter.load_caches` (bulk_insert.py:100-128) plus the empty
`manga_ids` set: every lookup table is read fully into its cache. -/
def load_caches (s : Store) : RunState :=
  { store := s
    manga_ids := []
    authors_cache := s.authors.rows
    artists_cache := s.artists.rows
    genres_cache := s.genres.rows
    tags_cache := s.tags.rows
    publishers_cache := s.publishers.rows
    external_cache := s.external_sources.rows }

/-- Name collection of `insert_lookup_data` (bulk_insert.py:250-265) for one
field over a batch: set-union of the extracted name sets.  `tags` and
`publishers` are guarded by a truthiness test in the source. -/
def batchNames (guarded : Bool) (field : MangaData → PyVal) (batch : List MangaData) :
    List String :=
  batch.foldl
    (fun acc m =>
      if guarded && !pyTruthy (field m) then acc
      else (extract_names (field m)).names.foldl addName acc)
    []

/-- `MangaBulkImporter.insert_lookup_data` (bulk_insert.py:248-290): collect
the batch's distinct names per lookup table and ensure each is cached,
inserting the missing ones. -/
def insert_lookup_data (st : RunState) (batch : List MangaData) : RunState :=
  let a := ensure_names st.store.authors st.authors_cache
    (batchNames false (fun m => m.authors) batch)
  let r := ensure_names st.store.artists st.artists_cache
    (batchNames false (fun m => m.artists) batch)
  let g := ensure_names st.store.genres st.genres_cache
    (batchNames false (fun m => m.genres) batch)
  let t := ensure_names st.store.tags st.tags_cache
    (batchNames true (fun m => m.tags) batch)
  let p := ensure_names st.store.publishers st.publishers_cache
    (batchNames true (fun m => m.publishers) batch)
  { st with
    store := { st.store with
      authors := a.1, artists := r.1, genres := g.1, tags := t.1, publishers := p.1 }
    authors_cache := a.2
    artists_cache := r.2
    genres_cache := g.2
    tags_cache := t.2
    publishers_cache := p.2 }

/-- Phase-1 body for one batch (import_file first loop, bulk_insert.py:651-670):
lookup data, then the primary-entity bulk upsert. -/
def phase1_batch (now : Nat) (st : RunState) (batch : List MangaData) : RunState :=
  let st1 := insert_lookup_data st batch
  let r := insert_manga_data now st1.store.manga st1.manga_ids batch
  { st1 with store := { st1.store with manga := r.1 }, manga_ids := r.2 }

/-- `MangaBulkImporter.insert_related_data` (bulk_insert.py:393-404) as the
phase-2 body for one batch: secondary titles, covers, the five join tables,
links, relationship edges, external sources. -/
def phase2_batch (st : RunState) (batch : List MangaData) : RunState :=
  { st with store := { st.store with
      manga_secondary_titles :=
        saddAll st.store.manga_secondary_titles (secondaryTitleRows batch)
      manga_covers := saddAll st.store.manga_covers (coverRows batch)
      manga_authors := saddAll st.store.manga_authors
        (joinRows st.authors_cache (fun m => m.authors) batch)
      manga_artists := saddAll st.store.manga_artists
        (joinRows st.artists_cache (fun m => m.artists) batch)
      manga_genres := saddAll st.store.manga_genres
        (joinRows st.genres_cache (fun m => m.genres) batch)
      manga_tags := saddAll st.store.manga_tags
        (joinRows st.tags_cache (fun m => m.tags) batch)
      manga_publishers := saddAll st.store.manga_publishers
        (joinRows st.publishers_cache (fun m => m.publishers) batch)
      manga_links := saddAll st.store.manga_links (linkRows batch)
      manga_relationships :=
        saddAll st.store.manga_relationships (relationshipRows st.manga_ids batch)
      manga_external_sources :=
        (externalRows st.external_cache batch).foldl extUpsert
          st.store.manga_external_sources } }

/-- Fixed-size batching (`range(0, len, batch_size)` slices,
bulk_insert.py:641-642).  A zero batch size raises in Python and is modelled
as a single batch; every theorem assumes a positive batch size. -/
def chunk {α : Type} (n : Nat) : List α → List (List α)
  | [] => []
  | x :: xs =>
      match n with
      | 0 => [x :: xs]
      | m + 1 => (x :: xs).take (m + 1) :: chunk (m + 1) ((x :: xs).drop (m + 1))
  termination_by l => l.length
  decreasing_by
    simp only [List.length_drop, List.length_cons]
    omega

/-- `MangaBulkImporter.import_file` (bulk_insert.py:628-724) on already-parsed
records, success path: Phase 1 over every batch (lookups + entity upserts),
then Phase 2 over every batch (relationships and children). -/
def import_file (now : Nat) (bs : Nat) (st : RunState) (mangaList : List MangaData) :
    RunState :=
  let batches := chunk bs mangaList
  let st1 := batches.foldl (phase1_batch now) st
  batches.foldl phase2_batch st1

/-- One complete importer run (`main`, bulk_insert.py:735-758): connect, load
caches, import the parsed records, and return the store. -/
def importRun (now : Nat) (bs : Nat) (s : Store) (mangaList : List MangaData) : Store :=
  (import_file now bs (load_caches s) mangaList).store

/-- One row of the simple importer's `manga_records` list
(simple_import.py:145-165), 19 columns including `merged_with`. -/
structure SimpleMangaRow where
  id : PyVal
  state : PyVal
  merged_with : PyVal
  title : PyVal
  native_title : PyVal
  romanized_title : PyVal
  description : PyVal
  year : PyVal
  status : PyVal
  is_licensed : PyVal
  has_anime : PyVal
  anime : PyVal
  content_rating : PyVal
  type : PyVal
  rating : PyVal
  final_volume : PyVal
  final_chapter : PyVal
  total_chapters : PyVal
  last_updated_at : PyVal
deriving DecidableEq

/-- Record collection of `import_manga_simple` (simple_import.py:139-165):
records whose `id` is falsy are skipped before any row is built. -/
def simple_manga_records (now : String) (manga_data : List RawRecord) :
    List SimpleMangaRow :=
  manga_data.filterMap (fun m =>
    if ¬ pyTruthy (dget m "id") then Option.none
    else some
      { id := dget m "id"
        state := dgetD m "state" (.str "active")
        merged_with := dget m "merged_with"
        title := dgetD m "title" (.str "")
        native_title := dget m "native_title"
        romanized_title := dget m "romanized_title"
        description := dget m "description"
        year := dget m "year"
        status := dget m "status"
        is_licensed := dgetD m "is_licensed" (.bool false)
        has_anime := dgetD m "has_anime" (.bool false)
        anime := dget m "anime"
        content_rating := dget m "content_rating"
        type := dgetD m "type" (.str "manga")
        rating := dget m "rating"
        final_volume := dget m "final_volume"
        final_chapter := dget m "final_chapter"
        total_chapters := dget m "total_chapters"
        last_updated_at := dgetD m "last_updated_at" (.str now) })

/-- The batch loop skeleton shared by both phases of `import_file`
(bulk_insert.py:641-684 and 687-718) with the batch body abstracted as a
fallible function: `ok` means the batch's transaction committed (the new
state), `error` means some write failed, the transaction was rolled back
(state unchanged), the exception is re-raised and no later batch runs. -/
def runBatches {σ ε α : Type} (f : σ → α → Except ε σ) (s : σ) :
    List α → σ × Option ε
  | [] => (s, Option.none)
  | b :: bs =>
      match f s b with
      | .ok s' => runBatches f s' bs
      | .error e => (s, some e)

/-- `import_file` with fallible batch bodies: the Phase-2 loop starts only
when the Phase-1 loop finished without error (a raise propagates out of
`import_file`, bulk_insert.py:684,718,722-724). -/
def import_file_exc {σ ε : Type} (p1 p2 : σ → List MangaData → Except ε σ)
    (bs : Nat) (mangaList : List MangaData) (s : σ) : σ × Option ε :=
  let batches := chunk bs mangaList
  match runBatches p1 s batches with
  | (s1, some e) => (s1, some e)
  | (s1, Option.none) => runBatches p2 s1 batches

/-! ## General helper lemmas -/

/-- The record a line contributes, if any. -/
def lineRecord (now : String) : Line → Option MangaData
  | .valid r => some (parse_manga_json now r)
  | _ => Option.none


/-- The 1-based positions of the invalid lines, counting from `k`. -/
def invalidPositions (k : Nat) : List Line → List Nat
  | [] => []
  | .invalid :: ls => k :: invalidPositions (k + 1) ls
  | .blank :: ls => invalidPositions (k + 1) ls
  | .valid _ :: ls => invalidPositions (k + 1) ls


/-- The distinct non-whitespace characters of `s`, as one-character strings. -/
def charNames (s : String) : List String :=
  (s.toList.filter (fun c => !c.isWhitespace)).foldl
    (fun l c => addName l (String.mk [c])) []


/-- Modelled from the spec's words, for comparison with the code: try the
candidate keys in priority order, take the first present and non-empty
*string* value, else fall back to the object's generic string
representation. -/
def specDictExtract (d : RawRecord) : String :=
  match [dget d "name", dget d "Name", dget d "title", dget d "Title"].find?
      (fun v => match v with | PyVal.str s => s != "" | _ => false) with
  | some (PyVal.str s) => s
  | _ => pyStr (PyVal.dict d)


/-- The set of entity ids accumulated by Phase 1 over the whole input. -/
def idsOf (l : List MangaData) : List PyVal :=
  l.foldl (fun s m => addId s m.id) []


/-- The last inserted row tuple carrying id `i` (the "most recently imported
record" for that id within one bulk statement). -/
def lastRowWith (rows : List MangaRow) (i : PyVal) : Option MangaRow :=
  (rows.filter (fun r => r.id == i)).getLast?


/-- Association lookup keyed by `(manga_id, source_id)`. -/
def klookup (l : List ((PyVal × Nat) × ExtData)) (k : PyVal × Nat) :
    Option ExtData :=
  (l.find? (fun p => decide (p.1 = k))).map Prod.snd


/-- Well-formedness of a lookup table: names are unique (the store's UNIQUE
constraint). -/
def lookupWF (t : LookupTable) : Prop := (t.rows.map Prod.fst).Nodup


/-- The cache agrees with the table on every cached binding. -/
def Consistent (cache : Cache) (tbl : LookupTable) : Prop :=
  ∀ n i, cache.lookup n = some i → tbl.rows.lookup n = some i


/-- Pointwise relation between two external-source tables: keys agree
positionally, and entries whose key is not among `ks` are identical. -/
def ERel (ks : List (PyVal × Nat)) (p q : (PyVal × Nat) × ExtData) : Prop :=
  p.1 = q.1 ∧ (p.1 ∉ ks → p = q)


theorem chunk_flatten {α : Type} : (n : Nat) → (l : List α) → (chunk n l).flatten = l
  | _, [] => by simp [chunk]
  | 0, x :: xs => by simp [chunk]
  | m + 1, x :: xs => by
      rw [chunk]
      simp only [List.flatten_cons]
      rw [chunk_flatten (m + 1) ((x :: xs).drop (m + 1))]
      exact List.take_append_drop _ _
  termination_by _ l => l.length
  decreasing_by
    simp only [List.length_drop, List.length_cons]
    omega

/-! ## C6: final-chapter string coercion -/

/-- C6: if the final-chapter field is supplied as a string, the normalizer
float-parses it; a parseable string is stored as the parsed number, a
non-parseable one becomes null, and the record is never rejected (the
normalizer is a total function). -/
theorem final_chapter_string_coercion (now : String) (data : RawRecord) (s : String)
    (h : dget data "final_chapter" = PyVal.str s) :
    (parse_manga_json now data).final_chapter =
      (match parseFloat s with
       | some q => PyVal.num q
       | Option.none => PyVal.none) := by
  simp only [parse_manga_json, h, coerceFinalChapter]

/-- Witness for C6 at the spec's own examples: "12.5" is stored as the number
12.5 and "N/A" becomes null. -/
theorem final_chapter_string_coercion_witness :
    dget [("final_chapter", PyVal.str "12.5")] "final_chapter" = PyVal.str "12.5" ∧
    (parse_manga_json "t" [("final_chapter", PyVal.str "12.5")]).final_chapter =
      PyVal.num (25 / 2) ∧
    (parse_manga_json "t" [("final_chapter", PyVal.str "N/A")]).final_chapter =
      PyVal.none := by
  refine ⟨rfl, ?_, ?_⟩
  · rw [final_chapter_string_coercion "t" [("final_chapter", PyVal.str "12.5")] "12.5" rfl]
    rw [show parseFloat "12.5" =
        some ((1 : ℚ) * ((digitsVal ['1', '2'] : ℚ) +
          (digitsVal ['5'] : ℚ) / (10 : ℚ) ^ (['5'] : List Char).length)) from rfl]
    rw [show digitsVal ['1', '2'] = 12 from by decide,
        show digitsVal ['5'] = 5 from by decide]
    norm_num
  · rw [final_chapter_string_coercion "t" [("final_chapter", PyVal.str "N/A")] "N/A" rfl]
    rw [show parseFloat "N/A" = Option.none from by decide]

/-! ## C5: line-level fault isolation in the parser -/

theorem parse_jsonl_go (now : String) (lines : List Line) :
    ∀ (st : ParseState) (k : Nat),
      lines.foldl (parse_line_step now) (st, k) =
        (⟨st.records ++ lines.filterMap (lineRecord now),
          st.errors ++ invalidPositions k lines⟩, k + lines.length) := by
  induction lines with
  | nil => intro st k; simp [invalidPositions]
  | cons l ls ih =>
      intro st k
      have harith : k + 1 + ls.length = k + (ls.length + 1) := by omega
      cases l with
      | blank =>
          rw [List.foldl_cons, show parse_line_step now (st, k) Line.blank =
            (st, k + 1) from rfl, ih, harith]
          simp [lineRecord, invalidPositions]
      | invalid =>
          rw [List.foldl_cons, show parse_line_step now (st, k) Line.invalid =
            (⟨st.records, st.errors ++ [k]⟩, k + 1) from rfl, ih, harith]
          simp [lineRecord, invalidPositions]
      | valid r =>
          rw [List.foldl_cons, show parse_line_step now (st, k) (Line.valid r) =
            (⟨st.records ++ [parse_manga_json now r], st.errors⟩, k + 1) from rfl,
            ih, harith]
          simp [lineRecord, invalidPositions]

theorem parse_jsonl_file_eq (now : String) (lines : List Line) :
    parse_jsonl_file now lines =
      ⟨lines.filterMap (lineRecord now), invalidPositions 1 lines⟩ := by
  rw [parse_jsonl_file, parse_jsonl_go]
  simp

theorem invalidPositions_append (l1 : List Line) :
    ∀ (k : Nat) (l2 : List Line),
      invalidPositions k (l1 ++ l2) =
        invalidPositions k l1 ++ invalidPositions (k + l1.length) l2 := by
  induction l1 with
  | nil => intro k l2; simp [invalidPositions]
  | cons x xs ih =>
      intro k l2
      have harith : k + (xs.length + 1) = k + 1 + xs.length := by omega
      cases x with
      | blank =>
          simp only [List.cons_append, invalidPositions, List.append_eq, ih,
            List.length_cons, harith]
      | invalid =>
          simp only [List.cons_append, invalidPositions, List.append_eq, ih,
            List.length_cons, harith, List.cons_append]
      | valid r =>
          simp only [List.cons_append, invalidPositions, List.append_eq, ih,
            List.length_cons, harith]

theorem invalidPositions_length (l : List Line) :
    ∀ k : Nat, (invalidPositions k l).length =
      (l.filter (fun x => decide (x = Line.invalid))).length := by
  induction l with
  | nil => intro k; rfl
  | cons x xs ih =>
      intro k
      cases x <;> simp [invalidPositions, ih, List.filter_cons]

theorem invalidPositions_all_valid (l : List Line)
    (h : ∀ x ∈ l, ∃ r, x = Line.valid r) : ∀ k : Nat, invalidPositions k l = [] := by
  induction l with
  | nil => intro k; rfl
  | cons x xs ih =>
      intro k
      obtain ⟨r, hr⟩ := h x (List.mem_cons_self x xs)
      subst hr
      exact ih (fun y hy => h y (List.mem_cons_of_mem _ hy)) (k + 1)

theorem filterMap_all_valid (now : String) (l : List Line)
    (h : ∀ x ∈ l, ∃ r, x = Line.valid r) :
    (l.filterMap (lineRecord now)).length = l.length := by
  induction l with
  | nil => rfl
  | cons x xs ih =>
      obtain ⟨r, hr⟩ := h x (List.mem_cons_self x xs)
      subst hr
      simp only [List.filterMap_cons, lineRecord, List.length_cons]
      rw [ih (fun y hy => h y (List.mem_cons_of_mem _ hy))]

/-- C5: blank lines yield neither a record nor an error, an invalid line is
logged with its 1-based line number and skipped without halting the stream,
and a file of N lines with exactly one invalid line and all others valid
non-blank yields N-1 records in input order (lines after the bad one still
parsed), with the one decode error logged at the bad line's position. -/
theorem parser_fault_isolation (now : String) (pre post : List Line)
    (hpre : ∀ x ∈ pre, ∃ r, x = Line.valid r)
    (hpost : ∀ x ∈ post, ∃ r, x = Line.valid r) :
    (parse_jsonl_file now (pre ++ Line.invalid :: post)).records =
      (pre ++ post).filterMap (lineRecord now) ∧
    (parse_jsonl_file now (pre ++ Line.invalid :: post)).records.length =
      (pre ++ Line.invalid :: post).length - 1 ∧
    (parse_jsonl_file now (pre ++ Line.invalid :: post)).errors = [pre.length + 1] ∧
    (∀ lines1 lines2 : List Line,
      (parse_jsonl_file now (lines1 ++ Line.blank :: lines2)).records =
        (parse_jsonl_file now (lines1 ++ lines2)).records ∧
      (parse_jsonl_file now (lines1 ++ Line.blank :: lines2)).errors.length =
        (parse_jsonl_file now (lines1 ++ lines2)).errors.length) := by
  refine ⟨?_, ?_, ?_, ?_⟩
  · rw [parse_jsonl_file_eq]
    simp [List.filterMap_append, List.filterMap_cons, lineRecord]
  · rw [parse_jsonl_file_eq]
    simp only [List.filterMap_append, List.length_append, List.filterMap_cons,
      lineRecord]
    rw [filterMap_all_valid now pre hpre, filterMap_all_valid now post hpost]
    simp only [List.length_append, List.length_cons]
    omega
  · rw [parse_jsonl_file_eq]
    rw [show (⟨(pre ++ Line.invalid :: post).filterMap (lineRecord now),
      invalidPositions 1 (pre ++ Line.invalid :: post)⟩ : ParseState).errors =
      invalidPositions 1 (pre ++ Line.invalid :: post) from rfl]
    rw [invalidPositions_append, invalidPositions_all_valid pre hpre]
    rw [show invalidPositions (1 + pre.length) (Line.invalid :: post) =
      (1 + pre.length) :: invalidPositions (1 + pre.length + 1) post from rfl]
    rw [invalidPositions_all_valid post hpost]
    simp only [List.nil_append]
    rw [Nat.add_comm 1 pre.length]
  · intro l1 l2
    constructor
    · rw [parse_jsonl_file_eq, parse_jsonl_file_eq]
      simp [List.filterMap_append, List.filterMap_cons, lineRecord]
    · rw [parse_jsonl_file_eq, parse_jsonl_file_eq]
      simp only [invalidPositions_length, List.filter_append, List.length_append,
        List.filter_cons]
      simp

/-- Witness for C5: a 3-line file whose middle line is invalid JSON yields 2
records and one error logged at line 2. -/
theorem parser_fault_isolation_witness :
    (parse_jsonl_file "t" ([Line.valid [("id", PyVal.num 1)]] ++
      Line.invalid :: [Line.valid [("id", PyVal.num 2)]])).records.length = 2 ∧
    (parse_jsonl_file "t" ([Line.valid [("id", PyVal.num 1)]] ++
      Line.invalid :: [Line.valid [("id", PyVal.num 2)]])).errors = [2] := by
  have h := parser_fault_isolation "t" [Line.valid [("id", PyVal.num 1)]]
    [Line.valid [("id", PyVal.num 2)]]
    (fun x hx => by simp only [List.mem_singleton] at hx; exact ⟨_, hx⟩)
    (fun x hx => by simp only [List.mem_singleton] at hx; exact ⟨_, hx⟩)
  exact ⟨by rw [h.2.1]; rfl, by rw [h.2.2.1]; rfl⟩

/-! ## C9: name extraction iterates over a plain string's characters -/

theorem pyStrip_singleton (c : Char) :
    pyStrip (String.mk [c]) = if c.isWhitespace then "" else String.mk [c] := by
  by_cases h : c.isWhitespace <;> simp [pyStrip, List.dropWhile, h]

theorem mk_singleton_ne_empty (c : Char) : String.mk [c] ≠ "" := by
  intro h
  have h2 : ([c] : List Char) = [] := congrArg String.toList h
  simp at h2

theorem extract_chars_fold (cs : List Char) :
    ∀ acc : List String,
      (cs.map (fun c => PyVal.str (String.mk [c]))).foldl extractNamesItem acc =
        (cs.filter (fun c => !c.isWhitespace)).foldl
          (fun l c => addName l (String.mk [c])) acc := by
  induction cs with
  | nil => intro acc; rfl
  | cons c cs ih =>
      intro acc
      rw [List.map_cons, List.foldl_cons, List.filter_cons]
      by_cases h : c.isWhitespace
      · rw [show extractNamesItem acc (PyVal.str (String.mk [c])) = acc from by
          simp [extractNamesItem, pyStrip_singleton, h]]
        simp [h, ih]
      · rw [show extractNamesItem acc (PyVal.str (String.mk [c])) =
            addName acc (String.mk [c]) from by
          simp [extractNamesItem, pyStrip_singleton, h, mk_singleton_ne_empty]]
        simp [h, ih]

/-- C9: a plain-string field raises no error and is not treated as one name:
the routine iterates the string's characters and returns its distinct
non-whitespace characters as one-character names (e.g. "Bob" gives B, o, b);
the whole-field fallback branch runs exactly for truthy non-iterable values
(numbers and booleans), never for strings. -/
theorem extract_names_plain_string :
    (∀ s : String, extract_names (PyVal.str s) = ⟨charNames s, false⟩) ∧
    (∀ v : PyVal, (extract_names v).usedFallback =
      (pyTruthy v && (match v with
        | PyVal.num _ => true
        | PyVal.bool _ => true
        | _ => false))) ∧
    extract_names (PyVal.str "Bob") = ⟨["B", "o", "b"], false⟩ := by
  refine ⟨?_, ?_, ?_⟩
  · intro s
    by_cases hs : s = ""
    · subst hs; rfl
    · rw [show extract_names (PyVal.str s) =
          ⟨(s.toList.map (fun c => PyVal.str (String.mk [c]))).foldl
            extractNamesItem [], false⟩ from by
        simp [extract_names, pyTruthy, hs]]
      rw [extract_chars_fold]
      rfl
  · intro v
    cases v with
    | none => rfl
    | bool b => cases b <;> rfl
    | num q => by_cases h : q = 0 <;> simp [extract_names, pyTruthy, h]
    | str s => by_cases h : s = "" <;> simp [extract_names, pyTruthy, h]
    | list l => by_cases h : l = [] <;> simp [extract_names, pyTruthy, h]
    | dict d => by_cases h : d = [] <;> simp [extract_names, pyTruthy, h]
  · decide

/-! ## C7: name extraction from objects -/

theorem mem_dropWhile_of_not {α : Type} (p : α → Bool) {c : α} :
    ∀ {l : List α}, c ∈ l → p c = false → c ∈ l.dropWhile p := by
  intro l
  induction l with
  | nil => intro h; simp at h
  | cons a as ih =>
      intro hc hp
      by_cases ha : p a = true
      · rw [List.dropWhile_cons_of_pos ha]
        rcases List.mem_cons.mp hc with rfl | hmem
        · rw [ha] at hp; simp at hp
        · exact ih hmem hp
      · rw [List.dropWhile_cons_of_neg ha]
        exact hc

theorem pyStrip_ne_empty {s : String} {c : Char} (hc : c ∈ s.toList)
    (hw : c.isWhitespace = false) : pyStrip s ≠ "" := by
  intro h
  have h1 : c ∈ s.toList.dropWhile Char.isWhitespace :=
    mem_dropWhile_of_not _ hc hw
  have h2 : c ∈ ((s.toList.dropWhile Char.isWhitespace).reverse.dropWhile
      Char.isWhitespace).reverse := by
    rw [List.mem_reverse]
    exact mem_dropWhile_of_not _ (List.mem_reverse.mpr h1) hw
  have h3 := congrArg String.toList h
  rw [pyStrip] at h3
  rw [show (String.mk (((s.toList.dropWhile Char.isWhitespace).reverse.dropWhile
    Char.isWhitespace)).reverse).toList =
    (((s.toList.dropWhile Char.isWhitespace).reverse.dropWhile
      Char.isWhitespace)).reverse from rfl] at h3
  rw [h3] at h2
  simp at h2

theorem brace_mem_pyStr_dict (d : List (String × PyVal)) :
    '\x7b' ∈ (pyStr (PyVal.dict d)).toList := by
  rw [show pyStr (PyVal.dict d) = "\x7b" ++ pyReprD d ++ "\x7d" from rfl]
  rw [show ("\x7b" ++ pyReprD d ++ "\x7d").toList =
    ("\x7b".toList ++ (pyReprD d).toList) ++ "\x7d".toList from rfl]
  apply List.mem_append_left
  apply List.mem_append_left
  simp [show ("\x7b" : String).toList = ['\x7b'] from rfl]

theorem pyStr_dict_ne_empty (d : List (String × PyVal)) :
    pyStr (PyVal.dict d) ≠ "" := by
  intro h
  have h2 := congrArg String.toList h
  have h3 := brace_mem_pyStr_dict d
  rw [h2] at h3
  simp at h3

theorem find_truthy_str (cands : List PyVal)
    (h : ∀ v ∈ cands, v = PyVal.none ∨ ∃ s, v = PyVal.str s) :
    cands.find? pyTruthy =
      cands.find? (fun v => match v with | PyVal.str s => s != "" | _ => false) := by
  induction cands with
  | nil => rfl
  | cons c cs ih =>
      rcases h c (List.mem_cons_self c cs) with hc | ⟨s, hc⟩ <;> subst hc
      · rw [List.find?_cons_of_neg _ (by simp [pyTruthy]),
          List.find?_cons_of_neg _ (by simp)]
        exact ih (fun v hv => h v (List.mem_cons_of_mem _ hv))
      · by_cases hs : s = ""
        · subst hs
          rw [List.find?_cons_of_neg _ (by simp [pyTruthy]),
            List.find?_cons_of_neg _ (by simp)]
          exact ih (fun v hv => h v (List.mem_cons_of_mem _ hv))
        · rw [List.find?_cons_of_pos _ (by simp [pyTruthy, hs]),
            List.find?_cons_of_pos _ (by simp [hs])]

/-- C7 counterexample: for the object `name: True, title: "Y"` the claimed
behavior ("take the first present and non-empty string value, else fall back
to the string representation") extracts "Y", but the code's `or`-chain stops
at the first *truthy* value (here `True`), which is not a string, so the
element contributes no name at all. -/
theorem extract_dict_priority_counterexample :
    (extract_names (PyVal.list
      [PyVal.dict [("name", PyVal.bool true), ("title", PyVal.str "Y")]])).names = [] ∧
    specDictExtract [("name", PyVal.bool true), ("title", PyVal.str "Y")] = "Y" ∧
    ([] : List String) ≠ ["Y"] := by
  refine ⟨rfl, rfl, by simp⟩

/-- C7 (amended): the candidate keys name, Name, title, Title are tried in
priority order taking the first *truthy* value; when every candidate is a
string or absent this agrees with "first present non-empty string value"
(added trimmed, unless it trims to empty), and when no candidate is truthy
the extraction falls back to the object's generic string representation
(which is never empty); but a truthy non-string candidate short-circuits the
chain and the object contributes no name. -/
theorem extract_dict_priority :
    (∀ (names : List String) (d : RawRecord),
      (∀ v ∈ [dget d "name", dget d "Name", dget d "title", dget d "Title"],
        v = PyVal.none ∨ ∃ s, v = PyVal.str s) →
      extractNamesItem names (PyVal.dict d) =
        match [dget d "name", dget d "Name", dget d "title", dget d "Title"].find?
            (fun v => match v with | PyVal.str s => s != "" | _ => false) with
        | some (PyVal.str s) =>
            if pyStrip s ≠ "" then addName names (pyStrip s) else names
        | _ => addName names (pyStrip (pyStr (PyVal.dict d)))) ∧
    (∀ (names : List String) (d : RawRecord) (v : PyVal),
      [dget d "name", dget d "Name", dget d "title", dget d "Title"].find?
        pyTruthy = some v →
      (∀ s, v ≠ PyVal.str s) →
      extractNamesItem names (PyVal.dict d) = names) := by
  constructor
  · intro names d h
    rw [show extractNamesItem names (PyVal.dict d) =
        (match (match [dget d "name", dget d "Name", dget d "title",
            dget d "Title"].find? pyTruthy with
          | some v => v
          | Option.none => PyVal.str (pyStr (PyVal.dict d))) with
        | PyVal.str s =>
            if pyTruthy (PyVal.str s) && pyStrip s ≠ "" then
              addName names (pyStrip s) else names
        | _ => names) from rfl]
    rw [find_truthy_str _ h]
    cases hf : [dget d "name", dget d "Name", dget d "title",
        dget d "Title"].find?
        (fun v => match v with | PyVal.str s => s != "" | _ => false) with
    | none =>
        have hne := pyStr_dict_ne_empty d
        have hstrip := pyStrip_ne_empty (brace_mem_pyStr_dict d) (by decide)
        simp [pyTruthy, hne, hstrip]
    | some v =>
        have hp := List.find?_some hf
        match v, hp with
        | PyVal.str s, hp =>
            have hs : s ≠ "" := by simpa using hp
            simp [pyTruthy, hs]
  · intro names d v hf hv
    rw [show extractNamesItem names (PyVal.dict d) =
        (match (match [dget d "name", dget d "Name", dget d "title",
            dget d "Title"].find? pyTruthy with
          | some w => w
          | Option.none => PyVal.str (pyStr (PyVal.dict d))) with
        | PyVal.str s =>
            if pyTruthy (PyVal.str s) && pyStrip s ≠ "" then
              addName names (pyStrip s) else names
        | _ => names) from rfl]
    rw [hf]
    match v, hv with
    | PyVal.none, _ => rfl
    | PyVal.bool b, _ => rfl
    | PyVal.num q, _ => rfl
    | PyVal.list l, _ => rfl
    | PyVal.dict dd, _ => rfl
    | PyVal.str s, hv => exact absurd rfl (hv s)

/-- Witness for C7's amended theorem: `Name: "X", title: "Y"` extracts "X"
(name/Name outrank title/Title), and a truthy non-string candidate yields
nothing. -/
theorem extract_dict_priority_witness :
    extractNamesItem []
      (PyVal.dict [("Name", PyVal.str "X"), ("title", PyVal.str "Y")]) = ["X"] ∧
    extractNamesItem [] (PyVal.dict [("name", PyVal.bool true)]) = [] := by
  constructor
  · have h := extract_dict_priority.1 []
      [("Name", PyVal.str "X"), ("title", PyVal.str "Y")]
      (by
        intro v hv
        rw [show [dget [("Name", PyVal.str "X"), ("title", PyVal.str "Y")] "name",
          dget [("Name", PyVal.str "X"), ("title", PyVal.str "Y")] "Name",
          dget [("Name", PyVal.str "X"), ("title", PyVal.str "Y")] "title",
          dget [("Name", PyVal.str "X"), ("title", PyVal.str "Y")] "Title"] =
          [PyVal.none, PyVal.str "X", PyVal.str "Y", PyVal.none] from rfl] at hv
        have hv2 : v = PyVal.none ∨ v = PyVal.str "X" ∨ v = PyVal.str "Y" ∨
            v = PyVal.none := by simpa using hv
        rcases hv2 with rfl | rfl | rfl | rfl
        · exact Or.inl rfl
        · exact Or.inr ⟨"X", rfl⟩
        · exact Or.inr ⟨"Y", rfl⟩
        · exact Or.inl rfl)
    rw [h]
    decide
  · exact extract_dict_priority.2 [] [("name", PyVal.bool true)] (PyVal.bool true)
      rfl (fun s h => by cases h)

/-! ## C10: records without an id -/

theorem mem_addId_self (s : List PyVal) (v : PyVal) : v ∈ addId s v := by
  rw [addId]
  split
  · assumption
  · simp

theorem mem_addId_mono {x : PyVal} (s : List PyVal) (v : PyVal) (h : x ∈ s) :
    x ∈ addId s v := by
  rw [addId]
  split
  · exact h
  · exact List.mem_append_left _ h

theorem mem_foldl_addId_mono (batch : List MangaData) :
    ∀ (ids : List PyVal) (x : PyVal), x ∈ ids →
      x ∈ batch.foldl (fun s m => addId s m.id) ids := by
  induction batch with
  | nil => intro ids x h; exact h
  | cons b bs ih =>
      intro ids x h
      exact ih _ x (mem_addId_mono _ _ h)

theorem mem_foldl_addId (batch : List MangaData) :
    ∀ (ids : List PyVal) (m : MangaData), m ∈ batch →
      m.id ∈ batch.foldl (fun s m => addId s m.id) ids := by
  induction batch with
  | nil => intro ids m h; simp at h
  | cons b bs ih =>
      intro ids m h
      rcases List.mem_cons.mp h with rfl | hmem
      · exact mem_foldl_addId_mono bs _ _ (mem_addId_self ids m.id)
      · exact ih _ m hmem

/-- C10: a raw record without an `id` key is not rejected by the bulk
importer's normalizer: its entity has a null id, a row tuple with a null id
is passed to the primary-entity upsert, and the null id joins
`self.manga_ids`; the simple importer instead skips such records before
building any row. -/
theorem missing_id_not_rejected (now now2 : String) (data : RawRecord)
    (nowT : Nat) (tbl : MangaTable) (ids : List PyVal) (batch : List MangaData)
    (h : data.lookup "id" = Option.none)
    (hm : parse_manga_json now data ∈ batch) :
    (parse_manga_json now data).id = PyVal.none ∧
    (rowOf (parse_manga_json now data)).id = PyVal.none ∧
    rowOf (parse_manga_json now data) ∈ batch.map rowOf ∧
    PyVal.none ∈ (insert_manga_data nowT tbl ids batch).2 ∧
    simple_manga_records now2 [data] = [] := by
  have hid : (parse_manga_json now data).id = PyVal.none := by
    simp [parse_manga_json, dget, h]
  refine ⟨hid, ?_, ?_, ?_, ?_⟩
  · rw [show (rowOf (parse_manga_json now data)).id =
      (parse_manga_json now data).id from rfl, hid]
  · exact List.mem_map_of_mem rowOf hm
  · rw [show (insert_manga_data nowT tbl ids batch).2 =
      batch.foldl (fun s m => addId s m.id) ids from rfl]
    have := mem_foldl_addId batch ids _ hm
    rwa [hid] at this
  · simp [simple_manga_records, dget, h, pyTruthy]

/-- Witness for C10 at a concrete record (`title` only, no `id`). -/
theorem missing_id_not_rejected_witness :
    (parse_manga_json "t" [("title", PyVal.str "T")]).id = PyVal.none ∧
    PyVal.none ∈ (insert_manga_data 0 [] []
      [parse_manga_json "t" [("title", PyVal.str "T")]]).2 ∧
    simple_manga_records "t" [[("title", PyVal.str "T")]] = [] := by
  have h := missing_id_not_rejected "t" "t" [("title", PyVal.str "T")] 0 [] []
    [parse_manga_json "t" [("title", PyVal.str "T")]] rfl (List.mem_singleton.mpr rfl)
  exact ⟨h.1, h.2.2.2.1, h.2.2.2.2⟩

/-! ## C1: the primary-entity upsert column set -/

theorem lookup_areplace (k : PyVal) (v : StoredManga) :
    ∀ tbl : MangaTable, (tbl.lookup k).isSome → (areplace tbl k v).lookup k = some v := by
  intro tbl
  induction tbl with
  | nil => intro h; simp at h
  | cons p t ih =>
      obtain ⟨pk, pv⟩ := p
      intro h
      rw [areplace, List.map_cons]
      by_cases hk : pk = k
      · rw [if_pos (beq_iff_eq.mpr hk)]
        simp [List.lookup_cons]
      · rw [if_neg (by simp [hk])]
        have hbeq : (k == pk) = false := by simp [Ne.symm hk]
        simp only [List.lookup_cons, hbeq] at h ⊢
        exact ih h

/-- C1 counterexample: the claim says the Phase-1 upsert overwrites *every*
mutable business column, but the `DO UPDATE SET` list omits `type`: re-importing
id 1 with `type` "manga" over a stored row with `type` "manhwa" leaves
"manhwa" in place even though the imported record supplies "manga". -/
theorem manga_upsert_counterexample :
    ((manga_upsert 1
        (manga_upsert 0 []
          (rowOf (parse_manga_json "t0" [("id", PyVal.num 1), ("type", PyVal.str "manhwa")])))
        (rowOf (parse_manga_json "t1" [("id", PyVal.num 1), ("type", PyVal.str "manga")]))).lookup
      (PyVal.num 1)).map (fun st => st.row.type) = some (PyVal.str "manhwa") ∧
    (rowOf (parse_manga_json "t1"
      [("id", PyVal.num 1), ("type", PyVal.str "manga")])).type = PyVal.str "manga" ∧
    PyVal.str "manhwa" ≠ PyVal.str "manga" := by
  refine ⟨rfl, rfl, by simp⟩

/-- C1 (amended): on an id conflict the Phase-1 bulk upsert overwrites every
mutable business column *except `type`* with the newly imported values
(state, title, native/romanized titles, description, year, status, flags,
anime, content rating, rating, final volume/chapter, total chapters, last
updated), touches the `updated_at` timestamp, and never overwrites the
creation timestamp; `type` keeps its stored value. -/
theorem manga_upsert_on_conflict (now : Nat) (tbl : MangaTable) (ids : List PyVal)
    (m : MangaData) (old : StoredManga)
    (h : tbl.lookup (rowOf m).id = some old) :
    ∃ st, ((insert_manga_data now tbl ids [m]).1.lookup (rowOf m).id = some st ∧
      st.row.state = (rowOf m).state ∧
      st.row.title = (rowOf m).title ∧
      st.row.native_title = (rowOf m).native_title ∧
      st.row.romanized_title = (rowOf m).romanized_title ∧
      st.row.description = (rowOf m).description ∧
      st.row.year = (rowOf m).year ∧
      st.row.status = (rowOf m).status ∧
      st.row.is_licensed = (rowOf m).is_licensed ∧
      st.row.has_anime = (rowOf m).has_anime ∧
      st.row.anime = (rowOf m).anime ∧
      st.row.content_rating = (rowOf m).content_rating ∧
      st.row.rating = (rowOf m).rating ∧
      st.row.final_volume = (rowOf m).final_volume ∧
      st.row.final_chapter = (rowOf m).final_chapter ∧
      st.row.total_chapters = (rowOf m).total_chapters ∧
      st.row.last_updated_at = (rowOf m).last_updated_at) ∧
      st.row.type = old.row.type ∧
      st.createdAt = old.createdAt ∧
      st.updatedAt = now := by
  refine ⟨⟨{ rowOf m with type := old.row.type }, old.createdAt, now⟩, ?_⟩
  have hstep : (insert_manga_data now tbl ids [m]).1 =
      manga_upsert now tbl (rowOf m) := rfl
  rw [hstep]
  have hup : manga_upsert now tbl (rowOf m) =
      areplace tbl (rowOf m).id
        ⟨{ rowOf m with type := old.row.type }, old.createdAt, now⟩ := by
    rw [manga_upsert, h]
  rw [hup]
  exact ⟨⟨lookup_areplace _ _ tbl (by rw [h]; rfl), rfl, rfl, rfl, rfl, rfl, rfl,
    rfl, rfl, rfl, rfl, rfl, rfl, rfl, rfl, rfl, rfl⟩, rfl, rfl, rfl⟩

/-- Witness for C1's amended theorem at a concrete conflicting re-import. -/
theorem manga_upsert_on_conflict_witness :
    ∃ st, ((insert_manga_data 1
        (manga_upsert 0 []
          (rowOf (parse_manga_json "t0"
            [("id", PyVal.num 1), ("title", PyVal.str "Old"), ("type", PyVal.str "manhwa")])))
        []
        [parse_manga_json "t1" [("id", PyVal.num 1), ("title", PyVal.str "New"),
          ("type", PyVal.str "manga")]]).1.lookup
      (rowOf (parse_manga_json "t1" [("id", PyVal.num 1), ("title", PyVal.str "New"),
        ("type", PyVal.str "manga")])).id = some st ∧
      st.row.state = (rowOf (parse_manga_json "t1" [("id", PyVal.num 1),
        ("title", PyVal.str "New"), ("type", PyVal.str "manga")])).state ∧
      st.row.title = (rowOf (parse_manga_json "t1" [("id", PyVal.num 1),
        ("title", PyVal.str "New"), ("type", PyVal.str "manga")])).title ∧
      st.row.native_title = (rowOf (parse_manga_json "t1" [("id", PyVal.num 1),
        ("title", PyVal.str "New"), ("type", PyVal.str "manga")])).native_title ∧
      st.row.romanized_title = (rowOf (parse_manga_json "t1" [("id", PyVal.num 1),
        ("title", PyVal.str "New"), ("type", PyVal.str "manga")])).romanized_title ∧
      st.row.description = (rowOf (parse_manga_json "t1" [("id", PyVal.num 1),
        ("title", PyVal.str "New"), ("type", PyVal.str "manga")])).description ∧
      st.row.year = (rowOf (parse_manga_json "t1" [("id", PyVal.num 1),
        ("title", PyVal.str "New"), ("type", PyVal.str "manga")])).year ∧
      st.row.status = (rowOf (parse_manga_json "t1" [("id", PyVal.num 1),
        ("title", PyVal.str "New"), ("type", PyVal.str "manga")])).status ∧
      st.row.is_licensed = (rowOf (parse_manga_json "t1" [("id", PyVal.num 1),
        ("title", PyVal.str "New"), ("type", PyVal.str "manga")])).is_licensed ∧
      st.row.has_anime = (rowOf (parse_manga_json "t1" [("id", PyVal.num 1),
        ("title", PyVal.str "New"), ("type", PyVal.str "manga")])).has_anime ∧
      st.row.anime = (rowOf (parse_manga_json "t1" [("id", PyVal.num 1),
        ("title", PyVal.str "New"), ("type", PyVal.str "manga")])).anime ∧
      st.row.content_rating = (rowOf (parse_manga_json "t1" [("id", PyVal.num 1),
        ("title", PyVal.str "New"), ("type", PyVal.str "manga")])).content_rating ∧
      st.row.rating = (rowOf (parse_manga_json "t1" [("id", PyVal.num 1),
        ("title", PyVal.str "New"), ("type", PyVal.str "manga")])).rating ∧
      st.row.final_volume = (rowOf (parse_manga_json "t1" [("id", PyVal.num 1),
        ("title", PyVal.str "New"), ("type", PyVal.str "manga")])).final_volume ∧
      st.row.final_chapter = (rowOf (parse_manga_json "t1" [("id", PyVal.num 1),
        ("title", PyVal.str "New"), ("type", PyVal.str "manga")])).final_chapter ∧
      st.row.total_chapters = (rowOf (parse_manga_json "t1" [("id", PyVal.num 1),
        ("title", PyVal.str "New"), ("type", PyVal.str "manga")])).total_chapters ∧
      st.row.last_updated_at = (rowOf (parse_manga_json "t1" [("id", PyVal.num 1),
        ("title", PyVal.str "New"), ("type", PyVal.str "manga")])).last_updated_at) ∧
      st.row.type = PyVal.str "manhwa" ∧
      st.createdAt = 0 ∧
      st.updatedAt = 1 := by
  have h := manga_upsert_on_conflict 1
    (manga_upsert 0 []
      (rowOf (parse_manga_json "t0"
        [("id", PyVal.num 1), ("title", PyVal.str "Old"), ("type", PyVal.str "manhwa")])))
    []
    (parse_manga_json "t1" [("id", PyVal.num 1), ("title", PyVal.str "New"),
      ("type", PyVal.str "manga")])
    ⟨rowOf (parse_manga_json "t0"
      [("id", PyVal.num 1), ("title", PyVal.str "Old"), ("type", PyVal.str "manhwa")]), 0, 0⟩
    rfl
  obtain ⟨st, h1, h2, h3, h4⟩ := h
  exact ⟨st, h1, h2, h3, h4⟩

/-! ## C2: the self-reference filter for relationship edges -/

theorem mem_saddAll {α : Type} [DecidableEq α] (rows : List α) :
    ∀ (tbl : List α) (x : α), x ∈ saddAll tbl rows ↔ x ∈ tbl ∨ x ∈ rows := by
  induction rows with
  | nil => intro tbl x; simp [saddAll]
  | cons r rs ih =>
      intro tbl x
      rw [show saddAll tbl (r :: rs) =
        saddAll (if r ∈ tbl then tbl else tbl ++ [r]) rs from rfl]
      rw [ih]
      by_cases hr : r ∈ tbl
      · simp only [if_pos hr, List.mem_cons]
        constructor
        · rintro (h | h)
          · exact Or.inl h
          · exact Or.inr (Or.inr h)
        · rintro (h | rfl | h)
          · exact Or.inl h
          · exact Or.inl hr
          · exact Or.inr h
      · simp only [if_neg hr, List.mem_append, List.mem_singleton, List.mem_cons]
        tauto

theorem saddAll_append {α : Type} [DecidableEq α] (tbl a b : List α) :
    saddAll (saddAll tbl a) b = saddAll tbl (a ++ b) := by
  rw [saddAll, saddAll, saddAll, List.foldl_append]

theorem rel_mem_ids (ids : List PyVal) (batch : List MangaData)
    (A B : PyVal) (T : String)
    (h : (A, B, T) ∈ relationshipRows ids batch) : B ∈ ids := by
  rw [relationshipRows, List.mem_flatMap] at h
  obtain ⟨m, _, hin⟩ := h
  rcases hm : m.relationships with _ | _ | _ | _ | _ | rels <;> rw [hm] at hin <;>
    try simp at hin
  obtain ⟨a, b, _, hp⟩ := hin
  rcases hl : b with _ | _ | _ | _ | l | _ <;> rw [hl] at hp <;> try simp at hp
  obtain ⟨rid, _, hids, _, hB2, _⟩ := hp
  subst hB2
  exact hids

theorem rel_row_produced (ids : List PyVal) (batch : List MangaData)
    (m : MangaData) (rels : List (String × PyVal)) (rids : List PyVal)
    (T : String) (B : PyVal)
    (hm : m ∈ batch) (hrel : m.relationships = PyVal.dict rels)
    (hT : (T, PyVal.list rids) ∈ rels) (hB : B ∈ rids) (hc : B ∈ ids) :
    (m.id, B, T) ∈ relationshipRows ids batch := by
  rw [relationshipRows, List.mem_flatMap]
  refine ⟨m, hm, ?_⟩
  rw [hrel, List.mem_flatMap]
  refine ⟨(T, PyVal.list rids), hT, ?_⟩
  rw [List.mem_filterMap]
  exact ⟨B, hB, by rw [if_pos (List.elem_eq_true_of_mem hc)]⟩

theorem phase1_batch_preserves (now : Nat) (st : RunState) (b : List MangaData) :
    (phase1_batch now st b).store.manga_relationships =
      st.store.manga_relationships ∧
    (phase1_batch now st b).manga_ids =
      b.foldl (fun s m => addId s m.id) st.manga_ids := ⟨rfl, rfl⟩

theorem phase1_fold_rel (now : Nat) (batches : List (List MangaData)) :
    ∀ st : RunState,
      ((batches.foldl (phase1_batch now) st).store.manga_relationships =
        st.store.manga_relationships) ∧
      ((batches.foldl (phase1_batch now) st).manga_ids =
        batches.flatten.foldl (fun s m => addId s m.id) st.manga_ids) := by
  induction batches with
  | nil => intro st; exact ⟨rfl, rfl⟩
  | cons b bs ih =>
      intro st
      rw [List.foldl_cons, List.flatten_cons, List.foldl_append]
      exact ⟨(ih _).1.trans (phase1_batch_preserves now st b).1,
        by rw [(ih _).2, (phase1_batch_preserves now st b).2]⟩

theorem phase2_batch_preserves (st : RunState) (b : List MangaData) :
    (phase2_batch st b).manga_ids = st.manga_ids ∧
    (phase2_batch st b).store.manga_relationships =
      saddAll st.store.manga_relationships
        (relationshipRows st.manga_ids b) := ⟨rfl, rfl⟩

theorem phase2_fold_rel (batches : List (List MangaData)) :
    ∀ st : RunState,
      (batches.foldl phase2_batch st).store.manga_relationships =
        saddAll st.store.manga_relationships
          (batches.flatMap (relationshipRows st.manga_ids)) := by
  induction batches with
  | nil => intro st; rfl
  | cons b bs ih =>
      intro st
      rw [List.foldl_cons, ih, List.flatMap_cons,
        (phase2_batch_preserves st b).2, saddAll_append,
        (phase2_batch_preserves st b).1]

theorem flatMap_flatten {α β : Type} (f : α → List β) (batches : List (List α)) :
    batches.flatMap (fun b => b.flatMap f) = batches.flatten.flatMap f := by
  induction batches with
  | nil => rfl
  | cons b bs ih => rw [List.flatMap_cons, List.flatten_cons, List.flatMap_append, ih]

theorem relationshipRows_flatten (ids : List PyVal)
    (batches : List (List MangaData)) :
    batches.flatMap (relationshipRows ids) =
      relationshipRows ids batches.flatten := by
  rw [relationshipRows]
  rw [show batches.flatMap (relationshipRows ids) =
    batches.flatMap (fun b => b.flatMap (fun m =>
      match m.relationships with
      | PyVal.dict rels =>
          rels.flatMap (fun p =>
            match p.2 with
            | PyVal.list l =>
                l.filterMap (fun rid =>
                  if ids.contains rid then some (m.id, rid, p.1) else Option.none)
            | _ => [])
      | _ => [])) from rfl]
  rw [flatMap_flatten]

theorem importRun_relationships (now bs : Nat) (s : Store) (l : List MangaData) :
    (importRun now bs s l).manga_relationships =
      saddAll s.manga_relationships (relationshipRows (idsOf l) l) := by
  rw [importRun, import_file]
  rw [phase2_fold_rel]
  rw [(phase1_fold_rel now (chunk bs l) (load_caches s)).1]
  rw [(phase1_fold_rel now (chunk bs l) (load_caches s)).2]
  rw [relationshipRows_flatten, chunk_flatten]
  rfl

/-- C2: a relationship edge (A, B, T) found in a record's relationship map is
persisted by the import if and only if B is among the entity ids accumulated
over all Phase-1 batches (the ids of every record in the file); dangling
references produce no row and no error. -/
theorem relationship_self_reference_filter (now bs : Nat) (s : Store)
    (mangaList : List MangaData) (A B : PyVal) (T : String) (m : MangaData)
    (rels : List (String × PyVal)) (rids : List PyVal)
    (hm : m ∈ mangaList) (hrel : m.relationships = PyVal.dict rels)
    (hT : (T, PyVal.list rids) ∈ rels) (hB : B ∈ rids) (hA : m.id = A)
    (hfresh : (A, B, T) ∉ s.manga_relationships) :
    (A, B, T) ∈ (importRun now bs s mangaList).manga_relationships ↔
      B ∈ idsOf mangaList := by
  rw [importRun_relationships, mem_saddAll]
  constructor
  · rintro (h | h)
    · exact absurd h hfresh
    · exact rel_mem_ids (idsOf mangaList) mangaList A B T h
  · intro h
    exact Or.inr (hA ▸ rel_row_produced (idsOf mangaList) mangaList m rels rids
      T B hm hrel hT hB h)

/-- Witness for C2 at the spec's example: id 5 with a "sequel" edge to id 6
(present in the file) produces the row, while an edge to id 9 (absent)
produces none. -/
theorem relationship_self_reference_filter_witness :
    ((PyVal.num 5, PyVal.num 6, "sequel") ∈
      (importRun 0 1000
        ⟨[], ⟨[], 1⟩, ⟨[], 1⟩, ⟨[], 1⟩, ⟨[], 1⟩, ⟨[], 1⟩, ⟨[], 1⟩,
         [], [], [], [], [], [], [], [], [], []⟩
        [parse_manga_json "t" [("id", PyVal.num 5),
          ("relationships", PyVal.dict [("sequel",
            PyVal.list [PyVal.num 6, PyVal.num 9])])],
         parse_manga_json "t" [("id", PyVal.num 6)]]).manga_relationships) ∧
    ((PyVal.num 5, PyVal.num 9, "sequel") ∉
      (importRun 0 1000
        ⟨[], ⟨[], 1⟩, ⟨[], 1⟩, ⟨[], 1⟩, ⟨[], 1⟩, ⟨[], 1⟩, ⟨[], 1⟩,
         [], [], [], [], [], [], [], [], [], []⟩
        [parse_manga_json "t" [("id", PyVal.num 5),
          ("relationships", PyVal.dict [("sequel",
            PyVal.list [PyVal.num 6, PyVal.num 9])])],
         parse_manga_json "t" [("id", PyVal.num 6)]]).manga_relationships) := by
  constructor
  · exact (relationship_self_reference_filter 0 1000 _ _ (PyVal.num 5) (PyVal.num 6)
      "sequel"
      (parse_manga_json "t" [("id", PyVal.num 5),
        ("relationships", PyVal.dict [("sequel",
          PyVal.list [PyVal.num 6, PyVal.num 9])])])
      [("sequel", PyVal.list [PyVal.num 6, PyVal.num 9])]
      [PyVal.num 6, PyVal.num 9]
      (List.mem_cons_self _ _) rfl (List.mem_singleton.mpr rfl)
      (by decide) rfl (by decide)).mpr (by decide)
  · intro hmem
    have h9 := (relationship_self_reference_filter 0 1000 _ _ (PyVal.num 5)
      (PyVal.num 9) "sequel"
      (parse_manga_json "t" [("id", PyVal.num 5),
        ("relationships", PyVal.dict [("sequel",
          PyVal.list [PyVal.num 6, PyVal.num 9])])])
      [("sequel", PyVal.list [PyVal.num 6, PyVal.num 9])]
      [PyVal.num 6, PyVal.num 9]
      (List.mem_cons_self _ _) rfl (List.mem_singleton.mpr rfl)
      (by decide) rfl (by decide)).mp hmem
    revert h9
    decide

/-! ## C3: the lookup-cache ensure contract -/

theorem lookup_append_left {β : Type} (k : String) (v : β) :
    ∀ (l1 l2 : List (String × β)), l1.lookup k = some v →
      (l1 ++ l2).lookup k = some v := by
  intro l1
  induction l1 with
  | nil => intro l2 h; simp at h
  | cons p t ih =>
      obtain ⟨pk, pv⟩ := p
      intro l2 h
      rw [List.lookup_cons] at h
      rw [List.cons_append, List.lookup_cons]
      by_cases hk : k == pk
      · rw [hk] at h ⊢; exact h
      · rw [Bool.not_eq_true] at hk
        rw [hk] at h ⊢
        exact ih l2 h

theorem lookup_append_none {β : Type} (k : String) :
    ∀ (l1 l2 : List (String × β)), l1.lookup k = Option.none →
      (l1 ++ l2).lookup k = l2.lookup k := by
  intro l1
  induction l1 with
  | nil => intro l2 _; rfl
  | cons p t ih =>
      obtain ⟨pk, pv⟩ := p
      intro l2 h
      rw [List.lookup_cons] at h
      rw [List.cons_append, List.lookup_cons]
      by_cases hk : k == pk
      · rw [hk] at h; cases h
      · rw [Bool.not_eq_true] at hk
        rw [hk] at h ⊢
        exact ih l2 h

theorem lookup_mem {β : Type} (k : String) (v : β) :
    ∀ l : List (String × β), l.lookup k = some v → (k, v) ∈ l := by
  intro l
  induction l with
  | nil => intro h; simp at h
  | cons p t ih =>
      obtain ⟨pk, pv⟩ := p
      intro h
      rw [List.lookup_cons] at h
      by_cases hk : k == pk
      · rw [hk] at h
        have : pv = v := Option.some.inj h
        have hkk : k = pk := beq_iff_eq.mp hk
        subst this; subst hkk
        exact List.mem_cons_self _ _
      · rw [Bool.not_eq_true] at hk
        rw [hk] at h
        exact List.mem_cons_of_mem _ (ih h)

theorem iir_go (names : List String) :
    ∀ (tbl : LookupTable) (acc : List (String × Nat)),
      names.foldl iirStep (tbl, acc) =
        ((insertIgnoreReturning tbl names).1,
         acc ++ (insertIgnoreReturning tbl names).2) := by
  induction names with
  | nil => intro tbl acc; simp [insertIgnoreReturning]
  | cons n ns ih =>
      intro tbl acc
      rw [List.foldl_cons, show insertIgnoreReturning tbl (n :: ns) =
        ns.foldl iirStep (iirStep (tbl, []) n) from rfl]
      rcases hl : tbl.rows.lookup n with _ | i
      · rw [show iirStep (tbl, acc) n =
          (⟨tbl.rows ++ [(n, tbl.nextId)], tbl.nextId + 1⟩,
           acc ++ [(n, tbl.nextId)]) from by rw [iirStep, hl]]
        rw [show iirStep (tbl, []) n =
          (⟨tbl.rows ++ [(n, tbl.nextId)], tbl.nextId + 1⟩,
           [(n, tbl.nextId)]) from by rw [iirStep, hl]; rfl]
        rw [ih, ih]
        simp
      · rw [show iirStep (tbl, acc) n = (tbl, acc) from by rw [iirStep, hl]]
        rw [show iirStep (tbl, []) n = (tbl, []) from by rw [iirStep, hl]]
        exact ih tbl acc

theorem iir_mono (names : List String) :
    ∀ (tbl : LookupTable) (n : String) (i : Nat),
      tbl.rows.lookup n = some i →
      (insertIgnoreReturning tbl names).1.rows.lookup n = some i := by
  induction names with
  | nil => intro tbl n i h; exact h
  | cons m ms ih =>
      intro tbl n i h
      rw [show insertIgnoreReturning tbl (m :: ms) =
        ms.foldl iirStep (iirStep (tbl, []) m) from rfl]
      rcases hl : tbl.rows.lookup m with _ | j
      · rw [show iirStep (tbl, []) m =
          (⟨tbl.rows ++ [(m, tbl.nextId)], tbl.nextId + 1⟩,
           [(m, tbl.nextId)]) from by rw [iirStep, hl]; rfl]
        rw [iir_go]
        exact ih _ n i (lookup_append_left n i tbl.rows _ h)
      · rw [show iirStep (tbl, []) m = (tbl, []) from by rw [iirStep, hl]]
        rw [iir_go]
        exact ih tbl n i h

theorem iir_all (names : List String) :
    ∀ (tbl : LookupTable) (n : String), n ∈ names →
      ((insertIgnoreReturning tbl names).1.rows.lookup n).isSome := by
  induction names with
  | nil => intro tbl n h; simp at h
  | cons m ms ih =>
      intro tbl n h
      rw [show insertIgnoreReturning tbl (m :: ms) =
        ms.foldl iirStep (iirStep (tbl, []) m) from rfl]
      rcases List.mem_cons.mp h with rfl | hmem
      · rcases hl : tbl.rows.lookup n with _ | j
        · rw [show iirStep (tbl, []) n =
            (⟨tbl.rows ++ [(n, tbl.nextId)], tbl.nextId + 1⟩,
             [(n, tbl.nextId)]) from by rw [iirStep, hl]; rfl]
          rw [iir_go]
          have hnew : (LookupTable.mk (tbl.rows ++ [(n, tbl.nextId)])
              (tbl.nextId + 1)).rows.lookup n = some tbl.nextId := by
            rw [show (LookupTable.mk (tbl.rows ++ [(n, tbl.nextId)])
              (tbl.nextId + 1)).rows = tbl.rows ++ [(n, tbl.nextId)] from rfl]
            rw [lookup_append_none n tbl.rows _ hl]
            simp [List.lookup_cons]
          rw [iir_mono ms _ n tbl.nextId hnew]
          rfl
        · rw [show iirStep (tbl, []) n = (tbl, []) from by rw [iirStep, hl]]
          rw [iir_go]
          rw [iir_mono ms tbl n j hl]
          rfl
      · rcases hl : tbl.rows.lookup m with _ | j
        · rw [show iirStep (tbl, []) m =
            (⟨tbl.rows ++ [(m, tbl.nextId)], tbl.nextId + 1⟩,
             [(m, tbl.nextId)]) from by rw [iirStep, hl]; rfl]
          rw [iir_go]
          exact ih _ n hmem
        · rw [show iirStep (tbl, []) m = (tbl, []) from by rw [iirStep, hl]]
          rw [iir_go]
          exact ih tbl n hmem

theorem iir_sub (names : List String) :
    ∀ (tbl : LookupTable) (p : String × Nat),
      p ∈ (insertIgnoreReturning tbl names).2 → p.1 ∈ names := by
  induction names with
  | nil => intro tbl p h; simp [insertIgnoreReturning] at h
  | cons m ms ih =>
      intro tbl p h
      rw [show insertIgnoreReturning tbl (m :: ms) =
        ms.foldl iirStep (iirStep (tbl, []) m) from rfl] at h
      rcases hl : tbl.rows.lookup m with _ | j
      · rw [show iirStep (tbl, []) m =
          (⟨tbl.rows ++ [(m, tbl.nextId)], tbl.nextId + 1⟩,
           [(m, tbl.nextId)]) from by rw [iirStep, hl]; rfl, iir_go] at h
        rcases List.mem_append.mp h with hh | hh
        · rw [List.mem_singleton] at hh
          rw [hh]
          exact List.mem_cons_self _ _
        · exact List.mem_cons_of_mem _ (ih _ p hh)
      · rw [show iirStep (tbl, []) m = (tbl, []) from by rw [iirStep, hl],
          iir_go] at h
        simp only [List.nil_append] at h
        exact List.mem_cons_of_mem _ (ih tbl p h)

theorem iir_char (names : List String) :
    ∀ tbl : LookupTable, names.Nodup →
      (insertIgnoreReturning tbl names).2.map Prod.fst =
        names.filter (fun n => (tbl.rows.lookup n).isNone) := by
  induction names with
  | nil => intro tbl _; rfl
  | cons m ms ih =>
      intro tbl hnd
      have hnd2 := List.nodup_cons.mp hnd
      rw [show insertIgnoreReturning tbl (m :: ms) =
        ms.foldl iirStep (iirStep (tbl, []) m) from rfl, List.filter_cons]
      rcases hl : tbl.rows.lookup m with _ | j
      · rw [show iirStep (tbl, []) m =
          (⟨tbl.rows ++ [(m, tbl.nextId)], tbl.nextId + 1⟩,
           [(m, tbl.nextId)]) from by rw [iirStep, hl]; rfl, iir_go]
        rw [if_pos (show (Option.none : Option Nat).isNone = true from rfl)]
        simp only [List.map_append, List.map_cons, List.map_nil,
          List.singleton_append]
        rw [ih _ hnd2.2]
        have : ms.filter (fun n =>
            ((tbl.rows ++ [(m, tbl.nextId)]).lookup n).isNone) =
            ms.filter (fun n => (tbl.rows.lookup n).isNone) := by
          apply List.filter_congr
          intro x hx
          have hxm : x ≠ m := fun hxe => hnd2.1 (hxe ▸ hx)
          rcases hx2 : tbl.rows.lookup x with _ | v
          · rw [lookup_append_none x tbl.rows _ hx2]
            rw [show ([(m, tbl.nextId)] : List (String × Nat)).lookup x =
              Option.none from by
                rw [List.lookup_cons]
                rw [show (x == m) = false from by simp [hxm]]
                rfl]
          · rw [lookup_append_left x v tbl.rows _ hx2]
        rw [this]
      · rw [show iirStep (tbl, []) m = (tbl, []) from by rw [iirStep, hl], iir_go]
        rw [if_neg (show ¬(some j).isNone = true from by simp)]
        simp only [List.nil_append]
        exact ih tbl hnd2.2

theorem lookup_mapReplace_self (k : String) (v : Nat) :
    ∀ c : Cache, (c.lookup k).isSome →
      (c.map (fun q => if q.1 == k then (k, v) else q)).lookup k = some v := by
  intro c
  induction c with
  | nil => intro h; simp at h
  | cons p t ih =>
      obtain ⟨pk, pv⟩ := p
      intro h
      rw [List.map_cons]
      by_cases hk : pk = k
      · rw [show (if ((pk, pv) : String × Nat).1 == k then (k, v)
          else (pk, pv)) = (k, v) from by simp [hk]]
        simp [List.lookup_cons]
      · rw [show (if ((pk, pv) : String × Nat).1 == k then (k, v)
          else (pk, pv)) = (pk, pv) from by simp [hk]]
        rw [List.lookup_cons]
        rw [show (k == pk) = false from by simp [Ne.symm hk]]
        rw [List.lookup_cons] at h
        rw [show (k == pk) = false from by simp [Ne.symm hk]] at h
        exact ih h

theorem lookup_mapReplace_ne (k k' : String) (v : Nat) (h : k' ≠ k) :
    ∀ c : Cache,
      (c.map (fun q => if q.1 == k then (k, v) else q)).lookup k' = c.lookup k' := by
  intro c
  induction c with
  | nil => rfl
  | cons p t ih =>
      obtain ⟨pk, pv⟩ := p
      rw [List.map_cons]
      by_cases hk : pk = k
      · rw [show (if ((pk, pv) : String × Nat).1 == k then (k, v)
          else (pk, pv)) = (k, v) from by simp [hk]]
        rw [List.lookup_cons, List.lookup_cons]
        rw [show (k' == k) = false from by simp [h],
          show (k' == pk) = false from by simp [hk ▸ h]]
        exact ih
      · rw [show (if ((pk, pv) : String × Nat).1 == k then (k, v)
          else (pk, pv)) = (pk, pv) from by simp [hk]]
        rw [List.lookup_cons, List.lookup_cons]
        by_cases hk' : k' = pk
        · rw [show (k' == pk) = true from by simp [hk']]
        · rw [show (k' == pk) = false from by simp [hk']]
          exact ih

theorem cassign_lookup_self (k : String) (v : Nat) (c : Cache) :
    (cassign c k v).lookup k = some v := by
  rw [cassign]
  split
  · rename_i hsome
    exact lookup_mapReplace_self k v c hsome
  · rename_i hnone
    rw [lookup_append_none k c _ (Option.not_isSome_iff_eq_none.mp
      (fun hh => hnone (by rw [hh]))),
      List.lookup_cons]
    simp

theorem cassign_lookup_ne (k k' : String) (v : Nat) (h : k' ≠ k) (c : Cache) :
    (cassign c k v).lookup k' = c.lookup k' := by
  rw [cassign]
  split
  · exact lookup_mapReplace_ne k k' v h c
  · rcases hx : c.lookup k' with _ | v'
    · rw [lookup_append_none k' c _ hx, List.lookup_cons]
      rw [show (k' == k) = false from by simp [h]]
      rfl
    · exact lookup_append_left k' v' c _ hx

theorem cupdate_notin (kvs : List (String × Nat)) :
    ∀ (c : Cache) (k : String), k ∉ kvs.map Prod.fst →
      (cupdate c kvs).lookup k = c.lookup k := by
  induction kvs with
  | nil => intro c k _; rfl
  | cons p ps ih =>
      intro c k hk
      rw [List.map_cons] at hk
      rw [show cupdate c (p :: ps) = cupdate (cassign c p.1 p.2) ps from rfl]
      rw [ih _ k (fun hmem => hk (List.mem_cons_of_mem _ hmem))]
      exact cassign_lookup_ne p.1 k p.2
        (fun he => hk (he ▸ List.mem_cons_self _ _)) c

theorem cassign_isSome (k k' : String) (v : Nat) (c : Cache)
    (h : (c.lookup k').isSome) : ((cassign c k v).lookup k').isSome := by
  by_cases hk : k' = k
  · subst hk
    rw [cassign_lookup_self]
    rfl
  · rw [cassign_lookup_ne k k' v hk]
    exact h

theorem cupdate_isSome_mono (kvs : List (String × Nat)) :
    ∀ (c : Cache) (k : String), (c.lookup k).isSome →
      ((cupdate c kvs).lookup k).isSome := by
  induction kvs with
  | nil => intro c k h; exact h
  | cons p ps ih =>
      intro c k h
      exact ih _ k (cassign_isSome p.1 k p.2 c h)

theorem cupdate_mem (kvs : List (String × Nat)) :
    ∀ (c : Cache) (k : String), k ∈ kvs.map Prod.fst →
      ((cupdate c kvs).lookup k).isSome := by
  induction kvs with
  | nil => intro c k h; simp at h
  | cons p ps ih =>
      intro c k h
      rw [List.map_cons] at h
      rcases List.mem_cons.mp h with rfl | hmem
      · exact cupdate_isSome_mono ps _ p.1 (by rw [cassign_lookup_self]; rfl)
      · exact ih _ k hmem

theorem select_sub (tbl : LookupTable) (data : List String) (p : String × Nat)
    (h : p ∈ selectByNames tbl data) : p.1 ∈ data := by
  rw [selectByNames] at h
  have := List.of_mem_filter h
  exact List.elem_iff.mp this

theorem insert_and_cache_eq (tbl : LookupTable) (cache : Cache)
    (data : List String) (hdata : data ≠ []) :
    insert_and_cache tbl cache data =
      if (insertIgnoreReturning tbl data).2.length < data.length then
        ((insertIgnoreReturning tbl data).1,
         cupdate (cupdate cache (insertIgnoreReturning tbl data).2)
           (selectByNames (insertIgnoreReturning tbl data).1 data))
      else ((insertIgnoreReturning tbl data).1,
            cupdate cache (insertIgnoreReturning tbl data).2) := by
  rw [insert_and_cache, if_neg hdata]

theorem insert_and_cache_preserve (tbl : LookupTable) (cache : Cache)
    (data : List String) (n : String) (i : Nat)
    (hn : n ∉ data) (h : cache.lookup n = some i) :
    (insert_and_cache tbl cache data).2.lookup n = some i := by
  by_cases hdata : data = []
  · rw [insert_and_cache, if_pos hdata]
    exact h
  · rw [insert_and_cache_eq tbl cache data hdata]
    have hret : (cupdate cache (insertIgnoreReturning tbl data).2).lookup n =
        some i := by
      rw [cupdate_notin _ _ n (fun hmem => by
        obtain ⟨p, hp, hp2⟩ := List.mem_map.mp hmem
        exact hn (hp2 ▸ iir_sub data tbl p hp))]
      exact h
    by_cases hlen : (insertIgnoreReturning tbl data).2.length < data.length
    · rw [if_pos hlen]
      rw [show (((insertIgnoreReturning tbl data).1,
        cupdate (cupdate cache (insertIgnoreReturning tbl data).2)
          (selectByNames (insertIgnoreReturning tbl data).1 data)) :
          LookupTable × Cache).2 =
        cupdate (cupdate cache (insertIgnoreReturning tbl data).2)
          (selectByNames (insertIgnoreReturning tbl data).1 data) from rfl]
      rw [cupdate_notin _ _ n (fun hmem => by
        obtain ⟨p, hp, hp2⟩ := List.mem_map.mp hmem
        exact hn (hp2 ▸ select_sub _ data p hp))]
      exact hret
    · rw [if_neg hlen]
      exact hret

theorem insert_and_cache_all (tbl : LookupTable) (cache : Cache)
    (data : List String) (n : String) (hnd : data.Nodup) (hn : n ∈ data) :
    ((insert_and_cache tbl cache data).2.lookup n).isSome := by
  by_cases hdata : data = []
  · rw [hdata] at hn
    simp at hn
  · rw [insert_and_cache_eq tbl cache data hdata]
    by_cases hlen : (insertIgnoreReturning tbl data).2.length < data.length
    · rw [if_pos hlen]
      apply cupdate_mem
      have hsome := iir_all data tbl n hn
      rcases hx : (insertIgnoreReturning tbl data).1.rows.lookup n with _ | i
      · rw [hx] at hsome; cases hsome
      · have hmem := lookup_mem n i _ hx
        apply List.mem_map.mpr
        refine ⟨(n, i), ?_, rfl⟩
        rw [selectByNames]
        exact List.mem_filter.mpr ⟨hmem, List.elem_eq_true_of_mem hn⟩
    · rw [if_neg hlen]
      apply cupdate_mem
      rw [iir_char data tbl hnd]
      have hlen2 : (insertIgnoreReturning tbl data).2.length =
          (data.filter (fun m => (tbl.rows.lookup m).isNone)).length := by
        rw [show (insertIgnoreReturning tbl data).2.length =
          ((insertIgnoreReturning tbl data).2.map Prod.fst).length from
          (List.length_map _ _).symm]
        rw [iir_char data tbl hnd]
      have hle := List.length_filter_le
        (fun m => (tbl.rows.lookup m).isNone) data
      have heq : (data.filter (fun m => (tbl.rows.lookup m).isNone)).length =
          data.length := by omega
      rw [List.filter_eq_self.mpr (List.filter_length_eq_length.mp heq)]
      exact hn

theorem ensure_names_preserve (tbl : LookupTable) (cache : Cache)
    (names : List String) (n : String) (i : Nat)
    (h : cache.lookup n = some i) :
    (ensure_names tbl cache names).2.lookup n = some i := by
  rw [ensure_names]
  have hnotin : n ∉ names.filter (fun m => (cache.lookup m).isNone) := by
    intro hmem
    have := List.of_mem_filter hmem
    rw [h] at this
    cases this
  split
  · exact h
  · exact insert_and_cache_preserve tbl cache _ n i hnotin h

theorem ensure_names_all (tbl : LookupTable) (cache : Cache)
    (names : List String) (n : String) (hnd : names.Nodup) (hn : n ∈ names) :
    ((ensure_names tbl cache names).2.lookup n).isSome := by
  rw [ensure_names]
  rcases hc : cache.lookup n with _ | i
  · have hmem : n ∈ names.filter (fun m => (cache.lookup m).isNone) :=
      List.mem_filter.mpr ⟨hn, by rw [hc]; rfl⟩
    split
    · rename_i hempty
      rw [hempty] at hmem
      simp at hmem
    · exact insert_and_cache_all tbl cache _ n (List.Nodup.filter _ hnd) hmem
  · split
    · rw [hc]; rfl
    · rw [insert_and_cache_preserve tbl cache _ n i (fun hmem => by
        have := List.of_mem_filter hmem
        rw [hc] at this
        cases this) hc]
      rfl

/-- C3: after the ensure operation over a set of (distinct) names, every name
in the set is cached; already-cached names keep their binding untouched; and
across any further sequence of ensure operations a name once resolved keeps
the same id for the remainder of the run. -/
theorem lookup_cache_ensure_contract :
    (∀ (tbl : LookupTable) (cache : Cache) (names : List String) (n : String),
      names.Nodup → n ∈ names →
      ((ensure_names tbl cache names).2.lookup n).isSome) ∧
    (∀ (tbl : LookupTable) (cache : Cache) (names : List String) (n : String)
      (i : Nat), cache.lookup n = some i →
      (ensure_names tbl cache names).2.lookup n = some i) ∧
    (∀ (runs : List (List String)) (tbl : LookupTable) (cache : Cache)
      (n : String) (i : Nat), cache.lookup n = some i →
      ((runs.foldl (fun p names => ensure_names p.1 p.2 names)
        (tbl, cache)).2.lookup n = some i)) := by
  refine ⟨ensure_names_all, ensure_names_preserve, ?_⟩
  intro runs
  induction runs with
  | nil => intro tbl cache n i h; exact h
  | cons ns nss ih =>
      intro tbl cache n i h
      rw [List.foldl_cons]
      exact ih (ensure_names tbl cache ns).1 (ensure_names tbl cache ns).2 n i
        (ensure_names_preserve tbl cache ns n i h)

/-- Witness for C3: ensuring the names Alice (new) and Bob (already cached
with id 7, also pre-existing in the table) leaves Bob at id 7 and caches
both names; a later ensure run keeps Bob's binding. -/
theorem lookup_cache_ensure_contract_witness :
    (((ensure_names ⟨[("Bob", 7)], 8⟩ [("Bob", 7)]
      ["Alice", "Bob"]).2.lookup "Alice").isSome = true) ∧
    ((ensure_names ⟨[("Bob", 7)], 8⟩ [("Bob", 7)]
      ["Alice", "Bob"]).2.lookup "Bob" = some 7) ∧
    ((([["Alice"], ["Carol"]] : List (List String)).foldl
      (fun p names => ensure_names p.1 p.2 names)
      (⟨[("Bob", 7)], 8⟩, [("Bob", 7)])).2.lookup "Bob" = some 7) := by
  refine ⟨?_, ?_, ?_⟩
  · exact lookup_cache_ensure_contract.1 ⟨[("Bob", 7)], 8⟩ [("Bob", 7)]
      ["Alice", "Bob"] "Alice" (by decide) (by decide)
  · exact lookup_cache_ensure_contract.2.1 ⟨[("Bob", 7)], 8⟩ [("Bob", 7)]
      ["Alice", "Bob"] "Bob" 7 rfl
  · exact lookup_cache_ensure_contract.2.2 [["Alice"], ["Carol"]]
      ⟨[("Bob", 7)], 8⟩ [("Bob", 7)] "Bob" 7 rfl

/-! ## C8: batch transaction failure aborts the run -/

theorem runBatches_append_fail {σ ε α : Type} (f : σ → α → Except ε σ)
    (pre : List α) :
    ∀ (s sk : σ) (b : α) (post : List α) (e : ε),
      runBatches f s pre = (sk, Option.none) → f sk b = .error e →
      runBatches f s (pre ++ b :: post) = (sk, some e) := by
  induction pre with
  | nil =>
      intro s sk b post e hpre hb
      have hs : s = sk := congrArg Prod.fst hpre
      subst hs
      rw [List.nil_append, runBatches, hb]
  | cons a as ih =>
      intro s sk b post e hpre hb
      rw [List.cons_append, runBatches]
      rw [runBatches] at hpre
      rcases hf : f s a with e' | s'
      · rw [hf] at hpre
        cases congrArg Prod.snd hpre
      · rw [hf] at hpre
        exact ih s' sk b post e hpre hb

/-- C8: if any batch body fails in either phase, that batch's transaction is
rolled back in full (the failing batch leaves no state change), the error is
re-raised so that the run aborts with no later batch attempted (the result
does not depend on the remaining batches), and every batch committed before
the failure remains committed (the returned state is exactly the state after
the successful prefix). -/
theorem batch_failure_aborts_run :
    (∀ (σ ε : Type) (p1 p2 : σ → List MangaData → Except ε σ) (bs : Nat)
      (l : List MangaData) (s sk : σ) (pre : List (List MangaData))
      (b : List MangaData) (post : List (List MangaData)) (e : ε),
      chunk bs l = pre ++ b :: post →
      runBatches p1 s pre = (sk, Option.none) →
      p1 sk b = .error e →
      import_file_exc p1 p2 bs l s = (sk, some e)) ∧
    (∀ (σ ε : Type) (p1 p2 : σ → List MangaData → Except ε σ) (bs : Nat)
      (l : List MangaData) (s s1 sk : σ) (pre : List (List MangaData))
      (b : List MangaData) (post : List (List MangaData)) (e : ε),
      chunk bs l = pre ++ b :: post →
      runBatches p1 s (chunk bs l) = (s1, Option.none) →
      runBatches p2 s1 pre = (sk, Option.none) →
      p2 sk b = .error e →
      import_file_exc p1 p2 bs l s = (sk, some e)) := by
  constructor
  · intro σ ε p1 p2 bs l s sk pre b post e hchunk hpre hb
    rw [import_file_exc, hchunk,
      runBatches_append_fail p1 pre s sk b post e hpre hb]
  · intro σ ε p1 p2 bs l s s1 sk pre b post e hchunk hp1 hpre hb
    rw [import_file_exc, hp1]
    show runBatches p2 s1 (chunk bs l) = (sk, some e)
    rw [hchunk, runBatches_append_fail p2 pre s1 sk b post e hpre hb]

/-- Witness for C8 with two singleton batches: phase 1 fails on the second
batch, returning the state committed by the first batch and the raised
error; and a phase-2 failure on the second batch likewise returns the
phase-2 state after the first batch. -/
theorem batch_failure_aborts_run_witness :
    import_file_exc
      (fun s _ => if s = 0 then Except.ok 1 else Except.error 5)
      (fun s _ => Except.ok s) 1
      [parse_manga_json "t" [], parse_manga_json "t" []] 0 = (1, some 5) ∧
    import_file_exc
      (fun s _ => Except.ok s)
      (fun s _ => if s = 0 then Except.ok 2 else Except.error 9) 1
      [parse_manga_json "t" [], parse_manga_json "t" []] 0 = (2, some 9) := by
  constructor
  · exact batch_failure_aborts_run.1 Nat Nat
      (fun s _ => if s = 0 then Except.ok 1 else Except.error 5)
      (fun s _ => Except.ok s) 1
      [parse_manga_json "t" [], parse_manga_json "t" []] 0 1
      [[parse_manga_json "t" []]] [parse_manga_json "t" []] [] 5
      (by simp [chunk]) rfl rfl
  · exact batch_failure_aborts_run.2 Nat Nat
      (fun s _ => Except.ok s)
      (fun s _ => if s = 0 then Except.ok 2 else Except.error 9) 1
      [parse_manga_json "t" [], parse_manga_json "t" []] 0 0 2
      [[parse_manga_json "t" []]] [parse_manga_json "t" []] [] 9
      (by simp [chunk]) (by rw [show chunk 1 [parse_manga_json "t" [],
        parse_manga_json "t" []] = [[parse_manga_json "t" []],
        [parse_manga_json "t" []]] from by simp [chunk]]; rfl) rfl rfl

/-! ## C4: idempotence of re-import -/

theorem areplace_lookup_ne (k j : PyVal) (v : StoredManga) (h : j ≠ k) :
    ∀ tbl : MangaTable, (areplace tbl k v).lookup j = tbl.lookup j := by
  intro tbl
  induction tbl with
  | nil => rfl
  | cons p t ih =>
      obtain ⟨pk, pv⟩ := p
      rw [areplace, List.map_cons]
      by_cases hk : pk = k
      · rw [show (if ((pk, pv) : PyVal × StoredManga).1 == k then (k, v)
          else (pk, pv)) = (k, v) from by simp [hk]]
        rw [List.lookup_cons, List.lookup_cons]
        rw [show (j == k) = false from by simp [h],
          show (j == pk) = false from by simp [hk ▸ h]]
        exact ih
      · rw [show (if ((pk, pv) : PyVal × StoredManga).1 == k then (k, v)
          else (pk, pv)) = (pk, pv) from by simp [hk]]
        rw [List.lookup_cons, List.lookup_cons]
        by_cases hj : j = pk
        · rw [show (j == pk) = true from by simp [hj]]
        · rw [show (j == pk) = false from by simp [hj]]
          exact ih

theorem lookup_append_left_py (k : PyVal) (v : StoredManga) :
    ∀ (l1 l2 : MangaTable), l1.lookup k = some v → (l1 ++ l2).lookup k = some v := by
  intro l1
  induction l1 with
  | nil => intro l2 h; simp at h
  | cons p t ih =>
      obtain ⟨pk, pv⟩ := p
      intro l2 h
      rw [List.lookup_cons] at h
      rw [List.cons_append, List.lookup_cons]
      by_cases hk : k == pk
      · rw [hk] at h ⊢; exact h
      · rw [Bool.not_eq_true] at hk
        rw [hk] at h ⊢
        exact ih l2 h

theorem lookup_append_none_py (k : PyVal) :
    ∀ (l1 l2 : MangaTable), l1.lookup k = Option.none →
      (l1 ++ l2).lookup k = l2.lookup k := by
  intro l1
  induction l1 with
  | nil => intro l2 _; rfl
  | cons p t ih =>
      obtain ⟨pk, pv⟩ := p
      intro l2 h
      rw [List.lookup_cons] at h
      rw [List.cons_append, List.lookup_cons]
      by_cases hk : k == pk
      · rw [hk] at h; cases h
      · rw [Bool.not_eq_true] at hk
        rw [hk] at h ⊢
        exact ih l2 h

theorem lastRowWith_cons_eq (r : MangaRow) (rs : List MangaRow) (i : PyVal)
    (h : r.id = i) :
    lastRowWith (r :: rs) i =
      match lastRowWith rs i with
      | some rl => some rl
      | Option.none => some r := by
  rw [lastRowWith, lastRowWith, List.filter_cons, if_pos (by simp [h]),
    List.getLast?_cons]
  rcases hx : (rs.filter (fun r => r.id == i)).getLast? with _ | rl <;> rw [hx] <;> rfl

theorem lastRowWith_cons_ne (r : MangaRow) (rs : List MangaRow) (i : PyVal)
    (h : r.id ≠ i) : lastRowWith (r :: rs) i = lastRowWith rs i := by
  rw [lastRowWith, lastRowWith, List.filter_cons, if_neg (by simp [h])]

theorem manga_upsert_lookup_ne (now : Nat) (tbl : MangaTable) (r : MangaRow)
    (j : PyVal) (h : j ≠ r.id) :
    (manga_upsert now tbl r).lookup j = tbl.lookup j := by
  rw [manga_upsert]
  rcases hl : tbl.lookup r.id with _ | old
  · rcases hx : tbl.lookup j with _ | v
    · rw [lookup_append_none_py j tbl _ hx, List.lookup_cons]
      rw [show (j == r.id) = false from by simp [h]]
      rfl
    · exact lookup_append_left_py j v tbl _ hx
  · exact areplace_lookup_ne r.id j _ h tbl

theorem manga_fold_lookup_present (now : Nat) (rows : List MangaRow) :
    ∀ (tbl : MangaTable) (i : PyVal) (old : StoredManga),
      tbl.lookup i = some old →
      (rows.foldl (manga_upsert now) tbl).lookup i =
        some (match lastRowWith rows i with
          | some rl => ⟨{ rl with type := old.row.type }, old.createdAt, now⟩
          | Option.none => old) := by
  induction rows with
  | nil => intro tbl i old h; rw [List.foldl_nil, h]; rfl
  | cons r rs ih =>
      intro tbl i old h
      rw [List.foldl_cons]
      by_cases hid : r.id = i
      · have hl : tbl.lookup r.id = some old := by rw [hid]; exact h
        have hup : manga_upsert now tbl r =
            areplace tbl r.id ⟨{ r with type := old.row.type },
              old.createdAt, now⟩ := by
          rw [manga_upsert, hl]
        have hlook : (manga_upsert now tbl r).lookup i =
            some ⟨{ r with type := old.row.type }, old.createdAt, now⟩ := by
          rw [hup, ← hid]
          exact lookup_areplace r.id _ tbl (by rw [hl]; rfl)
        rw [ih _ i _ hlook, lastRowWith_cons_eq r rs i hid]
        rcases hx : lastRowWith rs i with _ | rl <;> rfl
      · rw [lastRowWith_cons_ne r rs i hid]
        exact ih _ i old ((manga_upsert_lookup_ne now tbl r i
          (Ne.symm hid)).trans h)

theorem manga_fold_lookup_absent (now : Nat) (rows : List MangaRow) :
    ∀ (tbl : MangaTable) (i : PyVal), tbl.lookup i = Option.none →
      (rows.foldl (manga_upsert now) tbl).lookup i =
        (match lastRowWith rows i with
          | some rl => some ⟨{ rl with type :=
              (match (rows.filter (fun r => r.id == i)).head? with
               | some rf => rf.type
               | Option.none => rl.type) }, now, now⟩
          | Option.none => Option.none) := by
  induction rows with
  | nil => intro tbl i h; rw [List.foldl_nil, h]; rfl
  | cons r rs ih =>
      intro tbl i h
      rw [List.foldl_cons]
      by_cases hid : r.id = i
      · have hl : tbl.lookup r.id = Option.none := by rw [hid]; exact h
        have hup : manga_upsert now tbl r = tbl ++ [(r.id, ⟨r, now, now⟩)] := by
          rw [manga_upsert, hl]
        have hlook : (manga_upsert now tbl r).lookup i =
            some ⟨r, now, now⟩ := by
          rw [hup, ← hid, lookup_append_none_py r.id tbl _ hl, List.lookup_cons]
          simp
        rw [manga_fold_lookup_present now rs _ i _ hlook,
          lastRowWith_cons_eq r rs i hid]
        rw [show (r :: rs).filter (fun r => r.id == i) =
          r :: rs.filter (fun r => r.id == i) from by
            rw [List.filter_cons, if_pos (by simp [hid])]]
        rw [List.head?_cons]
        rcases hx : lastRowWith rs i with _ | rl <;> rfl
      · rw [lastRowWith_cons_ne r rs i hid]
        rw [show (r :: rs).filter (fun r => r.id == i) =
          rs.filter (fun r => r.id == i) from by
            rw [List.filter_cons, if_neg (by simp [hid])]]
        exact ih _ i ((manga_upsert_lookup_ne now tbl r i (Ne.symm hid)).trans h)

theorem areplace_keys (tbl : MangaTable) (k : PyVal) (v : StoredManga) :
    (areplace tbl k v).map Prod.fst = tbl.map Prod.fst := by
  rw [areplace, List.map_map]
  apply List.map_congr_left
  intro p _
  by_cases hk : p.1 == k
  · have : p.1 = k := beq_iff_eq.mp hk
    simp [hk, this]
  · have hne : ¬ p.1 = k := by simpa using hk
    simp [hne]

theorem manga_upsert_present_mono (now : Nat) (tbl : MangaTable) (r : MangaRow)
    (j : PyVal) (h : (tbl.lookup j).isSome) :
    ((manga_upsert now tbl r).lookup j).isSome := by
  by_cases hj : j = r.id
  · subst hj
    rw [manga_upsert]
    rcases hl : tbl.lookup r.id with _ | old
    · rw [hl] at h; cases h
    · rw [lookup_areplace r.id _ tbl (by rw [hl]; rfl)]
      rfl
  · rw [manga_upsert_lookup_ne now tbl r j hj]
    exact h

theorem manga_upsert_keys_present (now : Nat) (tbl : MangaTable) (r : MangaRow)
    (h : (tbl.lookup r.id).isSome) :
    (manga_upsert now tbl r).map Prod.fst = tbl.map Prod.fst := by
  rw [manga_upsert]
  rcases hl : tbl.lookup r.id with _ | old
  · rw [hl] at h; cases h
  · exact areplace_keys tbl r.id _

theorem manga_fold_keys_present (now : Nat) (rows : List MangaRow) :
    ∀ tbl : MangaTable, (∀ r ∈ rows, (tbl.lookup r.id).isSome) →
      (rows.foldl (manga_upsert now) tbl).map Prod.fst = tbl.map Prod.fst := by
  induction rows with
  | nil => intro tbl _; rfl
  | cons r rs ih =>
      intro tbl h
      rw [List.foldl_cons]
      rw [ih _ (fun r' hr' => manga_upsert_present_mono now tbl r r'.id
        (h r' (List.mem_cons_of_mem _ hr')))]
      exact manga_upsert_keys_present now tbl r (h r (List.mem_cons_self _ _))

theorem lastRowWith_mem (rows : List MangaRow) (r : MangaRow) (h : r ∈ rows) :
    ∃ rl, lastRowWith rows r.id = some rl := by
  rw [lastRowWith]
  have hmem : r ∈ rows.filter (fun q => q.id == r.id) :=
    List.mem_filter.mpr ⟨h, by simp⟩
  cases hx : rows.filter (fun q => q.id == r.id) with
  | nil => rw [hx] at hmem; simp at hmem
  | cons a as =>
      exact ⟨(a :: as).getLast (by simp), List.getLast?_eq_getLast _ _⟩

theorem manga_fold_present_after (now : Nat) (rows : List MangaRow)
    (tbl : MangaTable) (r : MangaRow) (h : r ∈ rows) :
    ((rows.foldl (manga_upsert now) tbl).lookup r.id).isSome := by
  obtain ⟨rl, hrl⟩ := lastRowWith_mem rows r h
  rcases hl : tbl.lookup r.id with _ | old
  · rw [manga_fold_lookup_absent now rows tbl r.id hl, hrl]
    rfl
  · rw [manga_fold_lookup_present now rows tbl r.id old hl, hrl]
    rfl

theorem lookup_none_not_mem (n : String) :
    ∀ rows : List (String × Nat), rows.lookup n = Option.none →
      n ∉ rows.map Prod.fst := by
  intro rows
  induction rows with
  | nil => intro _ h; simp at h
  | cons p t ih =>
      obtain ⟨pk, pv⟩ := p
      intro h hmem
      rw [List.lookup_cons] at h
      rw [List.map_cons] at hmem
      by_cases hk : n = pk
      · rw [show (n == pk) = true from by simp [hk]] at h
        cases h
      · rw [show (n == pk) = false from by simp [hk]] at h
        rcases List.mem_cons.mp hmem with he | hmem2
        · exact hk he
        · exact ih h hmem2

theorem iir_WF (names : List String) :
    ∀ tbl : LookupTable, lookupWF tbl →
      lookupWF (insertIgnoreReturning tbl names).1 := by
  induction names with
  | nil => intro tbl h; exact h
  | cons m ms ih =>
      intro tbl h
      rw [show insertIgnoreReturning tbl (m :: ms) =
        ms.foldl iirStep (iirStep (tbl, []) m) from rfl]
      rcases hl : tbl.rows.lookup m with _ | j
      · rw [show iirStep (tbl, []) m =
          (⟨tbl.rows ++ [(m, tbl.nextId)], tbl.nextId + 1⟩,
           [(m, tbl.nextId)]) from by rw [iirStep, hl]; rfl, iir_go]
        apply ih
        rw [lookupWF]
        rw [show (LookupTable.mk (tbl.rows ++ [(m, tbl.nextId)])
          (tbl.nextId + 1)).rows = tbl.rows ++ [(m, tbl.nextId)] from rfl]
        rw [List.map_append]
        rw [List.nodup_append]
        refine ⟨h, List.nodup_singleton m, ?_⟩
        intro x hx hx2
        rw [show (List.map Prod.fst [(m, tbl.nextId)]) = [m] from rfl] at hx2
        rw [List.mem_singleton] at hx2
        subst hx2
        exact lookup_none_not_mem x tbl.rows hl hx
      · rw [show iirStep (tbl, []) m = (tbl, []) from by rw [iirStep, hl], iir_go]
        exact ih tbl h

theorem iir_ret_binding (names : List String) :
    ∀ (tbl : LookupTable) (p : String × Nat),
      p ∈ (insertIgnoreReturning tbl names).2 →
      (insertIgnoreReturning tbl names).1.rows.lookup p.1 = some p.2 := by
  induction names with
  | nil => intro tbl p h; simp [insertIgnoreReturning] at h
  | cons m ms ih =>
      intro tbl p h
      rw [show insertIgnoreReturning tbl (m :: ms) =
        ms.foldl iirStep (iirStep (tbl, []) m) from rfl] at h ⊢
      rcases hl : tbl.rows.lookup m with _ | j
      · rw [show iirStep (tbl, []) m =
          (⟨tbl.rows ++ [(m, tbl.nextId)], tbl.nextId + 1⟩,
           [(m, tbl.nextId)]) from by rw [iirStep, hl]; rfl, iir_go] at h ⊢
        rcases List.mem_append.mp h with hh | hh
        · rw [List.mem_singleton] at hh
          subst hh
          apply iir_mono
          rw [show (LookupTable.mk (tbl.rows ++ [(m, tbl.nextId)])
            (tbl.nextId + 1)).rows = tbl.rows ++ [(m, tbl.nextId)] from rfl]
          rw [lookup_append_none m tbl.rows _ hl, List.lookup_cons]
          simp
        · exact ih _ p hh
      · rw [show iirStep (tbl, []) m = (tbl, []) from by rw [iirStep, hl],
          iir_go] at h ⊢
        simp only [List.nil_append] at h
        exact ih tbl p h

theorem nodup_lookup_of_mem (n : String) (i : Nat) :
    ∀ rows : List (String × Nat), (rows.map Prod.fst).Nodup →
      (n, i) ∈ rows → rows.lookup n = some i := by
  intro rows
  induction rows with
  | nil => intro _ h; simp at h
  | cons p t ih =>
      obtain ⟨pk, pv⟩ := p
      intro hnd hmem
      rw [List.map_cons, List.nodup_cons] at hnd
      rw [List.lookup_cons]
      rcases List.mem_cons.mp hmem with he | hmem2
      · have h1 : n = pk := congrArg Prod.fst he
        have h2 : i = pv := congrArg Prod.snd he
        rw [show (n == pk) = true from by simp [h1], h2]
      · by_cases hk : n = pk
        · subst hk
          exfalso
          apply hnd.1
          exact List.mem_map.mpr ⟨(n, i), hmem2, rfl⟩
        · rw [show (n == pk) = false from by simp [hk]]
          exact ih hnd.2 hmem2

theorem cupdate_consistent (kvs : List (String × Nat)) :
    ∀ (c : Cache) (tbl : LookupTable),
      (∀ p ∈ kvs, tbl.rows.lookup p.1 = some p.2) →
      Consistent c tbl → Consistent (cupdate c kvs) tbl := by
  induction kvs with
  | nil => intro c tbl _ hc; exact hc
  | cons p ps ih =>
      intro c tbl hb hc
      apply ih _ tbl (fun q hq => hb q (List.mem_cons_of_mem _ hq))
      intro n i h
      by_cases hk : n = p.1
      · subst hk
        rw [cassign_lookup_self] at h
        have := Option.some.inj h
        subst this
        exact hb p (List.mem_cons_self _ _)
      · rw [cassign_lookup_ne p.1 n p.2 hk] at h
        exact hc n i h

theorem ensure_names_table_eq (tbl : LookupTable) (cache : Cache)
    (names : List String) :
    (ensure_names tbl cache names).1 = tbl ∨
    (ensure_names tbl cache names).1 =
      (insertIgnoreReturning tbl
        (names.filter (fun n => (cache.lookup n).isNone))).1 := by
  rw [ensure_names]
  split
  · exact Or.inl rfl
  · rename_i hne
    right
    by_cases hdata : names.filter (fun n => (cache.lookup n).isNone) = []
    · exact absurd hdata hne
    · rw [insert_and_cache_eq tbl cache _ hdata]
      split <;> rfl

theorem ensure_names_mono (tbl : LookupTable) (cache : Cache)
    (names : List String) (n : String) (i : Nat)
    (h : tbl.rows.lookup n = some i) :
    (ensure_names tbl cache names).1.rows.lookup n = some i := by
  rcases ensure_names_table_eq tbl cache names with he | he
  · rw [he]; exact h
  · rw [he]; exact iir_mono _ tbl n i h

theorem ensure_names_WF (tbl : LookupTable) (cache : Cache)
    (names : List String) (h : lookupWF tbl) :
    lookupWF (ensure_names tbl cache names).1 := by
  rcases ensure_names_table_eq tbl cache names with he | he
  · rw [he]; exact h
  · rw [he]; exact iir_WF _ tbl h

theorem ensure_names_table_all (tbl : LookupTable) (cache : Cache)
    (names : List String) (n : String) (hcons : Consistent cache tbl)
    (hn : n ∈ names) :
    ((ensure_names tbl cache names).1.rows.lookup n).isSome := by
  rcases hc : cache.lookup n with _ | i
  · have hmem : n ∈ names.filter (fun m => (cache.lookup m).isNone) :=
      List.mem_filter.mpr ⟨hn, by rw [hc]; rfl⟩
    rw [ensure_names]
    split
    · rename_i hempty
      rw [hempty] at hmem
      simp at hmem
    · rename_i hne
      rw [show (insert_and_cache tbl cache
          (names.filter (fun m => (cache.lookup m).isNone))).1 =
          (insertIgnoreReturning tbl
            (names.filter (fun m => (cache.lookup m).isNone))).1 from by
        rw [insert_and_cache_eq tbl cache _ hne]
        split <;> rfl]
      exact iir_all _ tbl n hmem
  · rw [ensure_names_mono tbl cache names n i (hcons n i hc)]
    rfl

theorem ensure_names_consistent (tbl : LookupTable) (cache : Cache)
    (names : List String) (hcons : Consistent cache tbl) (hwf : lookupWF tbl) :
    Consistent (ensure_names tbl cache names).2 (ensure_names tbl cache names).1 := by
  rw [ensure_names]
  split
  · exact hcons
  · rename_i hne
    rw [insert_and_cache_eq tbl cache _ hne]
    have hconsIIR : Consistent cache
        (insertIgnoreReturning tbl
          (names.filter (fun n => (cache.lookup n).isNone))).1 :=
      fun n i h => iir_mono _ tbl n i (hcons n i h)
    have hcache1 : Consistent (cupdate cache
        (insertIgnoreReturning tbl
          (names.filter (fun n => (cache.lookup n).isNone))).2)
        (insertIgnoreReturning tbl
          (names.filter (fun n => (cache.lookup n).isNone))).1 :=
      cupdate_consistent _ cache _ (fun p hp => iir_ret_binding _ tbl p hp)
        hconsIIR
    split
    · intro n i h
      rw [show ((((insertIgnoreReturning tbl
          (names.filter (fun n => (cache.lookup n).isNone))).1,
          cupdate (cupdate cache (insertIgnoreReturning tbl
            (names.filter (fun n => (cache.lookup n).isNone))).2)
            (selectByNames (insertIgnoreReturning tbl
              (names.filter (fun n => (cache.lookup n).isNone))).1
              (names.filter (fun n => (cache.lookup n).isNone)))) :
          LookupTable × Cache)).2 =
        cupdate (cupdate cache (insertIgnoreReturning tbl
          (names.filter (fun n => (cache.lookup n).isNone))).2)
          (selectByNames (insertIgnoreReturning tbl
            (names.filter (fun n => (cache.lookup n).isNone))).1
            (names.filter (fun n => (cache.lookup n).isNone))) from rfl] at h
      refine cupdate_consistent _ _ _ ?_ hcache1 n i h
      intro p hp
      have hmem : p ∈ (insertIgnoreReturning tbl
          (names.filter (fun n => (cache.lookup n).isNone))).1.rows := by
        rw [selectByNames] at hp
        exact List.mem_of_mem_filter hp
      exact nodup_lookup_of_mem p.1 p.2 _ (iir_WF _ tbl hwf) hmem
    · exact hcache1

theorem ensure_fold_inv (nss : List (List String)) :
    ∀ (t : LookupTable) (c : Cache), Consistent c t → lookupWF t →
      (Consistent (nss.foldl (fun p ns => ensure_names p.1 p.2 ns) (t, c)).2
        (nss.foldl (fun p ns => ensure_names p.1 p.2 ns) (t, c)).1) ∧
      lookupWF (nss.foldl (fun p ns => ensure_names p.1 p.2 ns) (t, c)).1 ∧
      (∀ n i, t.rows.lookup n = some i →
        (nss.foldl (fun p ns => ensure_names p.1 p.2 ns) (t, c)).1.rows.lookup n =
          some i) ∧
      (∀ ns ∈ nss, ∀ n ∈ ns,
        ((nss.foldl (fun p ns => ensure_names p.1 p.2 ns)
          (t, c)).1.rows.lookup n).isSome) ∧
      (∀ ns ∈ nss, ns.Nodup → ∀ n ∈ ns,
        ((nss.foldl (fun p ns => ensure_names p.1 p.2 ns)
          (t, c)).2.lookup n).isSome) := by
  induction nss with
  | nil =>
      intro t c hc hwf
      exact ⟨hc, hwf, fun n i h => h, fun ns h => by simp at h,
        fun ns h => by simp at h⟩
  | cons ns nss ih =>
      intro t c hc hwf
      rw [List.foldl_cons]
      have hstep := ih (ensure_names t c ns).1 (ensure_names t c ns).2
        (ensure_names_consistent t c ns hc hwf) (ensure_names_WF t c ns hwf)
      refine ⟨hstep.1, hstep.2.1, ?_, ?_, ?_⟩
      · intro n i h
        exact hstep.2.2.1 n i (ensure_names_mono t c ns n i h)
      · intro ms hms n hn
        rcases List.mem_cons.mp hms with rfl | hmem
        · have := ensure_names_table_all t c ms n hc hn
          rcases hx : (ensure_names t c ms).1.rows.lookup n with _ | i
          · rw [hx] at this; cases this
          · rw [hstep.2.2.1 n i hx]; rfl
        · exact hstep.2.2.2.1 ms hmem n hn
      · intro ms hms hnd n hn
        rcases List.mem_cons.mp hms with rfl | hmem
        · have := ensure_names_all t c ms n hnd hn
          rcases hx : (ensure_names t c ms).2.lookup n with _ | i
          · rw [hx] at this; cases this
          · -- cache binding preserved through the remaining folds
            have hpres : ∀ (runs : List (List String)) (t2 : LookupTable)
                (c2 : Cache) (m : String) (j : Nat), c2.lookup m = some j →
                ((runs.foldl (fun p ns2 => ensure_names p.1 p.2 ns2)
                  (t2, c2)).2.lookup m = some j) := by
              intro runs
              induction runs with
              | nil => intro t2 c2 m j h; exact h
              | cons r rs ih2 =>
                  intro t2 c2 m j h
                  rw [List.foldl_cons]
                  exact ih2 (ensure_names t2 c2 r).1 (ensure_names t2 c2 r).2
                    m j (ensure_names_preserve t2 c2 r m j h)
            rw [hpres nss _ _ n i hx]
            rfl
        · exact hstep.2.2.2.2 ms hmem hnd n hn

theorem ensure_fold_preserve (nss : List (List String)) :
    ∀ (t : LookupTable) (c : Cache) (n : String) (i : Nat),
      c.lookup n = some i →
      (nss.foldl (fun p ns => ensure_names p.1 p.2 ns) (t, c)).2.lookup n =
        some i := by
  induction nss with
  | nil => intro t c n i h; exact h
  | cons ns nss ih =>
      intro t c n i h
      rw [List.foldl_cons]
      exact ih (ensure_names t c ns).1 (ensure_names t c ns).2 n i
        (ensure_names_preserve t c ns n i h)

theorem ensure_names_noop (tbl : LookupTable) (cache : Cache)
    (names : List String) (h : ∀ n ∈ names, (cache.lookup n).isSome) :
    ensure_names tbl cache names = (tbl, cache) := by
  rw [ensure_names]
  have : names.filter (fun n => (cache.lookup n).isNone) = [] := by
    rw [List.filter_eq_nil_iff]
    intro n hn
    have := h n hn
    rcases hx : cache.lookup n with _ | i
    · rw [hx] at this; cases this
    · simp
  rw [if_pos this]

theorem ensure_fold_noop (nss : List (List String)) (t : LookupTable) (c : Cache)
    (h : ∀ ns ∈ nss, ∀ n ∈ ns, (c.lookup n).isSome) :
    nss.foldl (fun p ns => ensure_names p.1 p.2 ns) (t, c) = (t, c) := by
  induction nss with
  | nil => rfl
  | cons ns nss ih =>
      rw [List.foldl_cons,
        ensure_names_noop t c ns (h ns (List.mem_cons_self _ _))]
      exact ih (fun ms hms n hn => h ms (List.mem_cons_of_mem _ hms) n hn)

theorem phase1_fold_all (now : Nat) (batches : List (List MangaData)) :
    ∀ st : RunState,
      ((batches.foldl (phase1_batch now) st).store.authors,
        (batches.foldl (phase1_batch now) st).authors_cache) =
        (batches.map (batchNames false (fun m => m.authors))).foldl
          (fun p ns => ensure_names p.1 p.2 ns)
          (st.store.authors, st.authors_cache) ∧
      ((batches.foldl (phase1_batch now) st).store.artists,
        (batches.foldl (phase1_batch now) st).artists_cache) =
        (batches.map (batchNames false (fun m => m.artists))).foldl
          (fun p ns => ensure_names p.1 p.2 ns)
          (st.store.artists, st.artists_cache) ∧
      ((batches.foldl (phase1_batch now) st).store.genres,
        (batches.foldl (phase1_batch now) st).genres_cache) =
        (batches.map (batchNames false (fun m => m.genres))).foldl
          (fun p ns => ensure_names p.1 p.2 ns)
          (st.store.genres, st.genres_cache) ∧
      ((batches.foldl (phase1_batch now) st).store.tags,
        (batches.foldl (phase1_batch now) st).tags_cache) =
        (batches.map (batchNames true (fun m => m.tags))).foldl
          (fun p ns => ensure_names p.1 p.2 ns)
          (st.store.tags, st.tags_cache) ∧
      ((batches.foldl (phase1_batch now) st).store.publishers,
        (batches.foldl (phase1_batch now) st).publishers_cache) =
        (batches.map (batchNames true (fun m => m.publishers))).foldl
          (fun p ns => ensure_names p.1 p.2 ns)
          (st.store.publishers, st.publishers_cache) ∧
      (batches.foldl (phase1_batch now) st).store.manga =
        (batches.flatten.map rowOf).foldl (manga_upsert now) st.store.manga ∧
      (batches.foldl (phase1_batch now) st).store.external_sources =
        st.store.external_sources ∧
      (batches.foldl (phase1_batch now) st).external_cache =
        st.external_cache ∧
      (batches.foldl (phase1_batch now) st).store.manga_authors =
        st.store.manga_authors ∧
      (batches.foldl (phase1_batch now) st).store.manga_artists =
        st.store.manga_artists ∧
      (batches.foldl (phase1_batch now) st).store.manga_genres =
        st.store.manga_genres ∧
      (batches.foldl (phase1_batch now) st).store.manga_tags =
        st.store.manga_tags ∧
      (batches.foldl (phase1_batch now) st).store.manga_publishers =
        st.store.manga_publishers ∧
      (batches.foldl (phase1_batch now) st).store.manga_secondary_titles =
        st.store.manga_secondary_titles ∧
      (batches.foldl (phase1_batch now) st).store.manga_covers =
        st.store.manga_covers ∧
      (batches.foldl (phase1_batch now) st).store.manga_links =
        st.store.manga_links ∧
      (batches.foldl (phase1_batch now) st).store.manga_external_sources =
        st.store.manga_external_sources := by
  induction batches with
  | nil =>
      intro st
      exact ⟨rfl, rfl, rfl, rfl, rfl, rfl, rfl, rfl, rfl, rfl, rfl, rfl, rfl,
        rfl, rfl, rfl, rfl⟩
  | cons b bs ih =>
      intro st
      rw [List.foldl_cons, List.map_cons, List.foldl_cons, List.map_cons,
        List.foldl_cons, List.map_cons, List.foldl_cons, List.map_cons,
        List.foldl_cons, List.map_cons, List.foldl_cons, List.flatten_cons,
        List.map_append, List.foldl_append]
      exact (ih (phase1_batch now st b))

theorem phase2_fold_all (batches : List (List MangaData)) :
    ∀ st : RunState,
      (batches.foldl phase2_batch st).manga_ids = st.manga_ids ∧
      (batches.foldl phase2_batch st).authors_cache = st.authors_cache ∧
      (batches.foldl phase2_batch st).artists_cache = st.artists_cache ∧
      (batches.foldl phase2_batch st).genres_cache = st.genres_cache ∧
      (batches.foldl phase2_batch st).tags_cache = st.tags_cache ∧
      (batches.foldl phase2_batch st).publishers_cache = st.publishers_cache ∧
      (batches.foldl phase2_batch st).external_cache = st.external_cache ∧
      (batches.foldl phase2_batch st).store.manga = st.store.manga ∧
      (batches.foldl phase2_batch st).store.authors = st.store.authors ∧
      (batches.foldl phase2_batch st).store.artists = st.store.artists ∧
      (batches.foldl phase2_batch st).store.genres = st.store.genres ∧
      (batches.foldl phase2_batch st).store.tags = st.store.tags ∧
      (batches.foldl phase2_batch st).store.publishers = st.store.publishers ∧
      (batches.foldl phase2_batch st).store.external_sources =
        st.store.external_sources ∧
      (batches.foldl phase2_batch st).store.manga_secondary_titles =
        saddAll st.store.manga_secondary_titles
          (batches.flatMap secondaryTitleRows) ∧
      (batches.foldl phase2_batch st).store.manga_covers =
        saddAll st.store.manga_covers (batches.flatMap coverRows) ∧
      (batches.foldl phase2_batch st).store.manga_authors =
        saddAll st.store.manga_authors
          (batches.flatMap (joinRows st.authors_cache (fun m => m.authors))) ∧
      (batches.foldl phase2_batch st).store.manga_artists =
        saddAll st.store.manga_artists
          (batches.flatMap (joinRows st.artists_cache (fun m => m.artists))) ∧
      (batches.foldl phase2_batch st).store.manga_genres =
        saddAll st.store.manga_genres
          (batches.flatMap (joinRows st.genres_cache (fun m => m.genres))) ∧
      (batches.foldl phase2_batch st).store.manga_tags =
        saddAll st.store.manga_tags
          (batches.flatMap (joinRows st.tags_cache (fun m => m.tags))) ∧
      (batches.foldl phase2_batch st).store.manga_publishers =
        saddAll st.store.manga_publishers
          (batches.flatMap (joinRows st.publishers_cache
            (fun m => m.publishers))) ∧
      (batches.foldl phase2_batch st).store.manga_links =
        saddAll st.store.manga_links (batches.flatMap linkRows) ∧
      (batches.foldl phase2_batch st).store.manga_relationships =
        saddAll st.store.manga_relationships
          (batches.flatMap (relationshipRows st.manga_ids)) ∧
      (batches.foldl phase2_batch st).store.manga_external_sources =
        (batches.flatMap (externalRows st.external_cache)).foldl extUpsert
          st.store.manga_external_sources := by
  induction batches with
  | nil =>
      intro st
      exact ⟨rfl, rfl, rfl, rfl, rfl, rfl, rfl, rfl, rfl, rfl, rfl, rfl, rfl,
        rfl, rfl, rfl, rfl, rfl, rfl, rfl, rfl, rfl, rfl, rfl⟩
  | cons b bs ih =>
      intro st
      have h := ih (phase2_batch st b)
      rw [List.foldl_cons]
      refine ⟨h.1, h.2.1, h.2.2.1, h.2.2.2.1, h.2.2.2.2.1, h.2.2.2.2.2.1,
        h.2.2.2.2.2.2.1, h.2.2.2.2.2.2.2.1, h.2.2.2.2.2.2.2.2.1,
        h.2.2.2.2.2.2.2.2.2.1, h.2.2.2.2.2.2.2.2.2.2.1,
        h.2.2.2.2.2.2.2.2.2.2.2.1, h.2.2.2.2.2.2.2.2.2.2.2.2.1,
        h.2.2.2.2.2.2.2.2.2.2.2.2.2.1, ?_, ?_, ?_, ?_, ?_, ?_, ?_, ?_, ?_, ?_⟩
      · rw [h.2.2.2.2.2.2.2.2.2.2.2.2.2.2.1]
        rw [show (phase2_batch st b).store.manga_secondary_titles =
          saddAll st.store.manga_secondary_titles (secondaryTitleRows b) from rfl]
        rw [saddAll_append, List.flatMap_cons]
      · rw [h.2.2.2.2.2.2.2.2.2.2.2.2.2.2.2.1]
        rw [show (phase2_batch st b).store.manga_covers =
          saddAll st.store.manga_covers (coverRows b) from rfl]
        rw [saddAll_append, List.flatMap_cons]
      · rw [h.2.2.2.2.2.2.2.2.2.2.2.2.2.2.2.2.1]
        rw [show (phase2_batch st b).authors_cache = st.authors_cache from rfl]
        rw [show (phase2_batch st b).store.manga_authors =
          saddAll st.store.manga_authors (joinRows st.authors_cache (fun m => m.authors) b) from rfl]
        rw [saddAll_append, List.flatMap_cons]
      · rw [h.2.2.2.2.2.2.2.2.2.2.2.2.2.2.2.2.2.1]
        rw [show (phase2_batch st b).artists_cache = st.artists_cache from rfl]
        rw [show (phase2_batch st b).store.manga_artists =
          saddAll st.store.manga_artists (joinRows st.artists_cache (fun m => m.artists) b) from rfl]
        rw [saddAll_append, List.flatMap_cons]
      · rw [h.2.2.2.2.2.2.2.2.2.2.2.2.2.2.2.2.2.2.1]
        rw [show (phase2_batch st b).genres_cache = st.genres_cache from rfl]
        rw [show (phase2_batch st b).store.manga_genres =
          saddAll st.store.manga_genres (joinRows st.genres_cache (fun m => m.genres) b) from rfl]
        rw [saddAll_append, List.flatMap_cons]
      · rw [h.2.2.2.2.2.2.2.2.2.2.2.2.2.2.2.2.2.2.2.1]
        rw [show (phase2_batch st b).tags_cache = st.tags_cache from rfl]
        rw [show (phase2_batch st b).store.manga_tags =
          saddAll st.store.manga_tags (joinRows st.tags_cache (fun m => m.tags) b) from rfl]
        rw [saddAll_append, List.flatMap_cons]
      · rw [h.2.2.2.2.2.2.2.2.2.2.2.2.2.2.2.2.2.2.2.2.1]
        rw [show (phase2_batch st b).publishers_cache = st.publishers_cache from rfl]
        rw [show (phase2_batch st b).store.manga_publishers =
          saddAll st.store.manga_publishers (joinRows st.publishers_cache (fun m => m.publishers) b) from rfl]
        rw [saddAll_append, List.flatMap_cons]
      · rw [h.2.2.2.2.2.2.2.2.2.2.2.2.2.2.2.2.2.2.2.2.2.1]
        rw [show (phase2_batch st b).store.manga_links =
          saddAll st.store.manga_links (linkRows b) from rfl]
        rw [saddAll_append, List.flatMap_cons]
      · rw [h.2.2.2.2.2.2.2.2.2.2.2.2.2.2.2.2.2.2.2.2.2.2.1]
        rw [show (phase2_batch st b).manga_ids = st.manga_ids from rfl]
        rw [show (phase2_batch st b).store.manga_relationships =
          saddAll st.store.manga_relationships (relationshipRows st.manga_ids b) from rfl]
        rw [saddAll_append, List.flatMap_cons]
      · rw [h.2.2.2.2.2.2.2.2.2.2.2.2.2.2.2.2.2.2.2.2.2.2.2]
        rw [show (phase2_batch st b).external_cache = st.external_cache from rfl]
        rw [show (phase2_batch st b).store.manga_external_sources =
          (externalRows st.external_cache b).foldl extUpsert
            st.store.manga_external_sources from rfl]
        rw [List.flatMap_cons, List.foldl_append]

theorem secondaryTitleRows_flatten (batches : List (List MangaData)) :
    batches.flatMap secondaryTitleRows = secondaryTitleRows batches.flatten :=
  flatMap_flatten _ batches

theorem coverRows_flatten (batches : List (List MangaData)) :
    batches.flatMap coverRows = coverRows batches.flatten :=
  flatMap_flatten _ batches

theorem linkRows_flatten (batches : List (List MangaData)) :
    batches.flatMap linkRows = linkRows batches.flatten :=
  flatMap_flatten _ batches

theorem joinRows_flatten (cache : Cache) (f : MangaData → PyVal)
    (batches : List (List MangaData)) :
    batches.flatMap (joinRows cache f) = joinRows cache f batches.flatten :=
  flatMap_flatten _ batches

theorem externalRows_flatten (cache : Cache) (batches : List (List MangaData)) :
    batches.flatMap (externalRows cache) = externalRows cache batches.flatten :=
  flatMap_flatten _ batches

theorem addName_nodup (l : List String) (s : String) (h : l.Nodup) :
    (addName l s).Nodup := by
  rw [addName]
  split
  · exact h
  · rename_i hni
    rw [List.nodup_append]
    exact ⟨h, List.nodup_singleton s, by
      intro x hx hx2
      rw [List.mem_singleton] at hx2
      subst hx2
      exact hni hx⟩

theorem foldl_addName_nodup (ns : List String) :
    ∀ acc : List String, acc.Nodup → (ns.foldl addName acc).Nodup := by
  induction ns with
  | nil => intro acc h; exact h
  | cons n ns ih => intro acc h; exact ih _ (addName_nodup acc n h)

theorem batchNames_nodup (g : Bool) (f : MangaData → PyVal)
    (batch : List MangaData) : (batchNames g f batch).Nodup := by
  rw [batchNames]
  have hstep : ∀ (b : List MangaData) (acc : List String), acc.Nodup →
      (b.foldl (fun acc m =>
        if g && !pyTruthy (f m) then acc
        else (extract_names (f m)).names.foldl addName acc) acc).Nodup := by
    intro b
    induction b with
    | nil => intro acc h; exact h
    | cons m ms ih =>
        intro acc h
        rw [List.foldl_cons]
        apply ih
        split
        · exact h
        · exact foldl_addName_nodup _ acc h
  exact hstep batch [] (List.nodup_nil)

theorem mem_addName_self (l : List String) (s : String) : s ∈ addName l s := by
  rw [addName]
  split
  · assumption
  · simp

theorem mem_addName_mono (l : List String) (s x : String) (h : x ∈ l) :
    x ∈ addName l s := by
  rw [addName]
  split
  · exact h
  · exact List.mem_append_left _ h

theorem mem_foldl_addName_mono (ns : List String) :
    ∀ (acc : List String) (x : String), x ∈ acc → x ∈ ns.foldl addName acc := by
  induction ns with
  | nil => intro acc x h; exact h
  | cons n ns ih => intro acc x h; exact ih _ x (mem_addName_mono acc n x h)

theorem mem_foldl_addName (ns : List String) :
    ∀ (acc : List String) (x : String), x ∈ ns → x ∈ ns.foldl addName acc := by
  induction ns with
  | nil => intro acc x h; simp at h
  | cons n ns ih =>
      intro acc x h
      rcases List.mem_cons.mp h with rfl | hmem
      · exact mem_foldl_addName_mono ns _ x (mem_addName_self acc x)
      · exact ih _ x hmem

theorem extract_names_falsy (v : PyVal) (h : pyTruthy v = false) :
    (extract_names v).names = [] := by
  rw [extract_names.eq_def, if_pos (show ¬ pyTruthy v = true from by
    rw [h]; exact Bool.false_ne_true)]

theorem mem_batchNames (g : Bool) (f : MangaData → PyVal)
    (batch : List MangaData) (m : MangaData) (n : String)
    (hm : m ∈ batch) (hn : n ∈ (extract_names (f m)).names) :
    n ∈ batchNames g f batch := by
  rw [batchNames]
  have hstep : ∀ (b : List MangaData) (acc : List String), m ∈ b →
      n ∈ (b.foldl (fun acc m =>
        if g && !pyTruthy (f m) then acc
        else (extract_names (f m)).names.foldl addName acc) acc) := by
    intro b
    have hmono : ∀ (b2 : List MangaData) (acc : List String), n ∈ acc →
        n ∈ (b2.foldl (fun acc m =>
          if g && !pyTruthy (f m) then acc
          else (extract_names (f m)).names.foldl addName acc) acc) := by
      intro b2
      induction b2 with
      | nil => intro acc h; exact h
      | cons m2 ms2 ih2 =>
          intro acc h
          rw [List.foldl_cons]
          apply ih2
          split
          · exact h
          · exact mem_foldl_addName_mono _ acc n h
    induction b with
    | nil => intro acc h; simp at h
    | cons m2 ms2 ih =>
        intro acc hmem
        rw [List.foldl_cons]
        rcases List.mem_cons.mp hmem with rfl | hmem2
        · apply hmono
          split
          · rename_i hguard
            exfalso
            have hfalsy : pyTruthy (f m) = false := by
              rcases Bool.and_eq_true .. |>.mp hguard with ⟨_, hb⟩
              simpa using hb
            rw [extract_names_falsy (f m) hfalsy] at hn
            simp at hn
          · exact mem_foldl_addName _ acc n hn
        · exact ih _ hmem2
  exact hstep batch [] hm

theorem filterMap_congr_mem {α β : Type} (f g : α → Option β) :
    ∀ l : List α, (∀ a ∈ l, f a = g a) → l.filterMap f = l.filterMap g := by
  intro l
  induction l with
  | nil => intro _; rfl
  | cons a as ih =>
      intro h
      rw [List.filterMap_cons, List.filterMap_cons,
        h a (List.mem_cons_self _ _), ih (fun x hx => h x (List.mem_cons_of_mem _ hx))]

theorem joinRows_congr (cA cB : Cache) (f : MangaData → PyVal) :
    ∀ batch : List MangaData,
      (∀ m ∈ batch, ∀ n ∈ (extract_names (f m)).names,
        cA.lookup n = cB.lookup n) →
      joinRows cA f batch = joinRows cB f batch := by
  intro batch
  induction batch with
  | nil => intro _; rfl
  | cons m ms ih =>
      intro h
      rw [joinRows, joinRows, List.flatMap_cons, List.flatMap_cons]
      rw [show (ms.flatMap (fun m => (extract_names (f m)).names.filterMap
          (fun n => (cA.lookup n).map (fun i => (m.id, i))))) =
        joinRows cA f ms from rfl]
      rw [show (ms.flatMap (fun m => (extract_names (f m)).names.filterMap
          (fun n => (cB.lookup n).map (fun i => (m.id, i))))) =
        joinRows cB f ms from rfl]
      rw [ih (fun x hx n hn => h x (List.mem_cons_of_mem _ hx) n hn)]
      rw [filterMap_congr_mem _ _ _ (fun n hn => by
        rw [h m (List.mem_cons_self _ _) n hn])]

theorem find?_mapReplace_self (kv : (PyVal × Nat) × ExtData) :
    ∀ t : List ((PyVal × Nat) × ExtData),
      (t.find? (fun p => decide (p.1 = kv.1))).isSome →
      (t.map (fun p => if p.1 = kv.1 then kv else p)).find?
        (fun p => decide (p.1 = kv.1)) = some kv := by
  intro t
  induction t with
  | nil => intro h; simp at h
  | cons p ps ih =>
      intro h
      rw [List.map_cons]
      by_cases hk : p.1 = kv.1
      · rw [if_pos hk, List.find?_cons_of_pos _ (by simp)]
      · rw [if_neg hk, List.find?_cons_of_neg _ (by simp [hk])]
        apply ih
        rw [List.find?_cons_of_neg _ (by simp [hk])] at h
        exact h

theorem find?_mapReplace_ne (kv : (PyVal × Nat) × ExtData) (k : PyVal × Nat)
    (h : k ≠ kv.1) :
    ∀ t : List ((PyVal × Nat) × ExtData),
      (t.map (fun p => if p.1 = kv.1 then kv else p)).find?
        (fun p => decide (p.1 = k)) = t.find? (fun p => decide (p.1 = k)) := by
  intro t
  induction t with
  | nil => rfl
  | cons p ps ih =>
      rw [List.map_cons]
      by_cases hk : p.1 = kv.1
      · rw [if_pos hk, List.find?_cons_of_neg _ (by simp [Ne.symm h]),
          List.find?_cons_of_neg _ (by rw [hk]; simp [Ne.symm h])]
        exact ih
      · rw [if_neg hk]
        by_cases hp : p.1 = k
        · rw [List.find?_cons_of_pos _ (by simp [hp]),
            List.find?_cons_of_pos _ (by simp [hp])]
        · rw [List.find?_cons_of_neg _ (by simp [hp]),
            List.find?_cons_of_neg _ (by simp [hp])]
          exact ih

theorem klookup_extUpsert_self (t : List ((PyVal × Nat) × ExtData))
    (kv : (PyVal × Nat) × ExtData) : klookup (extUpsert t kv) kv.1 = some kv.2 := by
  rw [extUpsert]
  split
  · rename_i hsome
    rw [klookup, find?_mapReplace_self kv t hsome]
    rfl
  · rename_i hnone
    rw [klookup, List.find?_append]
    rw [show t.find? (fun p => decide (p.1 = kv.1)) = Option.none from by
      rcases hx : t.find? (fun p => decide (p.1 = kv.1)) with _ | v
      · exact hx
      · rw [hx] at hnone; simp at hnone]
    rw [Option.none_or, List.find?_cons_of_pos _ (by simp)]
    rfl

theorem klookup_extUpsert_ne (t : List ((PyVal × Nat) × ExtData))
    (kv : (PyVal × Nat) × ExtData) (k : PyVal × Nat) (h : k ≠ kv.1) :
    klookup (extUpsert t kv) k = klookup t k := by
  rw [extUpsert]
  split
  · rw [klookup, klookup, find?_mapReplace_ne kv k h t]
  · rw [klookup, klookup, List.find?_append]
    rw [show ([kv].find? (fun p => decide (p.1 = k))) = Option.none from by
      rw [List.find?_cons_of_neg _ (by simp [Ne.symm h])]
      rfl]
    rw [Option.or_none]

theorem extUpsert_keys_present (t : List ((PyVal × Nat) × ExtData))
    (kv : (PyVal × Nat) × ExtData) (h : (klookup t kv.1).isSome) :
    (extUpsert t kv).map Prod.fst = t.map Prod.fst := by
  rw [extUpsert]
  split
  · rw [List.map_map]
    apply List.map_congr_left
    intro p _
    by_cases hk : p.1 = kv.1
    · simp [hk]
    · simp [hk]
  · rename_i hnone
    exfalso
    rw [klookup] at h
    rcases hx : t.find? (fun p => decide (p.1 = kv.1)) with _ | v
    · rw [hx] at h; cases h
    · rw [hx] at hnone; simp at hnone

theorem klookup_isSome_mono (t : List ((PyVal × Nat) × ExtData))
    (kv : (PyVal × Nat) × ExtData) (k : PyVal × Nat)
    (h : (klookup t k).isSome) : (klookup (extUpsert t kv) k).isSome := by
  by_cases hk : k = kv.1
  · subst hk
    rw [klookup_extUpsert_self]
    rfl
  · rw [klookup_extUpsert_ne t kv k hk]
    exact h

theorem ext_fold_keys (rows : List ((PyVal × Nat) × ExtData)) :
    ∀ t : List ((PyVal × Nat) × ExtData),
      (∀ r ∈ rows, (klookup t r.1).isSome) →
      (rows.foldl extUpsert t).map Prod.fst = t.map Prod.fst := by
  induction rows with
  | nil => intro t _; rfl
  | cons r rs ih =>
      intro t h
      rw [List.foldl_cons]
      rw [ih _ (fun q hq => klookup_isSome_mono t r q.1
        (h q (List.mem_cons_of_mem _ hq)))]
      exact extUpsert_keys_present t r (h r (List.mem_cons_self _ _))

theorem ext_fold_lookup (rows : List ((PyVal × Nat) × ExtData)) :
    ∀ (t : List ((PyVal × Nat) × ExtData)) (k : PyVal × Nat),
      klookup (rows.foldl extUpsert t) k =
        (match (rows.filter (fun p => decide (p.1 = k))).getLast? with
         | some p => some p.2
         | Option.none => klookup t k) := by
  induction rows with
  | nil => intro t k; rfl
  | cons r rs ih =>
      intro t k
      rw [List.foldl_cons, ih, List.filter_cons]
      by_cases hk : r.1 = k
      · subst hk
        rw [if_pos (by simp), List.getLast?_cons]
        rcases hx : (rs.filter (fun p => decide (p.1 = r.1))).getLast? with _ | p
        · rw [hx]
          show klookup (extUpsert t r) r.1 = some r.2
          exact klookup_extUpsert_self t r
        · rw [hx]
          rfl
      · rw [if_neg (by simp [hk])]
        rcases hx : (rs.filter (fun p => decide (p.1 = k))).getLast? with _ | p
        · rw [hx]
          show klookup (extUpsert t r) k = klookup t k
          exact klookup_extUpsert_ne t r k (Ne.symm hk)
        · rw [hx]

theorem sadd_absorb {α : Type} [DecidableEq α] (rows : List α) :
    ∀ tbl : List α, (∀ x ∈ rows, x ∈ tbl) → saddAll tbl rows = tbl := by
  induction rows with
  | nil => intro tbl _; rfl
  | cons r rs ih =>
      intro tbl h
      rw [show saddAll tbl (r :: rs) =
        saddAll (if r ∈ tbl then tbl else tbl ++ [r]) rs from rfl]
      rw [if_pos (h r (List.mem_cons_self _ _))]
      exact ih tbl (fun x hx => h x (List.mem_cons_of_mem _ hx))

theorem ext_mem_last (R : List ((PyVal × Nat) × ExtData))
    (r : (PyVal × Nat) × ExtData) (h : r ∈ R) :
    ∃ p, (R.filter (fun p => decide (p.1 = r.1))).getLast? = some p := by
  have hmem : r ∈ R.filter (fun p => decide (p.1 = r.1)) :=
    List.mem_filter.mpr ⟨h, by simp⟩
  cases hx : R.filter (fun p => decide (p.1 = r.1)) with
  | nil => rw [hx] at hmem; simp at hmem
  | cons a as => exact ⟨(a :: as).getLast (by simp), List.getLast?_eq_getLast _ _⟩

theorem ext_fold_mem_isSome (R : List ((PyVal × Nat) × ExtData))
    (t : List ((PyVal × Nat) × ExtData)) (r : (PyVal × Nat) × ExtData)
    (h : r ∈ R) : (klookup (R.foldl extUpsert t) r.1).isSome := by
  obtain ⟨p, hp⟩ := ext_mem_last R r h
  rw [ext_fold_lookup R t r.1, hp]
  rfl

theorem lookup_pipeline (g : Bool) (f : MangaData → PyVal)
    (batches : List (List MangaData)) (t : LookupTable) (hwf : lookupWF t) :
    ((batches.map (batchNames g f)).foldl
        (fun p ns => ensure_names p.1 p.2 ns)
        (((batches.map (batchNames g f)).foldl
            (fun p ns => ensure_names p.1 p.2 ns) (t, t.rows)).1,
         ((batches.map (batchNames g f)).foldl
            (fun p ns => ensure_names p.1 p.2 ns) (t, t.rows)).1.rows) =
      (((batches.map (batchNames g f)).foldl
          (fun p ns => ensure_names p.1 p.2 ns) (t, t.rows)).1,
       ((batches.map (batchNames g f)).foldl
          (fun p ns => ensure_names p.1 p.2 ns) (t, t.rows)).1.rows)) ∧
    (∀ b ∈ batches, ∀ m ∈ b, ∀ n ∈ (extract_names (f m)).names,
      ((batches.map (batchNames g f)).foldl
          (fun p ns => ensure_names p.1 p.2 ns) (t, t.rows)).2.lookup n =
        ((batches.map (batchNames g f)).foldl
          (fun p ns => ensure_names p.1 p.2 ns) (t, t.rows)).1.rows.lookup n) := by
  have hcons : Consistent t.rows t := fun n i h => h
  have inv := ensure_fold_inv (batches.map (batchNames g f)) t t.rows hcons hwf
  constructor
  · apply ensure_fold_noop
    intro ns hns n hn
    exact inv.2.2.2.1 ns hns n hn
  · intro b hb m hm n hn
    have hns : batchNames g f b ∈ batches.map (batchNames g f) :=
      List.mem_map.mpr ⟨b, hb, rfl⟩
    have hnb : n ∈ batchNames g f b := mem_batchNames g f b m n hm hn
    have hsome := inv.2.2.2.2 (batchNames g f b) hns (batchNames_nodup g f b) n hnb
    rcases hx : ((batches.map (batchNames g f)).foldl
        (fun p ns => ensure_names p.1 p.2 ns) (t, t.rows)).2.lookup n with _ | i
    · rw [hx] at hsome; cases hsome
    · rw [inv.1 n i hx]

theorem mem_flatten_exists {α : Type} {x : α} {ls : List (List α)}
    (h : x ∈ ls.flatten) : ∃ l ∈ ls, x ∈ l := by
  rcases List.mem_flatten.mp h with ⟨l, hl, hx⟩
  exact ⟨l, hl, hx⟩

theorem join_pipeline (g : Bool) (f : MangaData → PyVal)
    (batches : List (List MangaData)) (t : LookupTable) (hwf : lookupWF t) :
    ((batches.map (batchNames g f)).foldl
        (fun p ns => ensure_names p.1 p.2 ns)
        (((batches.map (batchNames g f)).foldl
            (fun p ns => ensure_names p.1 p.2 ns) (t, t.rows)).1,
         ((batches.map (batchNames g f)).foldl
            (fun p ns => ensure_names p.1 p.2 ns) (t, t.rows)).1.rows) =
      (((batches.map (batchNames g f)).foldl
          (fun p ns => ensure_names p.1 p.2 ns) (t, t.rows)).1,
       ((batches.map (batchNames g f)).foldl
          (fun p ns => ensure_names p.1 p.2 ns) (t, t.rows)).1.rows)) ∧
    joinRows (((batches.map (batchNames g f)).foldl
        (fun p ns => ensure_names p.1 p.2 ns) (t, t.rows)).1.rows) f
        batches.flatten =
      joinRows (((batches.map (batchNames g f)).foldl
        (fun p ns => ensure_names p.1 p.2 ns) (t, t.rows)).2) f
        batches.flatten ∧
    (∀ MX : List (PyVal × Nat),
      saddAll (saddAll MX (joinRows
          (((batches.map (batchNames g f)).foldl
            (fun p ns => ensure_names p.1 p.2 ns) (t, t.rows)).2) f
          batches.flatten))
        (joinRows (((batches.map (batchNames g f)).foldl
            (fun p ns => ensure_names p.1 p.2 ns) (t, t.rows)).1.rows) f
          batches.flatten) =
      saddAll MX (joinRows
          (((batches.map (batchNames g f)).foldl
            (fun p ns => ensure_names p.1 p.2 ns) (t, t.rows)).2) f
          batches.flatten)) := by
  have hp := lookup_pipeline g f batches t hwf
  have hcongr : joinRows (((batches.map (batchNames g f)).foldl
      (fun p ns => ensure_names p.1 p.2 ns) (t, t.rows)).1.rows) f
      batches.flatten =
    joinRows (((batches.map (batchNames g f)).foldl
      (fun p ns => ensure_names p.1 p.2 ns) (t, t.rows)).2) f
      batches.flatten := by
    apply joinRows_congr
    intro m hm n hn
    obtain ⟨b, hb, hmb⟩ := mem_flatten_exists hm
    exact (hp.2 b hb m hmb n hn).symm
  refine ⟨hp.1, hcongr, ?_⟩
  intro MX
  rw [← hcongr] at *
  rw [hcongr]
  apply sadd_absorb
  intro x hx
  rw [mem_saddAll]
  exact Or.inr hx

theorem forall2_eq_of {α : Type} :
    ∀ {l l' : List α}, List.Forall₂ (fun a b => a = b) l l' → l = l' := by
  intro l l' h
  induction h with
  | nil => rfl
  | cons hab _ ih => rw [hab, ih]

theorem forall2_find_isSome (k : PyVal × Nat)
    (t t' : List ((PyVal × Nat) × ExtData))
    (h : List.Forall₂ (fun p q => p.1 = q.1) t t') :
    (t.find? (fun p => decide (p.1 = k))).isSome =
      (t'.find? (fun p => decide (p.1 = k))).isSome := by
  induction h with
  | nil => rfl
  | cons hpq _ ih =>
      rename_i p q tl tl' _
      by_cases hk : p.1 = k
      · rw [List.find?_cons_of_pos _ (by simp [hk]),
          List.find?_cons_of_pos _ (by simp [← hpq, hk])]
        rfl
      · rw [List.find?_cons_of_neg _ (by simp [hk]),
          List.find?_cons_of_neg _ (by simp [← hpq, hk])]
        exact ih

theorem forall2_map_both {α : Type} (S T : α → α → Prop) (f g : α → α)
    (hfg : ∀ a b, S a b → T (f a) (g b)) :
    ∀ {l l' : List α}, List.Forall₂ S l l' →
      List.Forall₂ T (l.map f) (l'.map g) := by
  intro l l' h
  induction h with
  | nil => exact List.Forall₂.nil
  | cons hab _ ih => exact List.Forall₂.cons (hfg _ _ hab) ih

theorem forall2_append_one {α : Type} (T : α → α → Prop) (a b : α) (hab : T a b) :
    ∀ {l l' : List α}, List.Forall₂ T l l' →
      List.Forall₂ T (l ++ [a]) (l' ++ [b]) := by
  intro l l' h
  induction h with
  | nil => exact List.Forall₂.cons hab List.Forall₂.nil
  | cons h1 _ ih => exact List.Forall₂.cons h1 ih

theorem forall2_imp_mem {α : Type} (S T : α → α → Prop) :
    ∀ {l l' : List α}, List.Forall₂ S l l' →
      (∀ a b, a ∈ l → S a b → T a b) → List.Forall₂ T l l' := by
  intro l l' h
  induction h with
  | nil => intro _; exact List.Forall₂.nil
  | cons hab _ ih =>
      intro himp
      exact List.Forall₂.cons (himp _ _ (List.mem_cons_self _ _) hab)
        (ih (fun a b ha hs => himp a b (List.mem_cons_of_mem _ ha) hs))

theorem forall2_map_left {α : Type} (T : α → α → Prop) (f : α → α) :
    ∀ l : List α, (∀ a ∈ l, T (f a) a) → List.Forall₂ T (l.map f) l := by
  intro l
  induction l with
  | nil => intro _; exact List.Forall₂.nil
  | cons a as ih =>
      intro h
      exact List.Forall₂.cons (h a (List.mem_cons_self _ _))
        (ih (fun x hx => h x (List.mem_cons_of_mem _ hx)))

theorem ext_fold_congr (R : List ((PyVal × Nat) × ExtData)) :
    ∀ t t' : List ((PyVal × Nat) × ExtData),
      List.Forall₂ (ERel (R.map Prod.fst)) t t' →
      R.foldl extUpsert t = R.foldl extUpsert t' := by
  induction R with
  | nil =>
      intro t t' h
      exact forall2_eq_of (h.imp (fun a b hpq => hpq.2 (by simp)))
  | cons r rs ih =>
      intro t t' h
      rw [List.foldl_cons, List.foldl_cons]
      apply ih
      have hkeys : List.Forall₂
          (fun p q : (PyVal × Nat) × ExtData => p.1 = q.1) t t' :=
        h.imp (fun a b hpq => hpq.1)
      have hfind := forall2_find_isSome r.1 t t' hkeys
      rw [extUpsert, extUpsert]
      by_cases hs : (t.find? (fun p => decide (p.1 = r.1))).isSome
      · rw [if_pos hs, if_pos (by rw [← hfind]; exact hs)]
        refine forall2_map_both (ERel ((r :: rs).map Prod.fst))
          (ERel (rs.map Prod.fst)) _ _ ?_ h
        intro p q hpq
        by_cases hk : p.1 = r.1
        · rw [if_pos hk, if_pos (by rw [← hpq.1]; exact hk)]
          exact ⟨rfl, fun _ => rfl⟩
        · rw [if_neg hk, if_neg (by rw [← hpq.1]; exact hk)]
          refine ⟨hpq.1, fun hnot => hpq.2 ?_⟩
          rw [List.map_cons]
          intro hmem
          rcases List.mem_cons.mp hmem with he | hm
          · exact hk he
          · exact hnot hm
      · rw [if_neg hs, if_neg (by rw [← hfind]; exact hs)]
        apply forall2_append_one _ r r ⟨rfl, fun _ => rfl⟩
        refine forall2_imp_mem _ _ h ?_
        intro p q hp hpq
        refine ⟨hpq.1, fun hnot => hpq.2 ?_⟩
        rw [List.map_cons]
        intro hmem
        rcases List.mem_cons.mp hmem with he | hm
        · have hnone : t.find? (fun p => decide (p.1 = r.1)) = Option.none :=
            Option.not_isSome_iff_eq_none.mp hs
          exact absurd he (by simpa using List.find?_eq_none.mp hnone p hp)
        · exact hnot hm

theorem ext_fold_key_entries (rs : List ((PyVal × Nat) × ExtData))
    (k : PyVal × Nat) (v : (PyVal × Nat) × ExtData)
    (hk : k ∉ rs.map Prod.fst) :
    ∀ t : List ((PyVal × Nat) × ExtData),
      (∀ p ∈ t, p.1 = k → p = v) →
      ∀ p ∈ rs.foldl extUpsert t, p.1 = k → p = v := by
  induction rs with
  | nil => intro t h; exact h
  | cons r rest ih =>
      intro t h
      rw [List.foldl_cons]
      have hrk : r.1 ≠ k := by
        intro he
        exact hk (by rw [List.map_cons, ← he]; exact List.mem_cons_self _ _)
      have hk2 : k ∉ rest.map Prod.fst := by
        intro hm
        exact hk (by rw [List.map_cons]; exact List.mem_cons_of_mem _ hm)
      apply ih hk2
      intro p hp hpk
      rw [extUpsert] at hp
      by_cases hs : (t.find? (fun q => decide (q.1 = r.1))).isSome
      · rw [if_pos hs] at hp
        rcases List.mem_map.mp hp with ⟨q, hq, hfq⟩
        by_cases hqr : q.1 = r.1
        · rw [if_pos hqr] at hfq
          exfalso
          exact hrk (by rw [hfq]; exact hpk)
        · rw [if_neg hqr] at hfq
          rw [← hfq]
          exact h q hq (by rw [hfq]; exact hpk)
      · rw [if_neg hs] at hp
        rcases List.mem_append.mp hp with hin | hin
        · exact h p hin hpk
        · exfalso
          rw [List.mem_singleton] at hin
          exact hrk (by rw [← hin]; exact hpk)

theorem ext_fold_isSome_mono (rs : List ((PyVal × Nat) × ExtData)) :
    ∀ (t : List ((PyVal × Nat) × ExtData)) (k : PyVal × Nat),
      (klookup t k).isSome → (klookup (rs.foldl extUpsert t) k).isSome := by
  induction rs with
  | nil => intro t k h; exact h
  | cons r rest ih =>
      intro t k h
      rw [List.foldl_cons]
      exact ih _ k (klookup_isSome_mono t r k h)

theorem klookup_isSome_find (t : List ((PyVal × Nat) × ExtData))
    (k : PyVal × Nat) :
    (klookup t k).isSome = (t.find? (fun p => decide (p.1 = k))).isSome := by
  rw [klookup]
  rcases hx : t.find? (fun p => decide (p.1 = k)) with _ | v <;> rw [hx] <;> rfl

theorem ext_fold_twice (R : List ((PyVal × Nat) × ExtData)) :
    ∀ t : List ((PyVal × Nat) × ExtData),
      R.foldl extUpsert (R.foldl extUpsert t) = R.foldl extUpsert t := by
  induction R with
  | nil => intro t; rfl
  | cons r rs ih =>
      intro t
      rw [List.foldl_cons, List.foldl_cons]
      have hpres : (klookup (rs.foldl extUpsert (extUpsert t r)) r.1).isSome := by
        apply ext_fold_isSome_mono
        rw [klookup_extUpsert_self]
        rfl
      have hfind : ((rs.foldl extUpsert (extUpsert t r)).find?
          (fun p => decide (p.1 = r.1))).isSome := by
        rw [← klookup_isSome_find]
        exact hpres
      by_cases hr : r.1 ∈ rs.map Prod.fst
      · have hstep : extUpsert (rs.foldl extUpsert (extUpsert t r)) r =
            (rs.foldl extUpsert (extUpsert t r)).map
              (fun p => if p.1 = r.1 then r else p) := by
          rw [extUpsert, if_pos hfind]
        rw [hstep]
        have hcongr := ext_fold_congr rs
          ((rs.foldl extUpsert (extUpsert t r)).map
            (fun p => if p.1 = r.1 then r else p))
          (rs.foldl extUpsert (extUpsert t r))
          (by
            apply forall2_map_left
            intro p hp
            by_cases hk : p.1 = r.1
            · rw [if_pos hk]
              exact ⟨hk.symm, fun hnot => absurd hr hnot⟩
            · rw [if_neg hk]
              exact ⟨rfl, fun _ => rfl⟩)
        rw [hcongr, ih (extUpsert t r)]
      · have hkey : ∀ p ∈ rs.foldl extUpsert (extUpsert t r),
            p.1 = r.1 → p = r := by
          apply ext_fold_key_entries rs r.1 r hr
          intro p hp hpk
          rw [extUpsert] at hp
          by_cases hs : (t.find? (fun q => decide (q.1 = r.1))).isSome
          · rw [if_pos hs] at hp
            rcases List.mem_map.mp hp with ⟨q, hq, hfq⟩
            by_cases hqr : q.1 = r.1
            · rw [if_pos hqr] at hfq
              exact hfq.symm
            · rw [if_neg hqr] at hfq
              exfalso
              exact hqr (by rw [hfq]; exact hpk)
          · rw [if_neg hs] at hp
            rcases List.mem_append.mp hp with hin | hin
            · exfalso
              have hnone : t.find? (fun q => decide (q.1 = r.1)) = Option.none :=
                Option.not_isSome_iff_eq_none.mp hs
              exact absurd hpk (by simpa using List.find?_eq_none.mp hnone p hin)
            · exact List.mem_singleton.mp hin
        have hstep : extUpsert (rs.foldl extUpsert (extUpsert t r)) r =
            rs.foldl extUpsert (extUpsert t r) := by
          rw [extUpsert, if_pos hfind]
          have hid : ∀ p ∈ rs.foldl extUpsert (extUpsert t r),
              (if p.1 = r.1 then r else p) = p := by
            intro p hp
            by_cases hk : p.1 = r.1
            · rw [if_pos hk, hkey p hp hk]
            · rw [if_neg hk]
          rw [List.map_congr_left hid]
          exact List.map_id _
        rw [hstep, ih (extUpsert t r)]

theorem importRun_parts (now bs : Nat) (s : Store) (l : List MangaData) :
    (importRun now bs s l).external_sources = s.external_sources ∧
    (importRun now bs s l).manga =
      (l.map rowOf).foldl (manga_upsert now) s.manga ∧
    (importRun now bs s l).manga_secondary_titles =
      saddAll s.manga_secondary_titles (secondaryTitleRows l) ∧
    (importRun now bs s l).manga_covers =
      saddAll s.manga_covers (coverRows l) ∧
    (importRun now bs s l).manga_links =
      saddAll s.manga_links (linkRows l) ∧
    (importRun now bs s l).manga_external_sources =
      (externalRows s.external_sources.rows l).foldl extUpsert
        s.manga_external_sources := by
  have h1 := phase1_fold_all now (chunk bs l) (load_caches s)
  have h2 := phase2_fold_all (chunk bs l)
      ((chunk bs l).foldl (phase1_batch now) (load_caches s))
  have e : importRun now bs s l =
      ((chunk bs l).foldl phase2_batch
        ((chunk bs l).foldl (phase1_batch now) (load_caches s))).store := rfl
  refine ⟨?_, ?_, ?_, ?_, ?_, ?_⟩
  · rw [e, h2.2.2.2.2.2.2.2.2.2.2.2.2.2.1]
    exact h1.2.2.2.2.2.2.1
  · rw [e, h2.2.2.2.2.2.2.2.1, h1.2.2.2.2.2.1, chunk_flatten]
    rfl
  · rw [e, h2.2.2.2.2.2.2.2.2.2.2.2.2.2.2.1,
      h1.2.2.2.2.2.2.2.2.2.2.2.2.2.1,
      secondaryTitleRows_flatten, chunk_flatten]
    rfl
  · rw [e, h2.2.2.2.2.2.2.2.2.2.2.2.2.2.2.2.1,
      h1.2.2.2.2.2.2.2.2.2.2.2.2.2.2.1,
      coverRows_flatten, chunk_flatten]
    rfl
  · rw [e, h2.2.2.2.2.2.2.2.2.2.2.2.2.2.2.2.2.2.2.2.2.2.1,
      h1.2.2.2.2.2.2.2.2.2.2.2.2.2.2.2.1,
      linkRows_flatten, chunk_flatten]
    rfl
  · rw [e, h2.2.2.2.2.2.2.2.2.2.2.2.2.2.2.2.2.2.2.2.2.2.2.2,
      h1.2.2.2.2.2.2.2.1, h1.2.2.2.2.2.2.2.2.2.2.2.2.2.2.2.2,
      externalRows_flatten, chunk_flatten]
    rfl

theorem importRun_authors_pair (now bs : Nat) (s : Store) (l : List MangaData) :
    (importRun now bs s l).authors =
      (((chunk bs l).map (batchNames false (fun m => m.authors))).foldl
        (fun p ns => ensure_names p.1 p.2 ns) (s.authors, s.authors.rows)).1 ∧
    (importRun now bs s l).manga_authors =
      saddAll s.manga_authors
        (joinRows ((((chunk bs l).map (batchNames false (fun m => m.authors))).foldl
        (fun p ns => ensure_names p.1 p.2 ns) (s.authors, s.authors.rows)).2)
          (fun m => m.authors) l) := by
  have h1 := phase1_fold_all now (chunk bs l) (load_caches s)
  have h2 := phase2_fold_all (chunk bs l)
      ((chunk bs l).foldl (phase1_batch now) (load_caches s))
  have e : importRun now bs s l =
      ((chunk bs l).foldl phase2_batch
        ((chunk bs l).foldl (phase1_batch now) (load_caches s))).store := rfl
  constructor
  · rw [e, h2.2.2.2.2.2.2.2.2.1]
    exact congrArg Prod.fst h1.1
  · rw [e, h2.2.2.2.2.2.2.2.2.2.2.2.2.2.2.2.2.1, h1.2.2.2.2.2.2.2.2.1,
      show ((chunk bs l).foldl (phase1_batch now) (load_caches s)).authors_cache =
        (((chunk bs l).map (batchNames false (fun m => m.authors))).foldl
        (fun p ns => ensure_names p.1 p.2 ns) (s.authors, s.authors.rows)).2
      from congrArg Prod.snd h1.1,
      joinRows_flatten, chunk_flatten]
    rfl

theorem importRun_artists_pair (now bs : Nat) (s : Store) (l : List MangaData) :
    (importRun now bs s l).artists =
      (((chunk bs l).map (batchNames false (fun m => m.artists))).foldl
        (fun p ns => ensure_names p.1 p.2 ns) (s.artists, s.artists.rows)).1 ∧
    (importRun now bs s l).manga_artists =
      saddAll s.manga_artists
        (joinRows ((((chunk bs l).map (batchNames false (fun m => m.artists))).foldl
        (fun p ns => ensure_names p.1 p.2 ns) (s.artists, s.artists.rows)).2)
          (fun m => m.artists) l) := by
  have h1 := phase1_fold_all now (chunk bs l) (load_caches s)
  have h2 := phase2_fold_all (chunk bs l)
      ((chunk bs l).foldl (phase1_batch now) (load_caches s))
  have e : importRun now bs s l =
      ((chunk bs l).foldl phase2_batch
        ((chunk bs l).foldl (phase1_batch now) (load_caches s))).store := rfl
  constructor
  · rw [e, h2.2.2.2.2.2.2.2.2.2.1]
    exact congrArg Prod.fst h1.2.1
  · rw [e, h2.2.2.2.2.2.2.2.2.2.2.2.2.2.2.2.2.2.1, h1.2.2.2.2.2.2.2.2.2.1,
      show ((chunk bs l).foldl (phase1_batch now) (load_caches s)).artists_cache =
        (((chunk bs l).map (batchNames false (fun m => m.artists))).foldl
        (fun p ns => ensure_names p.1 p.2 ns) (s.artists, s.artists.rows)).2
      from congrArg Prod.snd h1.2.1,
      joinRows_flatten, chunk_flatten]
    rfl

theorem importRun_genres_pair (now bs : Nat) (s : Store) (l : List MangaData) :
    (importRun now bs s l).genres =
      (((chunk bs l).map (batchNames false (fun m => m.genres))).foldl
        (fun p ns => ensure_names p.1 p.2 ns) (s.genres, s.genres.rows)).1 ∧
    (importRun now bs s l).manga_genres =
      saddAll s.manga_genres
        (joinRows ((((chunk bs l).map (batchNames false (fun m => m.genres))).foldl
        (fun p ns => ensure_names p.1 p.2 ns) (s.genres, s.genres.rows)).2)
          (fun m => m.genres) l) := by
  have h1 := phase1_fold_all now (chunk bs l) (load_caches s)
  have h2 := phase2_fold_all (chunk bs l)
      ((chunk bs l).foldl (phase1_batch now) (load_caches s))
  have e : importRun now bs s l =
      ((chunk bs l).foldl phase2_batch
        ((chunk bs l).foldl (phase1_batch now) (load_caches s))).store := rfl
  constructor
  · rw [e, h2.2.2.2.2.2.2.2.2.2.2.1]
    exact congrArg Prod.fst h1.2.2.1
  · rw [e, h2.2.2.2.2.2.2.2.2.2.2.2.2.2.2.2.2.2.2.1, h1.2.2.2.2.2.2.2.2.2.2.1,
      show ((chunk bs l).foldl (phase1_batch now) (load_caches s)).genres_cache =
        (((chunk bs l).map (batchNames false (fun m => m.genres))).foldl
        (fun p ns => ensure_names p.1 p.2 ns) (s.genres, s.genres.rows)).2
      from congrArg Prod.snd h1.2.2.1,
      joinRows_flatten, chunk_flatten]
    rfl

theorem importRun_tags_pair (now bs : Nat) (s : Store) (l : List MangaData) :
    (importRun now bs s l).tags =
      (((chunk bs l).map (batchNames true (fun m => m.tags))).foldl
        (fun p ns => ensure_names p.1 p.2 ns) (s.tags, s.tags.rows)).1 ∧
    (importRun now bs s l).manga_tags =
      saddAll s.manga_tags
        (joinRows ((((chunk bs l).map (batchNames true (fun m => m.tags))).foldl
        (fun p ns => ensure_names p.1 p.2 ns) (s.tags, s.tags.rows)).2)
          (fun m => m.tags) l) := by
  have h1 := phase1_fold_all now (chunk bs l) (load_caches s)
  have h2 := phase2_fold_all (chunk bs l)
      ((chunk bs l).foldl (phase1_batch now) (load_caches s))
  have e : importRun now bs s l =
      ((chunk bs l).foldl phase2_batch
        ((chunk bs l).foldl (phase1_batch now) (load_caches s))).store := rfl
  constructor
  · rw [e, h2.2.2.2.2.2.2.2.2.2.2.2.1]
    exact congrArg Prod.fst h1.2.2.2.1
  · rw [e, h2.2.2.2.2.2.2.2.2.2.2.2.2.2.2.2.2.2.2.2.1, h1.2.2.2.2.2.2.2.2.2.2.2.1,
      show ((chunk bs l).foldl (phase1_batch now) (load_caches s)).tags_cache =
        (((chunk bs l).map (batchNames true (fun m => m.tags))).foldl
        (fun p ns => ensure_names p.1 p.2 ns) (s.tags, s.tags.rows)).2
      from congrArg Prod.snd h1.2.2.2.1,
      joinRows_flatten, chunk_flatten]
    rfl

theorem importRun_publishers_pair (now bs : Nat) (s : Store) (l : List MangaData) :
    (importRun now bs s l).publishers =
      (((chunk bs l).map (batchNames true (fun m => m.publishers))).foldl
        (fun p ns => ensure_names p.1 p.2 ns) (s.publishers, s.publishers.rows)).1 ∧
    (importRun now bs s l).manga_publishers =
      saddAll s.manga_publishers
        (joinRows ((((chunk bs l).map (batchNames true (fun m => m.publishers))).foldl
        (fun p ns => ensure_names p.1 p.2 ns) (s.publishers, s.publishers.rows)).2)
          (fun m => m.publishers) l) := by
  have h1 := phase1_fold_all now (chunk bs l) (load_caches s)
  have h2 := phase2_fold_all (chunk bs l)
      ((chunk bs l).foldl (phase1_batch now) (load_caches s))
  have e : importRun now bs s l =
      ((chunk bs l).foldl phase2_batch
        ((chunk bs l).foldl (phase1_batch now) (load_caches s))).store := rfl
  constructor
  · rw [e, h2.2.2.2.2.2.2.2.2.2.2.2.2.1]
    exact congrArg Prod.fst h1.2.2.2.2.1
  · rw [e, h2.2.2.2.2.2.2.2.2.2.2.2.2.2.2.2.2.2.2.2.2.1, h1.2.2.2.2.2.2.2.2.2.2.2.2.1,
      show ((chunk bs l).foldl (phase1_batch now) (load_caches s)).publishers_cache =
        (((chunk bs l).map (batchNames true (fun m => m.publishers))).foldl
        (fun p ns => ensure_names p.1 p.2 ns) (s.publishers, s.publishers.rows)).2
      from congrArg Prod.snd h1.2.2.2.2.1,
      joinRows_flatten, chunk_flatten]
    rfl

theorem slot_idem (g : Bool) (f : MangaData → PyVal) (bs : Nat)
    (es : List MangaData) (t : LookupTable) (hwf : lookupWF t)
    (MX : List (PyVal × Nat)) (A1 A2 : LookupTable) (M1 M2 : List (PyVal × Nat))
    (h1 : A1 = (((chunk bs es).map (batchNames g f)).foldl
        (fun p ns => ensure_names p.1 p.2 ns) (t, t.rows)).1)
    (hm1 : M1 = saddAll MX
      (joinRows ((((chunk bs es).map (batchNames g f)).foldl
        (fun p ns => ensure_names p.1 p.2 ns) (t, t.rows)).2) f es))
    (h2 : A2 = (((chunk bs es).map (batchNames g f)).foldl
        (fun p ns => ensure_names p.1 p.2 ns) (A1, A1.rows)).1)
    (hm2 : M2 = saddAll M1
      (joinRows ((((chunk bs es).map (batchNames g f)).foldl
        (fun p ns => ensure_names p.1 p.2 ns) (A1, A1.rows)).2) f es)) :
    A2 = A1 ∧ M2 = M1 := by
  subst h1
  have jp := join_pipeline g f (chunk bs es) t hwf
  rw [chunk_flatten] at jp
  constructor
  · rw [h2, jp.1]
  · rw [hm2, hm1]
    rw [show (((chunk bs es).map (batchNames g f)).foldl
        (fun p ns => ensure_names p.1 p.2 ns)
        (((((chunk bs es).map (batchNames g f)).foldl
            (fun p ns => ensure_names p.1 p.2 ns) (t, t.rows)).1),
         (((chunk bs es).map (batchNames g f)).foldl
            (fun p ns => ensure_names p.1 p.2 ns) (t, t.rows)).1.rows)).2 =
      (((chunk bs es).map (batchNames g f)).foldl
        (fun p ns => ensure_names p.1 p.2 ns) (t, t.rows)).1.rows
      from congrArg Prod.snd jp.1]
    exact jp.2.2 MX

theorem getLast?_mem_of {α : Type} (l : List α) (a : α)
    (h : l.getLast? = some a) : a ∈ l := by
  cases l with
  | nil => cases h
  | cons x xs =>
      rw [List.getLast?_eq_getLast (x :: xs) (by simp)] at h
      rw [← Option.some.inj h]
      exact List.getLast_mem (by simp)

theorem lastRowWith_isSome_mem (rows : List MangaRow) (i : PyVal)
    (rl : MangaRow) (h : lastRowWith rows i = some rl) :
    rl ∈ rows ∧ rl.id = i := by
  rw [lastRowWith] at h
  have hm := getLast?_mem_of _ _ h
  have hf := List.mem_filter.mp hm
  exact ⟨hf.1, by simpa using hf.2⟩

/-- C4 (amended): importing the same parsed file twice against the same store
is idempotent up to the primary rows' `updated_at` timestamp and `type`
column.  The second run leaves every lookup table, join table and child table
exactly as the first run left it (every such write is an insert-or-ignore or
an upsert of identical data), the primary (manga) table keeps the same ids
with the same business columns and creation timestamps (only `updated_at` is
touched again), and every imported id's final row carries the fields of the
most recently imported record for that id in *all columns except `type`*,
which is missing from the conflict-update list. -/
theorem import_idempotent_modulo_type (n1 n2 bs : Nat) (s : Store)
    (es : List MangaData)
    (hwa : lookupWF s.authors) (hwr : lookupWF s.artists)
    (hwg : lookupWF s.genres) (hwt : lookupWF s.tags)
    (hwp : lookupWF s.publishers) :
    (importRun n2 bs (importRun n1 bs s es) es).authors =
      (importRun n1 bs s es).authors ∧
    (importRun n2 bs (importRun n1 bs s es) es).artists =
      (importRun n1 bs s es).artists ∧
    (importRun n2 bs (importRun n1 bs s es) es).genres =
      (importRun n1 bs s es).genres ∧
    (importRun n2 bs (importRun n1 bs s es) es).tags =
      (importRun n1 bs s es).tags ∧
    (importRun n2 bs (importRun n1 bs s es) es).publishers =
      (importRun n1 bs s es).publishers ∧
    (importRun n2 bs (importRun n1 bs s es) es).external_sources =
      (importRun n1 bs s es).external_sources ∧
    (importRun n2 bs (importRun n1 bs s es) es).manga_authors =
      (importRun n1 bs s es).manga_authors ∧
    (importRun n2 bs (importRun n1 bs s es) es).manga_artists =
      (importRun n1 bs s es).manga_artists ∧
    (importRun n2 bs (importRun n1 bs s es) es).manga_genres =
      (importRun n1 bs s es).manga_genres ∧
    (importRun n2 bs (importRun n1 bs s es) es).manga_tags =
      (importRun n1 bs s es).manga_tags ∧
    (importRun n2 bs (importRun n1 bs s es) es).manga_publishers =
      (importRun n1 bs s es).manga_publishers ∧
    (importRun n2 bs (importRun n1 bs s es) es).manga_secondary_titles =
      (importRun n1 bs s es).manga_secondary_titles ∧
    (importRun n2 bs (importRun n1 bs s es) es).manga_covers =
      (importRun n1 bs s es).manga_covers ∧
    (importRun n2 bs (importRun n1 bs s es) es).manga_links =
      (importRun n1 bs s es).manga_links ∧
    (importRun n2 bs (importRun n1 bs s es) es).manga_relationships =
      (importRun n1 bs s es).manga_relationships ∧
    (importRun n2 bs (importRun n1 bs s es) es).manga_external_sources =
      (importRun n1 bs s es).manga_external_sources ∧
    (importRun n2 bs (importRun n1 bs s es) es).manga.map Prod.fst =
      (importRun n1 bs s es).manga.map Prod.fst ∧
    (∀ i st2, (importRun n2 bs (importRun n1 bs s es) es).manga.lookup i =
        some st2 →
      ∃ st1, (importRun n1 bs s es).manga.lookup i = some st1 ∧
        st2.row = st1.row ∧ st2.createdAt = st1.createdAt) ∧
    (∀ i rl, lastRowWith (es.map rowOf) i = some rl →
      ∃ st, (importRun n2 bs (importRun n1 bs s es) es).manga.lookup i =
          some st ∧
        st.row = { rl with type := st.row.type } ∧ st.updatedAt = n2) := by
  have p1 := importRun_parts n1 bs s es
  have p2 := importRun_parts n2 bs (importRun n1 bs s es) es
  have pa1 := importRun_authors_pair n1 bs s es
  have pa2 := importRun_authors_pair n2 bs (importRun n1 bs s es) es
  have pr1 := importRun_artists_pair n1 bs s es
  have pr2 := importRun_artists_pair n2 bs (importRun n1 bs s es) es
  have pg1 := importRun_genres_pair n1 bs s es
  have pg2 := importRun_genres_pair n2 bs (importRun n1 bs s es) es
  have pt1 := importRun_tags_pair n1 bs s es
  have pt2 := importRun_tags_pair n2 bs (importRun n1 bs s es) es
  have pp1 := importRun_publishers_pair n1 bs s es
  have pp2 := importRun_publishers_pair n2 bs (importRun n1 bs s es) es
  have sa := slot_idem false (fun m => m.authors) bs es s.authors hwa
      s.manga_authors (importRun n1 bs s es).authors
      (importRun n2 bs (importRun n1 bs s es) es).authors
      (importRun n1 bs s es).manga_authors
      (importRun n2 bs (importRun n1 bs s es) es).manga_authors
      pa1.1 pa1.2 pa2.1 pa2.2
  have sr := slot_idem false (fun m => m.artists) bs es s.artists hwr
      s.manga_artists (importRun n1 bs s es).artists
      (importRun n2 bs (importRun n1 bs s es) es).artists
      (importRun n1 bs s es).manga_artists
      (importRun n2 bs (importRun n1 bs s es) es).manga_artists
      pr1.1 pr1.2 pr2.1 pr2.2
  have sg := slot_idem false (fun m => m.genres) bs es s.genres hwg
      s.manga_genres (importRun n1 bs s es).genres
      (importRun n2 bs (importRun n1 bs s es) es).genres
      (importRun n1 bs s es).manga_genres
      (importRun n2 bs (importRun n1 bs s es) es).manga_genres
      pg1.1 pg1.2 pg2.1 pg2.2
  have stg := slot_idem true (fun m => m.tags) bs es s.tags hwt
      s.manga_tags (importRun n1 bs s es).tags
      (importRun n2 bs (importRun n1 bs s es) es).tags
      (importRun n1 bs s es).manga_tags
      (importRun n2 bs (importRun n1 bs s es) es).manga_tags
      pt1.1 pt1.2 pt2.1 pt2.2
  have sp := slot_idem true (fun m => m.publishers) bs es s.publishers hwp
      s.manga_publishers (importRun n1 bs s es).publishers
      (importRun n2 bs (importRun n1 bs s es) es).publishers
      (importRun n1 bs s es).manga_publishers
      (importRun n2 bs (importRun n1 bs s es) es).manga_publishers
      pp1.1 pp1.2 pp2.1 pp2.2
  have hm1 : (importRun n1 bs s es).manga =
      (es.map rowOf).foldl (manga_upsert n1) s.manga := p1.2.1
  have hm2 : (importRun n2 bs (importRun n1 bs s es) es).manga =
      (es.map rowOf).foldl (manga_upsert n2) (importRun n1 bs s es).manga :=
    p2.2.1
  have hpres1 : ∀ r ∈ es.map rowOf,
      ((importRun n1 bs s es).manga.lookup r.id).isSome := by
    intro r hr
    rw [hm1]
    exact manga_fold_present_after n1 (es.map rowOf) s.manga r hr
  have hsec : (importRun n2 bs (importRun n1 bs s es) es).manga_secondary_titles =
      (importRun n1 bs s es).manga_secondary_titles := by
    rw [p2.2.2.1]
    apply sadd_absorb
    intro x hx
    rw [p1.2.2.1, mem_saddAll]
    exact Or.inr hx
  have hcov : (importRun n2 bs (importRun n1 bs s es) es).manga_covers =
      (importRun n1 bs s es).manga_covers := by
    rw [p2.2.2.2.1]
    apply sadd_absorb
    intro x hx
    rw [p1.2.2.2.1, mem_saddAll]
    exact Or.inr hx
  have hlnk : (importRun n2 bs (importRun n1 bs s es) es).manga_links =
      (importRun n1 bs s es).manga_links := by
    rw [p2.2.2.2.2.1]
    apply sadd_absorb
    intro x hx
    rw [p1.2.2.2.2.1, mem_saddAll]
    exact Or.inr hx
  have hrel : (importRun n2 bs (importRun n1 bs s es) es).manga_relationships =
      (importRun n1 bs s es).manga_relationships := by
    rw [importRun_relationships n2 bs (importRun n1 bs s es) es]
    apply sadd_absorb
    intro x hx
    rw [importRun_relationships n1 bs s es, mem_saddAll]
    exact Or.inr hx
  have hext : (importRun n2 bs (importRun n1 bs s es) es).manga_external_sources =
      (importRun n1 bs s es).manga_external_sources := by
    rw [p2.2.2.2.2.2, p1.1, p1.2.2.2.2.2]
    exact ext_fold_twice _ _
  have hkeys : (importRun n2 bs (importRun n1 bs s es) es).manga.map Prod.fst =
      (importRun n1 bs s es).manga.map Prod.fst := by
    rw [hm2]
    exact manga_fold_keys_present n2 (es.map rowOf)
      (importRun n1 bs s es).manga hpres1
  have hcontent : ∀ i st2,
      (importRun n2 bs (importRun n1 bs s es) es).manga.lookup i = some st2 →
      ∃ st1, (importRun n1 bs s es).manga.lookup i = some st1 ∧
        st2.row = st1.row ∧ st2.createdAt = st1.createdAt := by
    intro i st2 hst2
    rw [hm2] at hst2
    rcases hl1 : (importRun n1 bs s es).manga.lookup i with _ | st1
    · exfalso
      rw [manga_fold_lookup_absent n2 (es.map rowOf) _ i hl1] at hst2
      rcases hlast : lastRowWith (es.map rowOf) i with _ | rl
      · rw [hlast] at hst2
        cases hst2
      · obtain ⟨hmem, hid⟩ := lastRowWith_isSome_mem _ _ _ hlast
        have hpr := hpres1 rl hmem
        rw [hid, hl1] at hpr
        cases hpr
    · rw [manga_fold_lookup_present n2 (es.map rowOf) _ i st1 hl1] at hst2
      rcases hlast : lastRowWith (es.map rowOf) i with _ | rl
      · rw [hlast] at hst2
        have hst2e : st1 = st2 := Option.some.inj hst2
        exact ⟨st1, rfl, by rw [← hst2e], by rw [← hst2e]⟩
      · rw [hlast] at hst2
        have hst2e : st2 =
            ⟨{ rl with type := st1.row.type }, st1.createdAt, n2⟩ :=
          (Option.some.inj hst2).symm
        rw [hm1] at hl1
        refine ⟨st1, rfl, ?_, ?_⟩
        · rcases hl0 : s.manga.lookup i with _ | old
          · rw [manga_fold_lookup_absent n1 (es.map rowOf) _ i hl0,
              hlast] at hl1
            have hst1e := Option.some.inj hl1
            rw [hst2e, ← hst1e]
          · rw [manga_fold_lookup_present n1 (es.map rowOf) _ i old hl0,
              hlast] at hl1
            have hst1e := Option.some.inj hl1
            rw [hst2e, ← hst1e]
        · rw [hst2e]
  have hlastrow : ∀ i rl, lastRowWith (es.map rowOf) i = some rl →
      ∃ st, (importRun n2 bs (importRun n1 bs s es) es).manga.lookup i =
          some st ∧
        st.row = { rl with type := st.row.type } ∧ st.updatedAt = n2 := by
    intro i rl hlast
    obtain ⟨hmem, hid⟩ := lastRowWith_isSome_mem _ _ _ hlast
    have hpr := hpres1 rl hmem
    rw [hid] at hpr
    rcases hl1 : (importRun n1 bs s es).manga.lookup i with _ | st1
    · rw [hl1] at hpr
      cases hpr
    · refine ⟨⟨{ rl with type := st1.row.type }, st1.createdAt, n2⟩, ?_, rfl, rfl⟩
      rw [hm2, manga_fold_lookup_present n2 (es.map rowOf) _ i st1 hl1, hlast]
  exact ⟨sa.1, sr.1, sg.1, stg.1, sp.1, p2.1, sa.2, sr.2, sg.2, stg.2, sp.2,
    hsec, hcov, hlnk, hrel, hext, hkeys, hcontent, hlastrow⟩

/-- C4 counterexample to the literal claim: with id 1 already stored with
type "manhwa", importing a record carrying type "manga" twice leaves the
stored type at "manhwa", so the final primary-entity row's fields do not all
equal those of the most recently imported record for its id. -/
theorem import_idempotent_counterexample :
    (((importRun 2 1000
        (importRun 1 1000
          ⟨[(PyVal.num 1,
              ⟨rowOf (parse_manga_json "t0"
                [("id", PyVal.num 1), ("type", PyVal.str "manhwa")]), 0, 0⟩)],
            ⟨[], 1⟩, ⟨[], 1⟩, ⟨[], 1⟩, ⟨[], 1⟩, ⟨[], 1⟩, ⟨[], 1⟩,
            [], [], [], [], [], [], [], [], [], []⟩
          [parse_manga_json "t1"
            [("id", PyVal.num 1), ("type", PyVal.str "manga")]])
        [parse_manga_json "t1"
          [("id", PyVal.num 1), ("type", PyVal.str "manga")]]).manga.lookup
      (PyVal.num 1)).map (fun st => st.row.type)) = some (PyVal.str "manhwa") ∧
    lastRowWith
        ([parse_manga_json "t1"
          [("id", PyVal.num 1), ("type", PyVal.str "manga")]].map rowOf)
        (PyVal.num 1) =
      some (rowOf (parse_manga_json "t1"
        [("id", PyVal.num 1), ("type", PyVal.str "manga")])) ∧
    (rowOf (parse_manga_json "t1"
        [("id", PyVal.num 1), ("type", PyVal.str "manga")])).type =
      PyVal.str "manga" ∧
    PyVal.str "manhwa" ≠ PyVal.str "manga" := by
  have hrun : ∀ (now : Nat) (S : Store),
      importRun now 1000 S
        [parse_manga_json "t1"
          [("id", PyVal.num 1), ("type", PyVal.str "manga")]] =
      (phase2_batch (phase1_batch now (load_caches S)
          [parse_manga_json "t1"
            [("id", PyVal.num 1), ("type", PyVal.str "manga")]])
        [parse_manga_json "t1"
          [("id", PyVal.num 1), ("type", PyVal.str "manga")]]).store := by
    intro now S
    show ((chunk 1000 [parse_manga_json "t1"
        [("id", PyVal.num 1), ("type", PyVal.str "manga")]]).foldl phase2_batch
      ((chunk 1000 [parse_manga_json "t1"
        [("id", PyVal.num 1), ("type", PyVal.str "manga")]]).foldl
        (phase1_batch now) (load_caches S))).store = _
    rw [show chunk 1000 [parse_manga_json "t1"
        [("id", PyVal.num 1), ("type", PyVal.str "manga")]] =
      [[parse_manga_json "t1"
        [("id", PyVal.num 1), ("type", PyVal.str "manga")]]]
      from by simp [chunk]]
    rfl
  refine ⟨?_, by decide, by decide, by decide⟩
  rw [hrun, hrun]
  decide

/-- Witness for C4 at a concrete input: the empty store satisfies the
well-formedness hypotheses and a double import of one record leaves the
first run's authors lookup table unchanged. -/
theorem import_idempotent_modulo_type_witness :
    lookupWF (⟨[], 1⟩ : LookupTable) ∧
    (importRun 2 1000
        (importRun 1 1000
          ⟨[], ⟨[], 1⟩, ⟨[], 1⟩, ⟨[], 1⟩, ⟨[], 1⟩, ⟨[], 1⟩, ⟨[], 1⟩,
            [], [], [], [], [], [], [], [], [], []⟩
          [parse_manga_json "t" [("id", PyVal.num 7),
            ("authors", PyVal.list [PyVal.str "A"])]])
        [parse_manga_json "t" [("id", PyVal.num 7),
          ("authors", PyVal.list [PyVal.str "A"])]]).authors =
      (importRun 1 1000
        ⟨[], ⟨[], 1⟩, ⟨[], 1⟩, ⟨[], 1⟩, ⟨[], 1⟩, ⟨[], 1⟩, ⟨[], 1⟩,
          [], [], [], [], [], [], [], [], [], []⟩
        [parse_manga_json "t" [("id", PyVal.num 7),
          ("authors", PyVal.list [PyVal.str "A"])]]).authors :=
  ⟨by simp [lookupWF],
   (import_idempotent_modulo_type 1 2 1000
      ⟨[], ⟨[], 1⟩, ⟨[], 1⟩, ⟨[], 1⟩, ⟨[], 1⟩, ⟨[], 1⟩, ⟨[], 1⟩,
        [], [], [], [], [], [], [], [], [], []⟩
      [parse_manga_json "t" [("id", PyVal.num 7),
        ("authors", PyVal.list [PyVal.str "A"])]]
      (by simp [lookupWF]) (by simp [lookupWF]) (by simp [lookupWF])
      (by simp [lookupWF]) (by simp [lookupWF])).1⟩
